import Mathlib

/-!
# BowPad: `StdRegexSearch` (src/StdRegexSearch.cpp)

A shallow embedding of the regular-expression search engine BowPad plugs into
Scintilla, and theorems about its public entry points `FindText` and
`SubstituteByPosition`.

The engine rests on three collaborators that are not part of the file:

* the Scintilla `Document` (byte reads, length, boundary adjustment),
* the C++ standard regex library (`std::basic_regex`, `std::regex_search`,
  `std::match_results`) together with `UTF8DocumentIterator`,
* the Win32 code-page conversions `MultiByteToWideChar` / `WideCharToMultiByte`.

They are taken as parameters (`Document`, `RegexLib`).  Object state that C++
mutates in place is passed explicitly and returned.  The retry loop of the
backward search is driven by a fuel counter; running out of fuel is reported as
`none` and never confused with a result of the code.
-/

namespace Scintilla

/-- Contents of a `std::string` or of a NUL-terminated `const char*`: the bytes, without terminator. -/
abbrev Bytes := List Nat

/-- Contents of a `std::wstring`: UTF-16 code units. -/
abbrev WString := List Nat

/-- The part of Scintilla's `Document` the engine calls. `Sci::Position` is a signed
integer; `CharAt` is total (Scintilla answers `0` outside the buffer). -/
structure Document where
  CharAt : Int → Int
  Length : Int
  MovePositionOutsideChar : Int → Int → Bool → Int

/-- The standard regex library and the code-page conversions, as used by the engine.

* `basic_regex w f` is the constructor `Regex(w, f)`; `none` stands for a thrown
  `std::regex_error`.
* `regex_search doc first last re flags` is
  `std::regex_search(CharacterIterator(doc, first), CharacterIterator(doc, last), m, re, flags)`:
  the returned pair is the boolean result and the value left in `m`.
* `first m`, `second m` are `m[0].first.Pos()` and `m[0].second.Pos()`.
* `format m fmt flags` is `m.format(fmt, flags)`.
* `defaultRegex`, `defaultResults` are the default-constructed objects. -/
structure RegexLib (Regex MatchResults : Type) where
  ECMAScript : Nat
  icase : Nat
  format_first_only : Nat
  format_default : Nat
  MultiByteToWideChar : Bytes → WString
  WideCharToMultiByte : WString → Bytes
  basic_regex : WString → Int → Option Regex
  regex_search : Document → Int → Int → Regex → Nat → Bool × MatchResults
  first : MatchResults → Int
  second : MatchResults → Int
  format : MatchResults → WString → Nat → WString
  defaultRegex : Regex
  defaultResults : MatchResults

/-- How a call that may throw `std::regex_error` ended. -/
inductive Completion (α : Type) where
  | normal (value : α)
  | regex_error

section Conversions

variable {Regex MatchResults : Type} (lib : RegexLib Regex MatchResults)

/-- `StdGetUnicode` (lines 44-56). -/
def StdGetUnicode (multibyte : Bytes) (stopAtNull : Bool) : WString :=
  let len := multibyte.length
  if len = 0 then []
  else
    let wide := lib.MultiByteToWideChar multibyte
    if stopAtNull then wide.takeWhile (fun c => c ≠ 0) else wide

/-- `StdGetUTF8` (lines 57-69). -/
def StdGetUTF8 (wide : WString) (stopAtNull : Bool) : Bytes :=
  let len := wide.length
  if len = 0 then []
  else
    let narrow := lib.WideCharToMultiByte wide
    if stopAtNull then narrow.takeWhile (fun c => c ≠ 0) else narrow

end Conversions

/-- `StdRegexSearch::Match` (lines 91-162). `_document` is a non-owning pointer,
`none` for `nullptr`. -/
structure Match where
  _document : Option Document
  _position : Int
  _endPosition : Int
  _endPositionForContinuationCheck : Int

namespace Match

/-- `Match::setDocument` (lines 151-157). -/
def setDocument (self : Match) (newDocument : Option Document) : Match :=
  { self with _document := newDocument }

/-- `Match::set` (lines 122-127). -/
def set (self : Match) (document : Option Document) (position endPosition : Int) : Match :=
  let self := self.setDocument document
  { self with
    _position := position
    _endPositionForContinuationCheck := endPosition
    _endPosition := endPosition }

/-- `Match::Match()` (lines 94-100). -/
def default : Match :=
  { _document := none, _position := -1, _endPosition := -1,
    _endPositionForContinuationCheck := -1 }

/-- `Match::Match(Document*, Sci::Position, Sci::Position)` (lines 106-110); the
members `set` overwrites start out unspecified and are taken as `-1`. -/
def new (document : Option Document) (position endPosition : Int) : Match :=
  Match.default.set document position endPosition

def position (self : Match) : Int := self._position

def endPosition (self : Match) : Int := self._endPosition

/-- `Match::isEmpty` (lines 129-132). -/
def isEmpty (self : Match) : Bool := decide (self._position = self._endPosition)

/-- `Match::length` (lines 141-144). -/
def length (self : Match) : Int := self._endPosition - self._position

/-- `Match::found` (lines 145-148). -/
def found (self : Match) : Bool := decide (self._position ≥ 0)

/-- `Match::operator=(Match&)` (lines 111-115). -/
def assign (self m : Match) : Match :=
  self.set m._document m.position m.endPosition

/-- `Match::operator=(int)` (lines 116-120). -/
def assignInt (self : Match) (_null : Int) : Match :=
  { self with _position := -1 }

end Match

/-- `StdRegexSearch::SearchParameters` (lines 190-204). -/
structure SearchParameters where
  _document : Document
  _regexString : Bytes
  _compileFlags : Int
  _startPosition : Int
  _endPosition : Int
  regexFlags : Nat
  _direction : Int

namespace SearchParameters

/-- `SearchParameters::nextCharacter` (lines 350-356); `13` is CR, `10` is LF. -/
def nextCharacter (self : SearchParameters) (position : Int) : Int :=
  if self._document.CharAt position = 13 ∧ self._document.CharAt (position + 1) = 10 then
    position + 2
  else
    position + 1

/-- `SearchParameters::isLineStart` (lines 358-363). -/
def isLineStart (self : SearchParameters) (position : Int) : Bool :=
  decide (position = 0)
    || decide (self._document.CharAt (position - 1) = 10)
    || (decide (self._document.CharAt (position - 1) = 13)
        && decide (self._document.CharAt position ≠ 10))

/-- `SearchParameters::isLineEnd` (lines 365-370). -/
def isLineEnd (self : SearchParameters) (position : Int) : Bool :=
  decide (position = self._document.Length)
    || decide (self._document.CharAt position = 13)
    || (decide (self._document.CharAt position = 10)
        && (decide (position = 0) || decide (self._document.CharAt (position - 1) ≠ 10)))

end SearchParameters

/-- `StdRegexSearch::EncodingDependent` (lines 164-188). -/
structure EncodingDependent (Regex MatchResults : Type) where
  _match : MatchResults
  _regex : Regex
  _lastRegexString : Bytes
  _lastCompileFlags : Int

/-- What a search routine of `EncodingDependent` hands back: the object after the
call, the (by-reference) search parameters after the call, and how it ended. -/
abbrev SearchOutcome (Regex MatchResults : Type) :=
  EncodingDependent Regex MatchResults × SearchParameters × Completion Match

namespace EncodingDependent

variable {Regex MatchResults : Type} (lib : RegexLib Regex MatchResults)

/-- `EncodingDependent::EncodingDependent()` (lines 168-170). -/
def new : EncodingDependent Regex MatchResults :=
  { _match := lib.defaultResults, _regex := lib.defaultRegex,
    _lastRegexString := [], _lastCompileFlags := -1 }

/-- `EncodingDependent::compileRegex` (lines 338-348). When the constructor throws,
nothing has been assigned yet. -/
def compileRegex (self : EncodingDependent Regex MatchResults) (regex : Bytes)
    (compileFlags : Int) : EncodingDependent Regex MatchResults × Completion Unit :=
  if self._lastCompileFlags ≠ compileFlags ∨ self._lastRegexString ≠ regex then
    match lib.basic_regex (StdGetUnicode lib regex true) compileFlags with
    | none => (self, Completion.regex_error)
    | some re =>
      ({ self with
          _regex := re
          _lastRegexString := regex
          _lastCompileFlags := compileFlags }, Completion.normal ())
  else
    (self, Completion.normal ())

/-- `EncodingDependent::FindTextForward` (lines 291-305). -/
def FindTextForward (self : EncodingDependent Regex MatchResults) (search : SearchParameters) :
    EncodingDependent Regex MatchResults × Match :=
  let next_search_from_position := search._startPosition
  let end_reached := decide (next_search_from_position > search._endPosition)
  if end_reached then
    (self, Match.default)
  else
    let r := lib.regex_search search._document next_search_from_position search._endPosition
      self._regex search.regexFlags
    let self := { self with _match := r.2 }
    if r.1 then
      (self, Match.new (some search._document) (lib.first self._match) (lib.second self._match))
    else
      (self, Match.default)

/-- The `for (;;)` loop of `EncodingDependent::FindTextBackward` (lines 317-335) with the
three locals `bestMatch`, `bestPosition`, `bestEnd`. `FindText` is the member function
the loop calls back; one unit of fuel is spent per iteration. -/
def FindTextBackward.loop
    (FindText : EncodingDependent Regex MatchResults → SearchParameters →
      Option (SearchOutcome Regex MatchResults)) :
    Nat → EncodingDependent Regex MatchResults → SearchParameters → MatchResults → Int → Int →
      Option (SearchOutcome Regex MatchResults)
  | 0, _, _, _, _, _ => none
  | fuel + 1, self, search, bestMatch, bestPosition, bestEnd =>
    match FindText self search with
    | none => none
    | some (self, search, Completion.regex_error) => some (self, search, Completion.regex_error)
    | some (self, search, Completion.normal matchRange) =>
      if ¬ matchRange.found then
        if bestPosition ≥ 0 then
          some (self, search, Completion.normal (Match.new (some search._document) bestPosition bestEnd))
        else
          some (self, search, Completion.normal Match.default)
      else
        let position := matchRange.position
        let endPosition := matchRange.endPosition
        let search1 := { search with _startPosition := search.nextCharacter position }
        if endPosition > bestEnd ∧ (endPosition < search._endPosition ∨ position ≠ endPosition) then
          FindTextBackward.loop FindText fuel self search1 self._match position endPosition
        else
          FindTextBackward.loop FindText fuel self search1 bestMatch bestPosition bestEnd

/-- `EncodingDependent::FindTextBackward` (lines 307-336). -/
def FindTextBackward
    (FindText : EncodingDependent Regex MatchResults → SearchParameters →
      Option (SearchOutcome Regex MatchResults))
    (fuel : Nat) (self : EncodingDependent Regex MatchResults) (search : SearchParameters) :
    Option (SearchOutcome Regex MatchResults) :=
  let search := { search with _direction := 1 }
  FindTextBackward.loop FindText fuel self search lib.defaultResults (-1) (-1)

/-- `EncodingDependent::FindText` (lines 282-289). The backward branch re-enters
`FindText`; the fuel bounds that recursion and the loop. -/
def FindText : Nat → EncodingDependent Regex MatchResults → SearchParameters →
    Option (SearchOutcome Regex MatchResults)
  | fuel, self, search =>
    match compileRegex lib self search._regexString search._compileFlags with
    | (self, Completion.regex_error) => some (self, search, Completion.regex_error)
    | (self, Completion.normal _) =>
      if search._direction > 0 then
        let r := FindTextForward lib self search
        some (r.1, search, Completion.normal r.2)
      else
        match fuel with
        | 0 => none
        | n + 1 => FindTextBackward lib (FindText n) n self search

end EncodingDependent

/-- `StdRegexSearch` (lines 71-212): the data members. -/
structure StdRegexSearch (Regex MatchResults : Type) where
  _utf8 : EncodingDependent Regex MatchResults
  _substituted : Bytes
  _lastMatch : Match
  _lastDirection : Int

namespace StdRegexSearch

variable {Regex MatchResults : Type} (lib : RegexLib Regex MatchResults)

/-- `StdRegexSearch::StdRegexSearch()` (lines 74-77), as returned by `CreateRegexSearch`. -/
def new : StdRegexSearch Regex MatchResults :=
  { _utf8 := EncodingDependent.new lib, _substituted := [], _lastMatch := Match.default,
    _lastDirection := 0 }

/-- Lines 235-247 of `FindText`: `(search._startPosition, search._endPosition, search._direction)`
as first assigned from the arguments and `_lastDirection`. -/
def resolveDirection (lastDirection startPosition endPosition : Int) : Int × Int × Int :=
  if startPosition > endPosition ∨ (startPosition = endPosition ∧ lastDirection < 0) then
    (endPosition, startPosition, -1)
  else
    (startPosition, endPosition, 1)

/-- Lines 254-256 of `FindText`: `search._compileFlags`. -/
def compileFlags (caseSensitive : Bool) : Int :=
  ((lib.ECMAScript ||| (if caseSensitive then 0 else lib.icase) : Nat) : Int)

/-- Lines 231-259 of `FindText`: the `SearchParameters` value handed to `_utf8.FindText`. -/
def searchParameters (self : StdRegexSearch Regex MatchResults) (doc : Document)
    (startPosition endPosition : Int) (regexString : Bytes) (caseSensitive : Bool) :
    SearchParameters :=
  let r := resolveDirection self._lastDirection startPosition endPosition
  { _document := doc
    _startPosition := doc.MovePositionOutsideChar r.1 1 false
    _endPosition := doc.MovePositionOutsideChar r.2.1 1 false
    _direction := r.2.2
    _compileFlags := compileFlags lib caseSensitive
    _regexString := regexString
    regexFlags := lib.format_first_only }

/-- `StdRegexSearch::FindText` (lines 226-280). The result is the engine after the call,
the returned position or sentinel, and the value of `*lengthRet` after the call
(`lengthRet` is its value before the call). `none`: the fuel ran out. -/
def FindText (fuel : Nat) (self : StdRegexSearch Regex MatchResults) (doc : Document)
    (startPosition endPosition : Int) (regexString : Bytes)
    (caseSensitive _word _wordStart : Bool) (_sciSearchFlags : Int) (lengthRet : Int) :
    Option (StdRegexSearch Regex MatchResults × Int × Int) :=
  let search := searchParameters lib self doc startPosition endPosition regexString caseSensitive
  let self := { self with _lastDirection := search._direction }
  match EncodingDependent.FindText lib fuel self._utf8 search with
  | none => none
  | some (utf8, _, Completion.regex_error) =>
    -- -1 is normally used for not found, -2 is used here for invalid regex
    some ({ self with _utf8 := utf8 }, -2, lengthRet)
  | some (utf8, _, Completion.normal m) =>
    let self := { self with _utf8 := utf8 }
    if m.found then
      some ({ self with _lastMatch := self._lastMatch.assign m }, m.position, m.length)
    else
      some ({ self with _lastMatch := self._lastMatch.assignInt 0 }, -1, lengthRet)

end StdRegexSearch

/-- `EncodingDependent::SubstituteByPosition` (lines 378-384): the object, the returned
string and the value written to `*length`. -/
def EncodingDependent.SubstituteByPosition {Regex MatchResults : Type}
    (lib : RegexLib Regex MatchResults) (self : EncodingDependent Regex MatchResults)
    (text : Bytes) : EncodingDependent Regex MatchResults × Bytes × Int :=
  let s := StdGetUTF8 lib (lib.format self._match (StdGetUnicode lib text true) lib.format_default) true
  (self, s, (s.length : Int))

/-- `StdRegexSearch::SubstituteByPosition` (lines 372-376): the engine after the call, the
returned C string (`_substituted.c_str()`, read up to the first NUL) and `*length`. -/
def StdRegexSearch.SubstituteByPosition {Regex MatchResults : Type}
    (lib : RegexLib Regex MatchResults) (self : StdRegexSearch Regex MatchResults)
    (_doc : Document) (text : Bytes) : StdRegexSearch Regex MatchResults × Bytes × Int :=
  let r := EncodingDependent.SubstituteByPosition lib self._utf8 text
  let self := { self with _utf8 := r.1, _substituted := r.2.1 }
  (self, self._substituted.takeWhile (fun c => c ≠ 0), r.2.2)

/-- The offsets `SearchParameters::nextCharacter` (lines 350-356) passes to `CharAt`, in
the order of the calls: `CharAt(position)` always, and `CharAt(position+1)` only when the
first read gave CR, since `&&` does not evaluate its right operand otherwise. -/
def SearchParameters.nextCharacterReads (self : SearchParameters) (position : Int) : List Int :=
  if self._document.CharAt position = 13 then [position, position + 1] else [position]

/-! ## Notions used in the statements -/

/-- The forward primitive never reports a match that starts before the position it was
asked to start from. -/
def Progress {Regex MatchResults : Type} (lib : RegexLib Regex MatchResults) : Prop :=
  ∀ (doc : Document) (first last : Int) (re : Regex) (flags : Nat),
    (lib.regex_search doc first last re flags).1 = true →
      first ≤ lib.first (lib.regex_search doc first last re flags).2

/-- The forward primitive only reports matches that lie inside the range it was given. -/
def InRange {Regex MatchResults : Type} (lib : RegexLib Regex MatchResults) : Prop :=
  ∀ (doc : Document) (first last : Int) (re : Regex) (flags : Nat),
    (lib.regex_search doc first last re flags).1 = true →
      first ≤ lib.first (lib.regex_search doc first last re flags).2 ∧
      lib.first (lib.regex_search doc first last re flags).2 ≤
        lib.second (lib.regex_search doc first last re flags).2 ∧
      lib.second (lib.regex_search doc first last re flags).2 ≤ last

/-- The snapped position `doc->MovePositionOutsideChar(p, 1, false)` of lines 251-252. -/
def snap (doc : Document) (p : Int) : Int := doc.MovePositionOutsideChar p 1 false

/-- One pass of the forward match primitive with regex `re` over the snapped range of a
call `FindText(doc, startPos, endPos, ...)` that is resolved as forward. -/
def forwardPass {Regex MatchResults : Type} (lib : RegexLib Regex MatchResults) (re : Regex)
    (doc : Document) (startPosition endPosition : Int) : Bool × MatchResults :=
  lib.regex_search doc (snap doc startPosition) (snap doc endPosition) re lib.format_first_only

/-- Fuel that lets a `FindText` call over the requested range run to its end when the
primitive makes progress: the distance of the snapped endpoints plus three. -/
def fuelBound (doc : Document) (startPosition endPosition : Int) : Nat :=
  (snap doc startPosition - snap doc endPosition).natAbs + 3

namespace EncodingDependent.FindTextBackward

variable {Regex MatchResults : Type} (lib : RegexLib Regex MatchResults)

/-- The candidates of a backward scan, in the order the loop meets them (lines 319-330):
the match results of the successive forward passes with regex `re`, the first pass
starting at `start`, each next one at `nextCharacter` of the previous match's position;
the scan ends with the first pass that finds nothing. `none`: more than `fuel` passes. -/
def candidates (re : Regex) (search : SearchParameters) : Nat → Int → Option (List MatchResults)
  | 0, _ => none
  | fuel + 1, start =>
    if start > search._endPosition then some []
    else
      let r := lib.regex_search search._document start search._endPosition re search.regexFlags
      if r.1 = true ∧ lib.first r.2 ≥ 0 then
        (candidates re search fuel (search.nextCharacter (lib.first r.2))).map (fun cs => r.2 :: cs)
      else some []

/-- The test of line 324 on a candidate `m`, against the best end so far. -/
def accepts (endPosition bestEnd : Int) (m : MatchResults) : Prop :=
  lib.second m > bestEnd ∧ (lib.second m < endPosition ∨ lib.first m ≠ lib.second m)

instance (endPosition bestEnd : Int) (m : MatchResults) :
    Decidable (accepts lib endPosition bestEnd m) := by
  unfold accepts; infer_instance

/-- The locals `(bestPosition, bestEnd)` after the loop has met the candidates `cs`. -/
def best (endPosition : Int) : List MatchResults → Int × Int → Int × Int
  | [], b => b
  | m :: cs, b =>
    if accepts lib endPosition b.2 m then best endPosition cs (lib.first m, lib.second m)
    else best endPosition cs b

/-- Lines 332-335: the `Match` returned for the final `(bestPosition, bestEnd)`. -/
def result (doc : Document) (b : Int × Int) : Match :=
  if b.1 ≥ 0 then Match.new (some doc) b.1 b.2 else Match.default

/-- A zero-length match sitting exactly at the right boundary `endPosition` of the range. -/
def emptyAtEnd (endPosition : Int) (m : MatchResults) : Prop :=
  lib.first m = lib.second m ∧ lib.second m = endPosition

end EncodingDependent.FindTextBackward

/-- Engine states that arise from a freshly created engine by calls of the two public
member functions. -/
inductive Reachable {Regex MatchResults : Type} (lib : RegexLib Regex MatchResults) :
    StdRegexSearch Regex MatchResults → Prop where
  | fresh : Reachable lib (StdRegexSearch.new lib)
  | findText {self self1 : StdRegexSearch Regex MatchResults} {fuel : Nat} {doc : Document}
      {startPosition endPosition : Int} {regexString : Bytes}
      {caseSensitive word wordStart : Bool} {sciSearchFlags lengthRet result lengthOut : Int} :
      Reachable lib self →
      StdRegexSearch.FindText lib fuel self doc startPosition endPosition regexString
        caseSensitive word wordStart sciSearchFlags lengthRet = some (self1, result, lengthOut) →
      Reachable lib self1
  | substitute {self : StdRegexSearch Regex MatchResults} (doc : Document) (text : Bytes) :
      Reachable lib self →
      Reachable lib (StdRegexSearch.SubstituteByPosition lib self doc text).1

/-- The cached regex is the compilation of the cached key, or nothing was compiled yet. -/
def CacheCoherent {Regex MatchResults : Type} (lib : RegexLib Regex MatchResults)
    (ed : EncodingDependent Regex MatchResults) : Prop :=
  ed._lastCompileFlags = -1 ∨
    lib.basic_regex (StdGetUnicode lib ed._lastRegexString true) ed._lastCompileFlags = some ed._regex

/-! ## A small instance of the collaborators

Used to run the engine on concrete buffers: a single-byte document and a regex
library for patterns made of literal bytes, the postfix operators `+` and `*` on a
literal, and non-nested capture groups. Repetition is greedy and never gives back,
which agrees with ECMAScript on the patterns used below (`a(b+)c`, `a+`, `a*`, `b*`,
a line feed followed by `*`).
-/

namespace Sample

/-- A single-byte buffer. `MovePositionOutsideChar` is Scintilla's routine for a buffer
without multi-byte characters: clamp to the buffer, and step off the middle of a CR LF
pair when asked to check line ends. -/
def document (bytes : List Nat) : Document :=
  let charAt : Int → Int := fun pos =>
    if 0 ≤ pos ∧ pos < bytes.length then (bytes.getD pos.toNat 0 : Nat) else 0
  { CharAt := charAt
    Length := bytes.length
    MovePositionOutsideChar := fun pos moveDir checkLineEnd =>
      if pos ≤ 0 then 0
      else if pos ≥ bytes.length then bytes.length
      else if checkLineEnd ∧ charAt (pos - 1) = 13 ∧ charAt pos = 10 then
        (if moveDir > 0 then pos + 1 else pos - 1)
      else pos }

inductive Quantifier where
  | one
  | plus
  | star
  deriving DecidableEq

inductive Item where
  | chr (c : Nat) (q : Quantifier)
  | groupOpen
  | groupClose
  deriving DecidableEq

structure Regex where
  items : List Item
  ignoreCase : Bool
  deriving DecidableEq

/-- One entry per sub-match, entry 0 being the whole match: first position, second
position, matched text. Empty when nothing matched. -/
structure Results where
  subs : List (Int × Int × List Nat)
  deriving DecidableEq

/-- Pattern parser, items collected in reverse; `40` `41` `42` `43` are `(` `)` `*` `+`.
`none`: the pattern is rejected. -/
def parseAux : List Nat → Bool → List Item → Option (List Item)
  | [], inGroup, acc => if inGroup then none else some acc.reverse
  | c :: rest, inGroup, acc =>
    if c = 40 then
      if inGroup then none else parseAux rest true (Item.groupOpen :: acc)
    else if c = 41 then
      if inGroup then parseAux rest false (Item.groupClose :: acc) else none
    else if c = 43 then
      match acc with
      | Item.chr x Quantifier.one :: acc1 => parseAux rest inGroup (Item.chr x Quantifier.plus :: acc1)
      | _ => none
    else if c = 42 then
      match acc with
      | Item.chr x Quantifier.one :: acc1 => parseAux rest inGroup (Item.chr x Quantifier.star :: acc1)
      | _ => none
    else parseAux rest inGroup (Item.chr c Quantifier.one :: acc)

def parse (pattern : List Nat) : Option (List Item) := parseAux pattern false []

def lower (x : Int) : Int := if 65 ≤ x ∧ x ≤ 90 then x + 32 else x

def sameChar (ignoreCase : Bool) (x : Int) (c : Nat) : Bool :=
  decide (x = c) || (ignoreCase && decide (lower x = lower c))

/-- End of the longest run of `c` starting at `pos`, looking at no more than `n` bytes. -/
def span (doc : Document) (ignoreCase : Bool) (c : Nat) : Nat → Int → Int
  | 0, pos => pos
  | n + 1, pos => if sameChar ignoreCase (doc.CharAt pos) c then span doc ignoreCase c n (pos + 1) else pos

def bytesBetween (doc : Document) (first second : Int) : List Nat :=
  (List.range (second - first).toNat).map (fun i => (doc.CharAt (first + i)).toNat)

/-- Match the items at `pos`, not reading at or beyond `last`: the end of the match and
the groups closed so far. -/
def run (doc : Document) (ignoreCase : Bool) (last : Int) :
    List Item → Int → Int → List (Int × Int × List Nat) → Option (Int × List (Int × Int × List Nat))
  | [], pos, _, caps => some (pos, caps)
  | Item.groupOpen :: rest, pos, _, caps => run doc ignoreCase last rest pos pos caps
  | Item.groupClose :: rest, pos, g, caps =>
    run doc ignoreCase last rest pos g (caps ++ [(g, pos, bytesBetween doc g pos)])
  | Item.chr c Quantifier.one :: rest, pos, g, caps =>
    if pos < last ∧ sameChar ignoreCase (doc.CharAt pos) c then
      run doc ignoreCase last rest (pos + 1) g caps
    else none
  | Item.chr c Quantifier.plus :: rest, pos, g, caps =>
    if pos < last ∧ sameChar ignoreCase (doc.CharAt pos) c then
      run doc ignoreCase last rest (span doc ignoreCase c (last - pos).toNat pos) g caps
    else none
  | Item.chr c Quantifier.star :: rest, pos, g, caps =>
    run doc ignoreCase last rest (span doc ignoreCase c (last - pos).toNat pos) g caps

/-- Try the start positions `pos`, `pos + 1`, ... (`n` of them) and keep the first match. -/
def scan (doc : Document) (re : Regex) (last : Int) : Nat → Int → Option Results
  | 0, _ => none
  | n + 1, pos =>
    match run doc re.ignoreCase last re.items pos pos [] with
    | some (e, caps) => some { subs := (pos, e, bytesBetween doc pos e) :: caps }
    | none => scan doc re last n (pos + 1)

/-- Expansion of `$0` ... `$9` in a replacement template; `36` is `$`. -/
def format (m : Results) : List Nat → List Nat
  | [] => []
  | [c] => [c]
  | c :: d :: rest =>
    if c = 36 ∧ 48 ≤ d ∧ d ≤ 57 then
      ((m.subs.get? (d - 48)).map (fun s => s.2.2)).getD [] ++ format m rest
    else c :: format m (d :: rest)

/-- The library instance. The option constants are those of the Microsoft C++ library. -/
def lib : RegexLib Regex Results :=
  { ECMAScript := 1
    icase := 256
    format_first_only := 4096
    format_default := 0
    MultiByteToWideChar := fun b => b
    WideCharToMultiByte := fun w => w
    basic_regex := fun w f =>
      (parse w).map (fun is => { items := is, ignoreCase := decide (f.toNat &&& 256 ≠ 0) })
    regex_search := fun doc first last re _ =>
      if first ≤ last then
        match scan doc re last ((last - first).toNat + 1) first with
        | some m => (true, m)
        | none => (false, { subs := [] })
      else (false, { subs := [] })
    first := fun m => ((m.subs.head?).map (fun s => s.1)).getD 0
    second := fun m => ((m.subs.head?).map (fun s => s.2.1)).getD 0
    format := fun m fmt _ => format m fmt
    defaultRegex := { items := [], ignoreCase := false }
    defaultResults := { subs := [] } }

/-- The bytes of an ASCII string literal. -/
def ascii (s : String) : List Nat := s.toList.map Char.toNat

/-- The compiled form of a pattern the parser accepts (the empty regex otherwise),
case-sensitive. -/
def compiled (pattern : String) : Regex :=
  { items := (parse (ascii pattern)).getD [], ignoreCase := false }

/-- A freshly created engine over the sample library. -/
def engine : StdRegexSearch Regex Results := StdRegexSearch.new lib

/-- The engine after a backward search for `b*` over the buffer `aaa`
(`startPos = 3`, `endPos = 0`). -/
def engineAfterBackward : StdRegexSearch Regex Results :=
  match StdRegexSearch.FindText lib 6 engine (document (ascii "aaa")) 3 0 (ascii "b*")
      true false false 0 0 with
  | some t => t.1
  | none => engine

/-- The engine after a forward search for `a(b+)c` over the buffer `xabbcy`. -/
def engineAfterFind : StdRegexSearch Regex Results :=
  match StdRegexSearch.FindText lib 0 engine (document (ascii "xabbcy")) 0 6 (ascii "a(b+)c")
      true false false 0 0 with
  | some t => t.1
  | none => engine

end Sample

/-! ## A buffer in UTF-8 -/

namespace Utf8

/-- A continuation byte `10xxxxxx` of a multi-byte character. -/
def isTrail (b : Nat) : Bool := decide (128 ≤ b ∧ b < 192)

/-- The position is a character boundary of the buffer: it is at or beyond one of the two
ends, or the byte it points at does not continue a multi-byte character. -/
def isBoundary (bytes : List Nat) (pos : Int) : Bool :=
  decide (pos ≤ 0) || decide (pos ≥ bytes.length) || !isTrail (bytes.getD pos.toNat 0)

/-- The first character boundary at or after `pos`, looking at no more than `n` positions. -/
def forward (bytes : List Nat) : Nat → Int → Int
  | 0, pos => pos
  | n + 1, pos => if isBoundary bytes pos then pos else forward bytes n (pos + 1)

/-- The last character boundary at or before `pos`, looking at no more than `n` positions. -/
def backward (bytes : List Nat) : Nat → Int → Int
  | 0, pos => pos
  | n + 1, pos => if isBoundary bytes pos then pos else backward bytes n (pos - 1)

/-- Modelled from the spec: the `Document` collaborator (Scintilla's `Document`, which is
not among the sources) over a UTF-8 buffer. `CharAt` reads one byte and answers 0 outside
the buffer, `Length` is the size in bytes, and `MovePositionOutsideChar` "adjusts a
position so it never lands inside a multi-byte code unit, moving in the given direction"
and "never moves a position across the buffer's bounds": a position inside a character
goes to the next boundary when the direction is positive and to the previous one
otherwise, a position on a boundary stays, a position outside the buffer goes to the
nearer end. The third argument, for which the engine always passes `false`, has no
effect here. -/
def document (bytes : List Nat) : Document :=
  { CharAt := fun pos =>
      if 0 ≤ pos ∧ pos < bytes.length then (bytes.getD pos.toNat 0 : Nat) else 0
    Length := bytes.length
    MovePositionOutsideChar := fun pos moveDir _ =>
      if pos ≤ 0 then 0
      else if pos ≥ bytes.length then bytes.length
      else if moveDir > 0 then forward bytes (bytes.length - pos).toNat pos
      else backward bytes pos.toNat pos }

end Utf8

/-! ## An engine without a pattern cache

The reference the cached engine is compared with: the same code, except that the
compile step parses the pattern afresh on every call.
-/

/-- Modelled on the spec's words "one compiled with freshly parsed input": `compileRegex`
without the test of line 341, so that the pattern is compiled on every call. -/
def EncodingDependent.compileRegexFresh {Regex MatchResults : Type}
    (lib : RegexLib Regex MatchResults) (self : EncodingDependent Regex MatchResults)
    (regex : Bytes) (compileFlags : Int) :
    EncodingDependent Regex MatchResults × Completion Unit :=
  match lib.basic_regex (StdGetUnicode lib regex true) compileFlags with
  | none => (self, Completion.regex_error)
  | some re =>
    ({ self with
        _regex := re
        _lastRegexString := regex
        _lastCompileFlags := compileFlags }, Completion.normal ())

/-- `EncodingDependent::FindText` with `compileRegexFresh` in the place of `compileRegex`. -/
def EncodingDependent.FindTextFresh {Regex MatchResults : Type}
    (lib : RegexLib Regex MatchResults) :
    Nat → EncodingDependent Regex MatchResults → SearchParameters →
    Option (SearchOutcome Regex MatchResults)
  | fuel, self, search =>
    match EncodingDependent.compileRegexFresh lib self search._regexString
        search._compileFlags with
    | (self, Completion.regex_error) => some (self, search, Completion.regex_error)
    | (self, Completion.normal _) =>
      if search._direction > 0 then
        let r := EncodingDependent.FindTextForward lib self search
        some (r.1, search, Completion.normal r.2)
      else
        match fuel with
        | 0 => none
        | n + 1 =>
          EncodingDependent.FindTextBackward lib (EncodingDependent.FindTextFresh lib n) n
            self search

/-- `StdRegexSearch::FindText` on top of `EncodingDependent.FindTextFresh`. -/
def StdRegexSearch.FindTextFresh {Regex MatchResults : Type}
    (lib : RegexLib Regex MatchResults) (fuel : Nat)
    (self : StdRegexSearch Regex MatchResults) (doc : Document)
    (startPosition endPosition : Int) (regexString : Bytes)
    (caseSensitive _word _wordStart : Bool) (_sciSearchFlags : Int) (lengthRet : Int) :
    Option (StdRegexSearch Regex MatchResults × Int × Int) :=
  let search := StdRegexSearch.searchParameters lib self doc startPosition endPosition
    regexString caseSensitive
  let self := { self with _lastDirection := search._direction }
  match EncodingDependent.FindTextFresh lib fuel self._utf8 search with
  | none => none
  | some (utf8, _, Completion.regex_error) => some ({ self with _utf8 := utf8 }, -2, lengthRet)
  | some (utf8, _, Completion.normal m) =>
    let self := { self with _utf8 := utf8 }
    if m.found then
      some ({ self with _lastMatch := self._lastMatch.assign m }, m.position, m.length)
    else
      some ({ self with _lastMatch := self._lastMatch.assignInt 0 }, -1, lengthRet)

/-- The arguments of one `FindText` call, with the fuel it is run with. -/
structure Call where
  fuel : Nat
  doc : Document
  startPosition : Int
  endPosition : Int
  regexString : Bytes
  caseSensitive : Bool
  word : Bool
  wordStart : Bool
  sciSearchFlags : Int
  lengthRet : Int

/-- One call on the engine of the source. -/
def Call.run {Regex MatchResults : Type} (lib : RegexLib Regex MatchResults)
    (self : StdRegexSearch Regex MatchResults) (c : Call) :
    Option (StdRegexSearch Regex MatchResults × Int × Int) :=
  StdRegexSearch.FindText lib c.fuel self c.doc c.startPosition c.endPosition c.regexString
    c.caseSensitive c.word c.wordStart c.sciSearchFlags c.lengthRet

/-- One call on the engine without cache. -/
def Call.runFresh {Regex MatchResults : Type} (lib : RegexLib Regex MatchResults)
    (self : StdRegexSearch Regex MatchResults) (c : Call) :
    Option (StdRegexSearch Regex MatchResults × Int × Int) :=
  StdRegexSearch.FindTextFresh lib c.fuel self c.doc c.startPosition c.endPosition
    c.regexString c.caseSensitive c.word c.wordStart c.sciSearchFlags c.lengthRet

/-- What a sequence of calls returns, call by call: the returned value and the length
output; `none` marks a call that ran out of fuel, where the sequence stops. -/
def results {Regex MatchResults : Type}
    (step : StdRegexSearch Regex MatchResults → Call →
      Option (StdRegexSearch Regex MatchResults × Int × Int)) :
    StdRegexSearch Regex MatchResults → List Call → List (Option (Int × Int))
  | _, [] => []
  | self, c :: cs =>
    match step self c with
    | none => [none]
    | some (self1, r, len1) => some (r, len1) :: results step self1 cs

/-- A forward search for `a+` over the buffer `AAA`, case-sensitive or not. -/
def Sample.caseCall (caseSensitive : Bool) : Call :=
  { fuel := 0, doc := Sample.document (Sample.ascii "AAA"), startPosition := 0,
    endPosition := 3, regexString := Sample.ascii "a+", caseSensitive := caseSensitive,
    word := false, wordStart := false, sciSearchFlags := 0, lengthRet := 0 }

/-- The matcher of a fresh engine after `compileRegex` has compiled `a+`, case-sensitive. -/
def Sample.matcher : EncodingDependent Sample.Regex Sample.Results :=
  (EncodingDependent.compileRegex Sample.lib (EncodingDependent.new Sample.lib)
    (Sample.ascii "a+") (StdRegexSearch.compileFlags Sample.lib true)).1

/-- The search parameters of `FindText(doc, 6, 0, "a+", ...)` over the buffer `aaabaaa`
on a fresh engine: backward over `[0, 6]`. -/
def Sample.backwardSearch : SearchParameters :=
  StdRegexSearch.searchParameters Sample.lib Sample.engine
    (Sample.document (Sample.ascii "aaabaaa")) 6 0 (Sample.ascii "a+") true

/-- The pattern of the two bytes `0A 2A`, a line feed followed by `*`, compiled
case-sensitive: any number of line feeds. -/
def Sample.lineFeeds : Sample.Regex :=
  { items := [Sample.Item.chr 10 Sample.Quantifier.star], ignoreCase := false }

/-- The search parameters of `FindText(doc, 2, 0, ...)` for the pattern `0A 2A` over the
buffer `0D 0A` (one CR LF pair) on a fresh engine: backward over `[0, 2]`. -/
def Sample.lineBreakSearch : SearchParameters :=
  StdRegexSearch.searchParameters Sample.lib Sample.engine
    (Sample.document [13, 10]) 2 0 [10, 42] true

/-! ## The pattern cache -/

section Cache

variable {Regex MatchResults : Type} (lib : RegexLib Regex MatchResults)

theorem compileFlags_nonneg (cs : Bool) : 0 ≤ StdRegexSearch.compileFlags lib cs := by
  unfold StdRegexSearch.compileFlags
  exact Int.ofNat_nonneg _

theorem compileRegex_hit (ed : EncodingDependent Regex MatchResults) (pat : Bytes) (flags : Int)
    (hf : ed._lastCompileFlags = flags) (hp : ed._lastRegexString = pat) :
    EncodingDependent.compileRegex lib ed pat flags = (ed, Completion.normal ()) := by
  unfold EncodingDependent.compileRegex
  simp [hf, hp]

theorem compileRegex_reject (ed : EncodingDependent Regex MatchResults) (pat : Bytes) (flags : Int)
    (hk : ed._lastCompileFlags ≠ flags ∨ ed._lastRegexString ≠ pat)
    (hc : lib.basic_regex (StdGetUnicode lib pat true) flags = none) :
    EncodingDependent.compileRegex lib ed pat flags = (ed, Completion.regex_error) := by
  unfold EncodingDependent.compileRegex
  rw [if_pos hk, hc]

theorem compileRegex_accept (ed : EncodingDependent Regex MatchResults) (pat : Bytes) (flags : Int)
    (re : Regex) (hk : ed._lastCompileFlags ≠ flags ∨ ed._lastRegexString ≠ pat)
    (hc : lib.basic_regex (StdGetUnicode lib pat true) flags = some re) :
    EncodingDependent.compileRegex lib ed pat flags =
      ({ ed with _regex := re, _lastRegexString := pat, _lastCompileFlags := flags },
        Completion.normal ()) := by
  unfold EncodingDependent.compileRegex
  rw [if_pos hk, hc]

/-- The three ways `compileRegex` can go. -/
theorem compileRegex_cases (ed : EncodingDependent Regex MatchResults) (pat : Bytes) (flags : Int) :
    (ed._lastCompileFlags = flags ∧ ed._lastRegexString = pat ∧
        EncodingDependent.compileRegex lib ed pat flags = (ed, Completion.normal ())) ∨
    ((ed._lastCompileFlags ≠ flags ∨ ed._lastRegexString ≠ pat) ∧
        lib.basic_regex (StdGetUnicode lib pat true) flags = none ∧
        EncodingDependent.compileRegex lib ed pat flags = (ed, Completion.regex_error)) ∨
    (∃ re, (ed._lastCompileFlags ≠ flags ∨ ed._lastRegexString ≠ pat) ∧
        lib.basic_regex (StdGetUnicode lib pat true) flags = some re ∧
        EncodingDependent.compileRegex lib ed pat flags =
          ({ ed with _regex := re, _lastRegexString := pat, _lastCompileFlags := flags },
            Completion.normal ())) := by
  by_cases hk : ed._lastCompileFlags ≠ flags ∨ ed._lastRegexString ≠ pat
  · rcases Option.eq_none_or_eq_some (lib.basic_regex (StdGetUnicode lib pat true) flags) with
      hc | ⟨re, hc⟩
    · exact Or.inr (Or.inl ⟨hk, hc, compileRegex_reject lib ed pat flags hk hc⟩)
    · exact Or.inr (Or.inr ⟨re, hk, hc, compileRegex_accept lib ed pat flags re hk hc⟩)
  · have hk2 : ed._lastCompileFlags = flags ∧ ed._lastRegexString = pat := by
      constructor
      · by_contra h; exact hk (Or.inl h)
      · by_contra h; exact hk (Or.inr h)
    exact Or.inl ⟨hk2.1, hk2.2, compileRegex_hit lib ed pat flags hk2.1 hk2.2⟩

end Cache

/-! ## The forward pass and the backward scan -/

section Scan

variable {Regex MatchResults : Type} (lib : RegexLib Regex MatchResults)

open EncodingDependent

theorem FindTextForward_past (ed : EncodingDependent Regex MatchResults) (search : SearchParameters)
    (h : search._startPosition > search._endPosition) :
    FindTextForward lib ed search = (ed, Match.default) := by
  simp [FindTextForward, h]

theorem FindTextForward_inside (ed : EncodingDependent Regex MatchResults) (search : SearchParameters)
    (h : ¬ search._startPosition > search._endPosition) :
    FindTextForward lib ed search =
      ({ ed with _match := (lib.regex_search search._document search._startPosition
            search._endPosition ed._regex search.regexFlags).2 },
        if (lib.regex_search search._document search._startPosition
            search._endPosition ed._regex search.regexFlags).1 = true then
          Match.new (some search._document)
            (lib.first (lib.regex_search search._document search._startPosition
              search._endPosition ed._regex search.regexFlags).2)
            (lib.second (lib.regex_search search._document search._startPosition
              search._endPosition ed._regex search.regexFlags).2)
        else Match.default) := by
  simp only [FindTextForward, h, decide_False, Bool.false_eq_true, if_false]
  split <;> rfl

theorem ED_FindText_forward_hit (fuel : Nat) (ed : EncodingDependent Regex MatchResults)
    (search : SearchParameters) (hf : ed._lastCompileFlags = search._compileFlags)
    (hp : ed._lastRegexString = search._regexString) (hd : search._direction > 0) :
    EncodingDependent.FindText lib fuel ed search =
      some ((FindTextForward lib ed search).1, search,
        Completion.normal (FindTextForward lib ed search).2) := by
  cases fuel <;>
    simp [EncodingDependent.FindText, compileRegex_hit lib ed _ _ hf hp, hd]

theorem candidates_start_irrelevant (re : Regex) (search : SearchParameters) (x : Int) :
    ∀ (fuel : Nat) (start : Int),
      FindTextBackward.candidates lib re { search with _startPosition := x } fuel start =
        FindTextBackward.candidates lib re search fuel start := by
  intro fuel
  induction fuel with
  | zero => intro start; rfl
  | succ k ih =>
    intro start
    simp only [FindTextBackward.candidates, SearchParameters.nextCharacter]
    simp only [SearchParameters.nextCharacter] at ih
    simp only [ih]

theorem Match_new_found (doc : Option Document) (p e : Int) :
    (Match.new doc p e).found = decide (p ≥ 0) := rfl

theorem Match_default_found : Match.default.found = false := by decide

theorem loop_stop
    (F : EncodingDependent Regex MatchResults → SearchParameters →
      Option (SearchOutcome Regex MatchResults))
    (fuel : Nat) (ed ed1 : EncodingDependent Regex MatchResults) (search s1 : SearchParameters)
    (bm : MatchResults) (bp be : Int) (m : Match)
    (hF : F ed search = some (ed1, s1, Completion.normal m)) (hm : m.found = false) :
    FindTextBackward.loop F (fuel + 1) ed search bm bp be =
      some (ed1, s1, Completion.normal (FindTextBackward.result s1._document (bp, be))) := by
  rw [FindTextBackward.loop, hF]
  simp only [hm, Bool.false_eq_true, not_false_eq_true, if_true, FindTextBackward.result]
  split <;> rfl

theorem loop_continue
    (F : EncodingDependent Regex MatchResults → SearchParameters →
      Option (SearchOutcome Regex MatchResults))
    (fuel : Nat) (ed ed1 : EncodingDependent Regex MatchResults) (search s1 : SearchParameters)
    (bm : MatchResults) (bp be : Int) (m : Match)
    (hF : F ed search = some (ed1, s1, Completion.normal m)) (hm : m.found = true) :
    FindTextBackward.loop F (fuel + 1) ed search bm bp be =
      if m.endPosition > be ∧ (m.endPosition < s1._endPosition ∨ m.position ≠ m.endPosition) then
        FindTextBackward.loop F fuel ed1
          { s1 with _startPosition := s1.nextCharacter m.position } ed1._match
          m.position m.endPosition
      else
        FindTextBackward.loop F fuel ed1
          { s1 with _startPosition := s1.nextCharacter m.position } bm bp be := by
  rw [FindTextBackward.loop, hF]
  simp only [hm, not_true_eq_false, if_false]

/-- The loop computes `best` over the candidates. -/
theorem loop_spec (n : Nat) (re : Regex) :
    ∀ (fuel : Nat) (ed : EncodingDependent Regex MatchResults) (search : SearchParameters)
      (bm : MatchResults) (b : Int × Int) (cs : List MatchResults),
      ed._regex = re → ed._lastCompileFlags = search._compileFlags →
      ed._lastRegexString = search._regexString → search._direction > 0 →
      FindTextBackward.candidates lib re search fuel search._startPosition = some cs →
      ∃ ed1 start1,
        FindTextBackward.loop (EncodingDependent.FindText lib n) fuel ed search bm b.1 b.2 =
          some (ed1, { search with _startPosition := start1 },
            Completion.normal (FindTextBackward.result search._document
              (FindTextBackward.best lib search._endPosition cs b))) ∧
        ed1._regex = re ∧ ed1._lastCompileFlags = ed._lastCompileFlags ∧
        ed1._lastRegexString = ed._lastRegexString := by
  intro fuel
  induction fuel with
  | zero =>
    intro ed search bm b cs _ _ _ _ hc
    simp [FindTextBackward.candidates] at hc
  | succ k ih =>
    intro ed search bm b cs hre hf hp hd hc
    subst hre
    have hre : ed._regex = ed._regex := rfl
    have hF := ED_FindText_forward_hit lib n ed search hf hp hd
    by_cases hpast : search._startPosition > search._endPosition
    · rw [FindTextBackward.candidates, if_pos hpast] at hc
      cases hc
      rw [FindTextForward_past lib ed search hpast] at hF
      exact ⟨ed, search._startPosition,
        loop_stop _ k ed ed search search bm b.1 b.2 _ hF Match_default_found, hre, rfl, rfl⟩
    · rw [FindTextBackward.candidates, if_neg hpast] at hc
      rw [FindTextForward_inside lib ed search hpast] at hF
      dsimp only at hF
      generalize lib.regex_search search._document search._startPosition
          search._endPosition ed._regex search.regexFlags = r at hc hF
      by_cases hfound : r.1 = true ∧ lib.first r.2 ≥ 0
      · simp only [hfound, and_self, if_true, Option.map_eq_some'] at hc
        obtain ⟨cs1, hc1, rfl⟩ := hc
        rw [if_pos hfound.1] at hF
        have hm : (Match.new (some search._document) (lib.first r.2) (lib.second r.2)).found
            = true := by
          rw [Match_new_found]; exact decide_eq_true hfound.2
        rw [loop_continue _ k ed _ search search bm b.1 b.2 _ hF hm]
        have hc2 := hc1
        rw [← candidates_start_irrelevant lib ed._regex search
          (search.nextCharacter (lib.first r.2))] at hc2
        by_cases hacc : FindTextBackward.accepts lib search._endPosition b.2 r.2
        · obtain ⟨ed1, start1, h2, h3, h4, h5⟩ :=
            ih { ed with _match := r.2 }
              { search with _startPosition := search.nextCharacter (lib.first r.2) }
              r.2 (lib.first r.2, lib.second r.2) cs1 hre hf hp hd hc2
          refine ⟨ed1, start1, ?_, h3, h4, h5⟩
          have hacc1 := hacc
          unfold FindTextBackward.accepts at hacc1
          simp only [FindTextBackward.best, if_pos hacc]
          exact (if_pos hacc1).trans h2
        · obtain ⟨ed1, start1, h2, h3, h4, h5⟩ :=
            ih { ed with _match := r.2 }
              { search with _startPosition := search.nextCharacter (lib.first r.2) }
              bm b cs1 hre hf hp hd hc2
          refine ⟨ed1, start1, ?_, h3, h4, h5⟩
          have hacc1 := hacc
          unfold FindTextBackward.accepts at hacc1
          simp only [FindTextBackward.best, if_neg hacc]
          exact (if_neg hacc1).trans h2
      · rw [if_neg hfound] at hc
        cases hc
        have hnf : (if r.1 = true then
            Match.new (some search._document) (lib.first r.2) (lib.second r.2)
            else Match.default).found = false := by
          by_cases h1 : r.1 = true
          · rw [if_pos h1, Match_new_found]
            exact decide_eq_false (fun h => hfound ⟨h1, h⟩)
          · rw [if_neg h1]; exact Match_default_found
        exact ⟨_, search._startPosition,
          loop_stop _ k ed _ search search bm b.1 b.2 _ hF hnf, hre, rfl, rfl⟩

theorem InRange.progress (h : InRange lib) : Progress lib :=
  fun doc first last re flags hf => (h doc first last re flags hf).1

theorem nextCharacter_gt (search : SearchParameters) (position : Int) :
    position + 1 ≤ search.nextCharacter position := by
  unfold SearchParameters.nextCharacter
  split <;> omega

theorem candidates_congr (re : Regex) (s1 s2 : SearchParameters)
    (hd : s1._document = s2._document) (he : s1._endPosition = s2._endPosition)
    (hf : s1.regexFlags = s2.regexFlags) :
    ∀ (fuel : Nat) (start : Int),
      FindTextBackward.candidates lib re s1 fuel start =
        FindTextBackward.candidates lib re s2 fuel start := by
  intro fuel
  induction fuel with
  | zero => intro start; rfl
  | succ k ih =>
    intro start
    simp only [FindTextBackward.candidates, SearchParameters.nextCharacter, hd, he, hf]
    simp only [SearchParameters.nextCharacter, hd] at ih
    simp only [ih]

/-- With a primitive that makes progress the scan is over after at most
`endPosition - start + 2` passes. -/
theorem candidates_total (hp : Progress lib) (re : Regex) (search : SearchParameters) :
    ∀ (fuel : Nat) (start : Int),
      (search._endPosition - start + 1).toNat + 1 ≤ fuel →
      ∃ cs, FindTextBackward.candidates lib re search fuel start = some cs := by
  intro fuel
  induction fuel with
  | zero => intro start h; omega
  | succ k ih =>
    intro start h
    rw [FindTextBackward.candidates]
    by_cases hpast : start > search._endPosition
    · exact ⟨[], by rw [if_pos hpast]⟩
    · rw [if_neg hpast]
      by_cases hfound : (lib.regex_search search._document start search._endPosition re
          search.regexFlags).1 = true ∧
          lib.first (lib.regex_search search._document start search._endPosition re
            search.regexFlags).2 ≥ 0
      · have h1 := hp _ _ _ _ _ hfound.1
        have h2 := nextCharacter_gt search (lib.first (lib.regex_search search._document start
          search._endPosition re search.regexFlags).2)
        obtain ⟨cs, hcs⟩ := ih (search.nextCharacter (lib.first (lib.regex_search
          search._document start search._endPosition re search.regexFlags).2)) (by omega)
        refine ⟨(lib.regex_search search._document start search._endPosition re
          search.regexFlags).2 :: cs, ?_⟩
        simp only [hfound, and_self, if_true, hcs, Option.map_some']
      · exact ⟨[], by simp only [hfound, if_false]⟩

theorem candidates_mono (re : Regex) (search : SearchParameters) :
    ∀ (fuel : Nat) (start : Int) (cs : List MatchResults),
      FindTextBackward.candidates lib re search fuel start = some cs →
      FindTextBackward.candidates lib re search (fuel + 1) start = some cs := by
  intro fuel
  induction fuel with
  | zero => intro start cs h; simp [FindTextBackward.candidates] at h
  | succ k ih =>
    intro start cs h
    rw [FindTextBackward.candidates] at h ⊢
    by_cases hpast : start > search._endPosition
    · rw [if_pos hpast] at h ⊢; exact h
    · rw [if_neg hpast] at h ⊢
      dsimp only at h ⊢
      split at h
      · rename_i hfound
        rw [if_pos hfound]
        simp only [Option.map_eq_some'] at h ⊢
        obtain ⟨cs1, h1, h2⟩ := h
        exact ⟨cs1, ih _ _ h1, h2⟩
      · rename_i hfound
        rw [if_neg hfound]; exact h

theorem candidates_in_range (hr : InRange lib) (re : Regex) (search : SearchParameters) :
    ∀ (fuel : Nat) (start : Int) (cs : List MatchResults),
      FindTextBackward.candidates lib re search fuel start = some cs →
      ∀ c ∈ cs, start ≤ lib.first c ∧ lib.first c ≤ lib.second c ∧
        lib.second c ≤ search._endPosition := by
  intro fuel
  induction fuel with
  | zero => intro start cs h; simp [FindTextBackward.candidates] at h
  | succ k ih =>
    intro start cs h
    rw [FindTextBackward.candidates] at h
    by_cases hpast : start > search._endPosition
    · rw [if_pos hpast] at h; cases h; intro c hc; cases hc
    · rw [if_neg hpast] at h
      dsimp only at h
      split at h
      · rename_i hfound
        simp only [Option.map_eq_some'] at h
        obtain ⟨cs1, h1, rfl⟩ := h
        intro c hc
        rcases List.mem_cons.mp hc with rfl | hc1
        · exact hr _ _ _ _ _ hfound.1
        · have h2 := ih _ _ h1 c hc1
          have h3 := (hr _ _ _ _ _ hfound.1).1
          have h4 := nextCharacter_gt search (lib.first (lib.regex_search search._document start
            search._endPosition re search.regexFlags).2)
          exact ⟨by omega, h2.2⟩
      · cases h; intro c hc; cases hc

/-! ### What `best` selects -/

theorem best_snd_ge (e : Int) :
    ∀ (cs : List MatchResults) (b : Int × Int), b.2 ≤ (FindTextBackward.best lib e cs b).2 := by
  intro cs
  induction cs with
  | nil => intro b; exact le_refl _
  | cons m cs ih =>
    intro b
    rw [FindTextBackward.best]
    split
    · rename_i h
      have h1 := ih (lib.first m, lib.second m)
      have h2 : lib.second m > b.2 := h.1
      simp only at h1
      omega
    · exact ih b

/-- The final best is the initial one or one of the candidates, and never a zero-length
candidate at the right boundary. -/
theorem best_mem (e : Int) :
    ∀ (cs : List MatchResults) (b : Int × Int),
      FindTextBackward.best lib e cs b = b ∨
      ∃ c ∈ cs, FindTextBackward.best lib e cs b = (lib.first c, lib.second c) ∧
        ¬ FindTextBackward.emptyAtEnd lib e c := by
  intro cs
  induction cs with
  | nil => intro b; exact Or.inl rfl
  | cons m cs ih =>
    intro b
    rw [FindTextBackward.best]
    split
    · rename_i h
      rcases ih (lib.first m, lib.second m) with h1 | ⟨c, hc, h1, h2⟩
      · refine Or.inr ⟨m, List.mem_cons_self _ _, h1, ?_⟩
        intro hE
        unfold FindTextBackward.emptyAtEnd at hE
        unfold FindTextBackward.accepts at h
        rcases h.2 with h3 | h3
        · omega
        · exact h3 hE.1
      · exact Or.inr ⟨c, List.mem_cons_of_mem _ hc, h1, h2⟩
    · rcases ih b with h1 | ⟨c, hc, h1, h2⟩
      · exact Or.inl h1
      · exact Or.inr ⟨c, List.mem_cons_of_mem _ hc, h1, h2⟩

/-- The final best end is at least the end of every candidate that lies inside the range
and is not a zero-length match at the right boundary. -/
theorem best_ge (e : Int) :
    ∀ (cs : List MatchResults) (b : Int × Int) (c : MatchResults), c ∈ cs →
      lib.second c ≤ e → ¬ FindTextBackward.emptyAtEnd lib e c →
      lib.second c ≤ (FindTextBackward.best lib e cs b).2 := by
  intro cs
  induction cs with
  | nil => intro b c hc; cases hc
  | cons m cs ih =>
    intro b c hc hle hne
    rw [FindTextBackward.best]
    rcases List.mem_cons.mp hc with rfl | hc1
    · split
      · exact best_snd_ge lib e cs (lib.first c, lib.second c)
      · rename_i h
        have h1 := best_snd_ge lib e cs b
        unfold FindTextBackward.accepts at h
        unfold FindTextBackward.emptyAtEnd at hne
        by_cases h2 : lib.second c > b.2
        · exfalso
          apply h
          refine ⟨h2, ?_⟩
          by_cases h3 : lib.first c = lib.second c
          · left
            have : lib.second c ≠ e := fun h4 => hne ⟨h3, h4⟩
            omega
          · exact Or.inr h3
        · omega
    · split
      · exact ih _ c hc1 hle hne
      · exact ih _ c hc1 hle hne

/-- Nothing is selected when every candidate is a zero-length match at the right boundary. -/
theorem best_all_emptyAtEnd (e : Int) :
    ∀ (cs : List MatchResults) (b : Int × Int),
      (∀ c ∈ cs, FindTextBackward.emptyAtEnd lib e c) →
      FindTextBackward.best lib e cs b = b := by
  intro cs b h
  rcases best_mem lib e cs b with h1 | ⟨c, hc, _, h2⟩
  · exact h1
  · exact absurd (h c hc) h2

end Scan

/-! ## `EncodingDependent::FindText` and the facade -/

section Facade

variable {Regex MatchResults : Type} (lib : RegexLib Regex MatchResults)

open EncodingDependent

theorem compileRegex_normal (ed ed1 : EncodingDependent Regex MatchResults) (pat : Bytes)
    (flags : Int)
    (h : EncodingDependent.compileRegex lib ed pat flags = (ed1, Completion.normal ())) :
    ed1._lastCompileFlags = flags ∧ ed1._lastRegexString = pat ∧ ed1._match = ed._match := by
  rcases compileRegex_cases lib ed pat flags with ⟨h1, h2, h3⟩ | ⟨_, _, h3⟩ | ⟨re, _, _, h3⟩
  · rw [h3] at h; cases h; exact ⟨h1, h2, rfl⟩
  · rw [h3] at h; cases h
  · rw [h3] at h; cases h; exact ⟨rfl, rfl, rfl⟩

theorem ED_FindText_reject (fuel : Nat) (ed ed1 : EncodingDependent Regex MatchResults)
    (search : SearchParameters)
    (hc : EncodingDependent.compileRegex lib ed search._regexString search._compileFlags =
      (ed1, Completion.regex_error)) :
    EncodingDependent.FindText lib fuel ed search = some (ed1, search, Completion.regex_error) := by
  cases fuel <;> simp [EncodingDependent.FindText, hc]

theorem ED_FindText_forward (fuel : Nat) (ed ed1 : EncodingDependent Regex MatchResults)
    (search : SearchParameters)
    (hc : EncodingDependent.compileRegex lib ed search._regexString search._compileFlags =
      (ed1, Completion.normal ()))
    (hd : search._direction > 0) :
    EncodingDependent.FindText lib fuel ed search =
      some ((FindTextForward lib ed1 search).1, search,
        Completion.normal (FindTextForward lib ed1 search).2) := by
  cases fuel <;> simp [EncodingDependent.FindText, hc, hd]

theorem ED_FindText_backward (n : Nat) (ed ed1 : EncodingDependent Regex MatchResults)
    (search : SearchParameters)
    (hc : EncodingDependent.compileRegex lib ed search._regexString search._compileFlags =
      (ed1, Completion.normal ()))
    (hd : ¬ search._direction > 0) :
    EncodingDependent.FindText lib (n + 1) ed search =
      FindTextBackward lib (EncodingDependent.FindText lib n) n ed1 search := by
  simp [EncodingDependent.FindText, hc, hd]

/-- A backward search returns what `best` selects among the candidates. -/
theorem ED_FindText_backward_spec (n : Nat) (ed ed1 : EncodingDependent Regex MatchResults)
    (search : SearchParameters) (cs : List MatchResults)
    (hc : EncodingDependent.compileRegex lib ed search._regexString search._compileFlags =
      (ed1, Completion.normal ()))
    (hd : ¬ search._direction > 0)
    (hcs : FindTextBackward.candidates lib ed1._regex search n search._startPosition = some cs) :
    ∃ ed2 s2, EncodingDependent.FindText lib (n + 1) ed search =
        some (ed2, s2, Completion.normal (FindTextBackward.result search._document
          (FindTextBackward.best lib search._endPosition cs (-1, -1)))) ∧
      ed2._regex = ed1._regex ∧ ed2._lastCompileFlags = ed1._lastCompileFlags ∧
      ed2._lastRegexString = ed1._lastRegexString := by
  rw [ED_FindText_backward lib n ed ed1 search hc hd]
  obtain ⟨hk1, hk2, _⟩ := compileRegex_normal lib ed ed1 _ _ hc
  have hcs1 : FindTextBackward.candidates lib ed1._regex { search with _direction := 1 } n
      ({ search with _direction := 1 } : SearchParameters)._startPosition = some cs := by
    rw [candidates_congr lib ed1._regex { search with _direction := 1 } search rfl rfl rfl]
    exact hcs
  obtain ⟨ed2, start2, h1, h2, h3, h4⟩ :=
    loop_spec lib n ed1._regex n ed1 { search with _direction := 1 } lib.defaultResults (-1, -1) cs
      rfl hk1 hk2 Int.one_pos hcs1
  exact ⟨ed2, _, h1, h2, h3, h4⟩

theorem resolveDirection_cases (ld sp ep : Int) :
    ((sp > ep ∨ (sp = ep ∧ ld < 0)) ∧
        StdRegexSearch.resolveDirection ld sp ep = (ep, sp, -1)) ∨
    (¬ (sp > ep ∨ (sp = ep ∧ ld < 0)) ∧
        StdRegexSearch.resolveDirection ld sp ep = (sp, ep, 1)) := by
  unfold StdRegexSearch.resolveDirection
  by_cases h : sp > ep ∨ (sp = ep ∧ ld < 0)
  · exact Or.inl ⟨h, if_pos h⟩
  · exact Or.inr ⟨h, if_neg h⟩

theorem FindText_of_regex_error (fuel : Nat) (self : StdRegexSearch Regex MatchResults)
    (doc : Document) (sp ep : Int) (pat : Bytes) (cs w ws : Bool) (fl len : Int)
    (utf8 : EncodingDependent Regex MatchResults) (s1 : SearchParameters)
    (h : EncodingDependent.FindText lib fuel self._utf8
      (StdRegexSearch.searchParameters lib self doc sp ep pat cs) =
        some (utf8, s1, Completion.regex_error)) :
    StdRegexSearch.FindText lib fuel self doc sp ep pat cs w ws fl len =
      some ({ self with
          _lastDirection := (StdRegexSearch.searchParameters lib self doc sp ep pat cs)._direction
          _utf8 := utf8 }, -2, len) := by
  simp only [StdRegexSearch.FindText, h]

theorem FindText_of_found (fuel : Nat) (self : StdRegexSearch Regex MatchResults)
    (doc : Document) (sp ep : Int) (pat : Bytes) (cs w ws : Bool) (fl len : Int)
    (utf8 : EncodingDependent Regex MatchResults) (s1 : SearchParameters) (m : Match)
    (h : EncodingDependent.FindText lib fuel self._utf8
      (StdRegexSearch.searchParameters lib self doc sp ep pat cs) =
        some (utf8, s1, Completion.normal m))
    (hm : m.found = true) :
    StdRegexSearch.FindText lib fuel self doc sp ep pat cs w ws fl len =
      some ({ self with
          _lastDirection := (StdRegexSearch.searchParameters lib self doc sp ep pat cs)._direction
          _utf8 := utf8
          _lastMatch := self._lastMatch.assign m }, m.position, m.length) := by
  simp only [StdRegexSearch.FindText, h, hm, if_true]

theorem FindText_of_unfound (fuel : Nat) (self : StdRegexSearch Regex MatchResults)
    (doc : Document) (sp ep : Int) (pat : Bytes) (cs w ws : Bool) (fl len : Int)
    (utf8 : EncodingDependent Regex MatchResults) (s1 : SearchParameters) (m : Match)
    (h : EncodingDependent.FindText lib fuel self._utf8
      (StdRegexSearch.searchParameters lib self doc sp ep pat cs) =
        some (utf8, s1, Completion.normal m))
    (hm : m.found = false) :
    StdRegexSearch.FindText lib fuel self doc sp ep pat cs w ws fl len =
      some ({ self with
          _lastDirection := (StdRegexSearch.searchParameters lib self doc sp ep pat cs)._direction
          _utf8 := utf8
          _lastMatch := self._lastMatch.assignInt 0 }, -1, len) := by
  simp only [StdRegexSearch.FindText, h, hm, Bool.false_eq_true, if_false]

/-- Whatever a `FindText` call returns, the engine it leaves behind has recorded the
resolved direction and carries the matcher state `EncodingDependent::FindText` left. -/
theorem FindText_some (fuel : Nat) (self self1 : StdRegexSearch Regex MatchResults)
    (doc : Document) (sp ep : Int) (pat : Bytes) (cs w ws : Bool) (fl len r len1 : Int)
    (h : StdRegexSearch.FindText lib fuel self doc sp ep pat cs w ws fl len = some (self1, r, len1)) :
    ∃ s1 c, EncodingDependent.FindText lib fuel self._utf8
        (StdRegexSearch.searchParameters lib self doc sp ep pat cs) = some (self1._utf8, s1, c) ∧
      self1._lastDirection = (StdRegexSearch.searchParameters lib self doc sp ep pat cs)._direction ∧
      (r = -2 ↔ c = Completion.regex_error) := by
  cases hE : EncodingDependent.FindText lib fuel self._utf8
      (StdRegexSearch.searchParameters lib self doc sp ep pat cs) with
  | none => simp only [StdRegexSearch.FindText, hE] at h; cases h
  | some o =>
    obtain ⟨utf8, s1, c⟩ := o
    cases c with
    | regex_error =>
      rw [FindText_of_regex_error lib fuel self doc sp ep pat cs w ws fl len utf8 s1 hE] at h
      cases h
      exact ⟨s1, _, rfl, rfl, by simp⟩
    | normal m =>
      cases hm : m.found with
      | true =>
        rw [FindText_of_found lib fuel self doc sp ep pat cs w ws fl len utf8 s1 m hE hm] at h
        cases h
        refine ⟨s1, _, rfl, rfl, ?_⟩
        have : 0 ≤ m.position := by
          unfold Match.found at hm
          exact of_decide_eq_true hm
        constructor
        · intro h2; omega
        · intro h2; cases h2
      | false =>
        rw [FindText_of_unfound lib fuel self doc sp ep pat cs w ws fl len utf8 s1 m hE hm] at h
        cases h
        exact ⟨s1, _, rfl, rfl, by simp⟩

/-! ### The cache stays coherent -/

theorem CacheCoherent_of_fields (ed ed1 : EncodingDependent Regex MatchResults)
    (h1 : ed1._regex = ed._regex) (h2 : ed1._lastCompileFlags = ed._lastCompileFlags)
    (h3 : ed1._lastRegexString = ed._lastRegexString) (h : CacheCoherent lib ed) :
    CacheCoherent lib ed1 := by
  unfold CacheCoherent at h ⊢
  rw [h1, h2, h3]; exact h

theorem compileRegex_coherent (ed : EncodingDependent Regex MatchResults) (pat : Bytes)
    (flags : Int) (h : CacheCoherent lib ed) :
    CacheCoherent lib (EncodingDependent.compileRegex lib ed pat flags).1 := by
  rcases compileRegex_cases lib ed pat flags with ⟨_, _, h3⟩ | ⟨_, _, h3⟩ | ⟨re, _, hre, h3⟩
  · rw [h3]; exact h
  · rw [h3]; exact h
  · rw [h3]; exact Or.inr hre

theorem compileRegex_coherent_some (ed : EncodingDependent Regex MatchResults) (pat : Bytes)
    (flags : Int) (re : Regex) (h : CacheCoherent lib ed) (hflags : flags ≠ -1)
    (hre : lib.basic_regex (StdGetUnicode lib pat true) flags = some re) :
    ∃ ed1, EncodingDependent.compileRegex lib ed pat flags = (ed1, Completion.normal ()) ∧
      ed1._regex = re := by
  rcases compileRegex_cases lib ed pat flags with ⟨h1, h2, h3⟩ | ⟨_, h2, _⟩ | ⟨re1, _, hre1, h3⟩
  · refine ⟨ed, h3, ?_⟩
    rcases h with h | h
    · exact absurd (h1.symm.trans h) hflags
    · rw [h1, h2, hre] at h
      exact (Option.some.inj h).symm
  · rw [hre] at h2; cases h2
  · rw [hre] at hre1
    exact ⟨_, h3, (Option.some.inj hre1).symm⟩

theorem compileRegex_coherent_none (ed : EncodingDependent Regex MatchResults) (pat : Bytes)
    (flags : Int) (h : CacheCoherent lib ed) (hflags : flags ≠ -1)
    (hre : lib.basic_regex (StdGetUnicode lib pat true) flags = none) :
    EncodingDependent.compileRegex lib ed pat flags = (ed, Completion.regex_error) := by
  rcases compileRegex_cases lib ed pat flags with ⟨h1, h2, _⟩ | ⟨_, _, h3⟩ | ⟨re1, _, hre1, _⟩
  · rcases h with h | h
    · exact absurd (h1.symm.trans h) hflags
    · rw [h1, h2, hre] at h; cases h
  · exact h3
  · rw [hre] at hre1; cases hre1

theorem FindTextForward_fields (ed : EncodingDependent Regex MatchResults)
    (search : SearchParameters) :
    (FindTextForward lib ed search).1._regex = ed._regex ∧
    (FindTextForward lib ed search).1._lastCompileFlags = ed._lastCompileFlags ∧
    (FindTextForward lib ed search).1._lastRegexString = ed._lastRegexString := by
  by_cases hpast : search._startPosition > search._endPosition
  · rw [FindTextForward_past lib ed search hpast]; exact ⟨rfl, rfl, rfl⟩
  · rw [FindTextForward_inside lib ed search hpast]; exact ⟨rfl, rfl, rfl⟩

theorem loop_invariant (P : EncodingDependent Regex MatchResults → Prop)
    (F : EncodingDependent Regex MatchResults → SearchParameters →
      Option (SearchOutcome Regex MatchResults))
    (hF : ∀ ed s o, P ed → F ed s = some o → P o.1) :
    ∀ (fuel : Nat) (ed : EncodingDependent Regex MatchResults) (search : SearchParameters)
      (bm : MatchResults) (bp be : Int) (o : SearchOutcome Regex MatchResults),
      P ed → FindTextBackward.loop F fuel ed search bm bp be = some o → P o.1 := by
  intro fuel
  induction fuel with
  | zero => intro ed search bm bp be o _ h; simp [FindTextBackward.loop] at h
  | succ k ih =>
    intro ed search bm bp be o hP h
    cases hE : F ed search with
    | none => rw [FindTextBackward.loop, hE] at h; cases h
    | some o1 =>
      obtain ⟨ed1, s1, c⟩ := o1
      have hP1 : P ed1 := hF ed search _ hP hE
      cases c with
      | regex_error =>
        rw [FindTextBackward.loop, hE] at h
        cases h; exact hP1
      | normal m =>
        cases hm : m.found with
        | false =>
          rw [loop_stop F k ed ed1 search s1 bm bp be m hE hm] at h
          cases h; exact hP1
        | true =>
          rw [loop_continue F k ed ed1 search s1 bm bp be m hE hm] at h
          split at h
          · exact ih _ _ _ _ _ _ hP1 h
          · exact ih _ _ _ _ _ _ hP1 h

theorem ED_FindText_coherent :
    ∀ (fuel : Nat) (ed : EncodingDependent Regex MatchResults) (search : SearchParameters)
      (o : SearchOutcome Regex MatchResults),
      CacheCoherent lib ed → EncodingDependent.FindText lib fuel ed search = some o →
      CacheCoherent lib o.1 := by
  intro fuel
  induction fuel with
  | zero =>
    intro ed search o hco h
    have hco1 := compileRegex_coherent lib ed search._regexString search._compileFlags hco
    cases hc : EncodingDependent.compileRegex lib ed search._regexString search._compileFlags with
    | mk ed1 c =>
      rw [hc] at hco1
      cases c with
      | regex_error =>
        rw [ED_FindText_reject lib 0 ed ed1 search hc] at h
        cases h; exact hco1
      | normal u =>
        by_cases hd : search._direction > 0
        · rw [ED_FindText_forward lib 0 ed ed1 search hc hd] at h
          cases h
          obtain ⟨h1, h2, h3⟩ := FindTextForward_fields lib ed1 search
          exact CacheCoherent_of_fields lib ed1 _ h1 h2 h3 hco1
        · simp [EncodingDependent.FindText, hc, hd] at h
  | succ n ih =>
    intro ed search o hco h
    have hco1 := compileRegex_coherent lib ed search._regexString search._compileFlags hco
    cases hc : EncodingDependent.compileRegex lib ed search._regexString search._compileFlags with
    | mk ed1 c =>
      rw [hc] at hco1
      cases c with
      | regex_error =>
        rw [ED_FindText_reject lib (n + 1) ed ed1 search hc] at h
        cases h; exact hco1
      | normal u =>
        by_cases hd : search._direction > 0
        · rw [ED_FindText_forward lib (n + 1) ed ed1 search hc hd] at h
          cases h
          obtain ⟨h1, h2, h3⟩ := FindTextForward_fields lib ed1 search
          exact CacheCoherent_of_fields lib ed1 _ h1 h2 h3 hco1
        · rw [ED_FindText_backward lib n ed ed1 search hc hd] at h
          unfold FindTextBackward at h
          exact loop_invariant (CacheCoherent lib) _ (fun ed s o hP hF => ih ed s o hP hF)
            n ed1 _ _ _ _ o hco1 h

/-- In every reachable state the cached regex is the compilation of the cached key. -/
theorem Reachable.coherent {self : StdRegexSearch Regex MatchResults} (h : Reachable lib self) :
    CacheCoherent lib self._utf8 := by
  induction h with
  | fresh => exact Or.inl rfl
  | findText _ hstep ih =>
    obtain ⟨s1, c, h1, _, _⟩ := FindText_some lib _ _ _ _ _ _ _ _ _ _ _ _ _ _ hstep
    exact ED_FindText_coherent lib _ _ _ _ ih h1
  | substitute doc text _ ih => exact ih

theorem compileFlags_ne (cs : Bool) : StdRegexSearch.compileFlags lib cs ≠ -1 := by
  have := compileFlags_nonneg lib cs
  omega

/-! ### Evaluating a call -/

theorem searchParameters_backward (self : StdRegexSearch Regex MatchResults) (doc : Document)
    (sp ep : Int) (pat : Bytes) (cs : Bool)
    (hback : sp > ep ∨ (sp = ep ∧ self._lastDirection < 0)) :
    StdRegexSearch.searchParameters lib self doc sp ep pat cs =
      { _document := doc, _regexString := pat,
        _compileFlags := StdRegexSearch.compileFlags lib cs,
        _startPosition := snap doc ep, _endPosition := snap doc sp,
        regexFlags := lib.format_first_only, _direction := -1 } := by
  unfold StdRegexSearch.searchParameters StdRegexSearch.resolveDirection
  rw [if_pos hback]; rfl

theorem searchParameters_forward (self : StdRegexSearch Regex MatchResults) (doc : Document)
    (sp ep : Int) (pat : Bytes) (cs : Bool)
    (hfwd : ¬ (sp > ep ∨ (sp = ep ∧ self._lastDirection < 0))) :
    StdRegexSearch.searchParameters lib self doc sp ep pat cs =
      { _document := doc, _regexString := pat,
        _compileFlags := StdRegexSearch.compileFlags lib cs,
        _startPosition := snap doc sp, _endPosition := snap doc ep,
        regexFlags := lib.format_first_only, _direction := 1 } := by
  unfold StdRegexSearch.searchParameters StdRegexSearch.resolveDirection
  rw [if_neg hfwd]; rfl

theorem result_found (doc : Document) (b : Int × Int) (h : 0 ≤ b.1) :
    (FindTextBackward.result doc b).found = true ∧
    (FindTextBackward.result doc b).position = b.1 ∧
    (FindTextBackward.result doc b).length = b.2 - b.1 := by
  unfold FindTextBackward.result
  rw [if_pos h]
  exact ⟨decide_eq_true h, rfl, rfl⟩

theorem result_unfound (doc : Document) (b : Int × Int) (h : ¬ 0 ≤ b.1) :
    (FindTextBackward.result doc b).found = false := by
  unfold FindTextBackward.result
  rw [if_neg h]
  exact Match_default_found

/-- A call resolved as backward, with a pattern that compiles, returns what `best`
selects among the candidates of the scan over the snapped range. -/
theorem FindText_backward_eval (n : Nat) (self : StdRegexSearch Regex MatchResults)
    (doc : Document) (sp ep : Int) (pat : Bytes) (cs w ws : Bool) (fl len : Int)
    (ed1 : EncodingDependent Regex MatchResults) (cands : List MatchResults)
    (hback : sp > ep ∨ (sp = ep ∧ self._lastDirection < 0))
    (hc : EncodingDependent.compileRegex lib self._utf8 pat (StdRegexSearch.compileFlags lib cs) =
      (ed1, Completion.normal ()))
    (hcs : FindTextBackward.candidates lib ed1._regex
      (StdRegexSearch.searchParameters lib self doc sp ep pat cs) n (snap doc ep) = some cands) :
    ∃ self1, StdRegexSearch.FindText lib (n + 1) self doc sp ep pat cs w ws fl len =
        some (self1,
          (if 0 ≤ (FindTextBackward.best lib (snap doc sp) cands (-1, -1)).1 then
            (FindTextBackward.best lib (snap doc sp) cands (-1, -1)).1 else -1),
          (if 0 ≤ (FindTextBackward.best lib (snap doc sp) cands (-1, -1)).1 then
            (FindTextBackward.best lib (snap doc sp) cands (-1, -1)).2 -
              (FindTextBackward.best lib (snap doc sp) cands (-1, -1)).1 else len)) ∧
      self1._lastDirection = -1 ∧ self1._utf8._regex = ed1._regex ∧
      self1._utf8._lastCompileFlags = ed1._lastCompileFlags ∧
      self1._utf8._lastRegexString = ed1._lastRegexString := by
  have hsp := searchParameters_backward lib self doc sp ep pat cs hback
  have hc1 : EncodingDependent.compileRegex lib self._utf8
      (StdRegexSearch.searchParameters lib self doc sp ep pat cs)._regexString
      (StdRegexSearch.searchParameters lib self doc sp ep pat cs)._compileFlags =
      (ed1, Completion.normal ()) := by rw [hsp]; exact hc
  have hdir : (StdRegexSearch.searchParameters lib self doc sp ep pat cs)._direction = -1 := by
    rw [hsp]
  have hd : ¬ (StdRegexSearch.searchParameters lib self doc sp ep pat cs)._direction > 0 := by
    rw [hdir]; decide
  have hcs1 : FindTextBackward.candidates lib ed1._regex
      (StdRegexSearch.searchParameters lib self doc sp ep pat cs) n
      (StdRegexSearch.searchParameters lib self doc sp ep pat cs)._startPosition = some cands := by
    have : (StdRegexSearch.searchParameters lib self doc sp ep pat cs)._startPosition
        = snap doc ep := by rw [hsp]
    rw [this]; exact hcs
  obtain ⟨ed2, s2, h1, h2, h3, h4⟩ :=
    ED_FindText_backward_spec lib n self._utf8 ed1 _ cands hc1 hd hcs1
  have hdoc : (StdRegexSearch.searchParameters lib self doc sp ep pat cs)._document = doc := by
    rw [hsp]
  have hend : (StdRegexSearch.searchParameters lib self doc sp ep pat cs)._endPosition
      = snap doc sp := by rw [hsp]
  rw [hdoc, hend] at h1
  by_cases hb : 0 ≤ (FindTextBackward.best lib (snap doc sp) cands (-1, -1)).1
  · obtain ⟨hm1, hm2, hm3⟩ := result_found doc _ hb
    refine ⟨{ self with
        _lastDirection := (StdRegexSearch.searchParameters lib self doc sp ep pat cs)._direction
        _utf8 := ed2
        _lastMatch := self._lastMatch.assign (FindTextBackward.result doc
          (FindTextBackward.best lib (snap doc sp) cands (-1, -1))) }, ?_, hdir, h2, h3, h4⟩
    rw [FindText_of_found lib (n + 1) self doc sp ep pat cs w ws fl len ed2 s2 _ h1 hm1,
      hm2, hm3, if_pos hb, if_pos hb]
  · have hm1 := result_unfound doc _ hb
    refine ⟨{ self with
        _lastDirection := (StdRegexSearch.searchParameters lib self doc sp ep pat cs)._direction
        _utf8 := ed2
        _lastMatch := self._lastMatch.assignInt 0 }, ?_, hdir, h2, h3, h4⟩
    rw [FindText_of_unfound lib (n + 1) self doc sp ep pat cs w ws fl len ed2 s2 _ h1 hm1,
      if_neg hb, if_neg hb]

/-- A call resolved as forward, with a pattern that compiles, returns the outcome of
`FindTextForward` over the snapped range. -/
theorem FindText_forward_eval (fuel : Nat) (self : StdRegexSearch Regex MatchResults)
    (doc : Document) (sp ep : Int) (pat : Bytes) (cs : Bool)
    (ed1 : EncodingDependent Regex MatchResults)
    (hfwd : ¬ (sp > ep ∨ (sp = ep ∧ self._lastDirection < 0)))
    (hc : EncodingDependent.compileRegex lib self._utf8 pat (StdRegexSearch.compileFlags lib cs) =
      (ed1, Completion.normal ())) :
    EncodingDependent.FindText lib fuel self._utf8
        (StdRegexSearch.searchParameters lib self doc sp ep pat cs) =
      some ((FindTextForward lib ed1
          (StdRegexSearch.searchParameters lib self doc sp ep pat cs)).1,
        StdRegexSearch.searchParameters lib self doc sp ep pat cs,
        Completion.normal (FindTextForward lib ed1
          (StdRegexSearch.searchParameters lib self doc sp ep pat cs)).2) := by
  have hsp := searchParameters_forward lib self doc sp ep pat cs hfwd
  apply ED_FindText_forward
  · rw [hsp]; exact hc
  · rw [hsp]; exact Int.one_pos

/-- With a primitive that makes progress, every call returns once the fuel reaches
`fuelBound`. -/
theorem FindText_returns (hp : Progress lib) (fuel : Nat)
    (self : StdRegexSearch Regex MatchResults)
    (doc : Document) (sp ep : Int) (pat : Bytes) (cs w ws : Bool) (fl len : Int)
    (hfuel : fuelBound doc sp ep ≤ fuel) :
    ∃ self1 r len1, StdRegexSearch.FindText lib fuel self doc sp ep pat cs w ws fl len =
      some (self1, r, len1) := by
  cases hc : EncodingDependent.compileRegex lib self._utf8 pat
      (StdRegexSearch.compileFlags lib cs) with
  | mk ed1 c =>
    cases c with
    | regex_error =>
      have h1 := ED_FindText_reject lib fuel self._utf8 ed1
        (StdRegexSearch.searchParameters lib self doc sp ep pat cs) hc
      exact ⟨_, _, _, FindText_of_regex_error lib fuel self doc sp ep pat cs w ws fl len _ _ h1⟩
    | normal u =>
      by_cases hback : sp > ep ∨ (sp = ep ∧ self._lastDirection < 0)
      · obtain ⟨n, rfl⟩ : ∃ n, fuel = n + 1 := ⟨fuel - 1, by unfold fuelBound at hfuel; omega⟩
        obtain ⟨cands, hcs⟩ := candidates_total lib hp ed1._regex
          (StdRegexSearch.searchParameters lib self doc sp ep pat cs) n (snap doc ep)
          (by
            rw [searchParameters_backward lib self doc sp ep pat cs hback]
            unfold fuelBound at hfuel
            dsimp only
            omega)
        obtain ⟨self1, h1, _⟩ :=
          FindText_backward_eval lib n self doc sp ep pat cs w ws fl len ed1 cands hback hc hcs
        exact ⟨_, _, _, h1⟩
      · have h1 := FindText_forward_eval lib fuel self doc sp ep pat cs ed1 hback hc
        cases hm : (FindTextForward lib ed1
            (StdRegexSearch.searchParameters lib self doc sp ep pat cs)).2.found with
        | true =>
          exact ⟨_, _, _, FindText_of_found lib fuel self doc sp ep pat cs w ws fl len _ _ _ h1 hm⟩
        | false =>
          exact ⟨_, _, _, FindText_of_unfound lib fuel self doc sp ep pat cs w ws fl len _ _ _ h1 hm⟩

end Facade

/-! ## The sample primitive stays inside its range -/

namespace Sample

theorem span_bounds (doc : Document) (ic : Bool) (c : Nat) :
    ∀ (n : Nat) (pos : Int), pos ≤ span doc ic c n pos ∧ span doc ic c n pos ≤ pos + n := by
  intro n
  induction n with
  | zero => intro pos; simp [span]
  | succ k ih =>
    intro pos
    rw [span]
    split
    · have := ih (pos + 1)
      constructor
      · omega
      · push_cast; omega
    · constructor
      · omega
      · push_cast; omega

theorem run_bounds (doc : Document) (ic : Bool) (last : Int) :
    ∀ (items : List Item) (pos g : Int) (caps : List (Int × Int × List Nat)) (e : Int)
      (caps1 : List (Int × Int × List Nat)),
      run doc ic last items pos g caps = some (e, caps1) → pos ≤ last → pos ≤ e ∧ e ≤ last := by
  intro items
  induction items with
  | nil =>
    intro pos g caps e caps1 h hle
    simp only [run, Option.some.injEq, Prod.mk.injEq] at h
    omega
  | cons it rest ih =>
    intro pos g caps e caps1 h hle
    cases it with
    | groupOpen =>
      rw [run] at h
      exact ih _ _ _ _ _ h hle
    | groupClose =>
      rw [run] at h
      exact ih _ _ _ _ _ h hle
    | chr c q =>
      cases q with
      | one =>
        rw [run] at h
        split at h
        · rename_i hc
          have := ih _ _ _ _ _ h (by omega)
          omega
        · cases h
      | plus =>
        rw [run] at h
        split at h
        · rename_i hc
          have hs := span_bounds doc ic c (last - pos).toNat pos
          have := ih _ _ _ _ _ h (by omega)
          omega
        · cases h
      | star =>
        rw [run] at h
        have hs := span_bounds doc ic c (last - pos).toNat pos
        have := ih _ _ _ _ _ h (by omega)
        omega

theorem scan_bounds (doc : Document) (re : Regex) (last : Int) :
    ∀ (n : Nat) (pos : Int) (m : Results),
      scan doc re last n pos = some m → pos + n ≤ last + 1 →
      pos ≤ lib.first m ∧ lib.first m ≤ lib.second m ∧ lib.second m ≤ last := by
  intro n
  induction n with
  | zero => intro pos m h; simp [scan] at h
  | succ k ih =>
    intro pos m h hle
    rw [scan] at h
    split at h
    · rename_i e caps hrun
      cases h
      have := run_bounds doc re.ignoreCase last re.items pos pos [] e caps hrun (by omega)
      simp only [lib, List.head?_cons, Option.map_some', Option.getD_some]
      omega
    · have := ih (pos + 1) m h (by push_cast at hle; omega)
      omega

theorem lib_inRange : InRange lib := by
  intro doc first last re flags h
  simp only [lib] at h ⊢
  split at h
  · rename_i hle
    rw [if_pos hle]
    split
    · rename_i m hscan
      exact scan_bounds doc re last _ first m hscan (by omega)
    · rename_i hscan
      rw [hscan] at h
      simp at h
  · simp at h

theorem lib_progress : Progress lib := InRange.progress lib lib_inRange

end Sample

/-! ## Properties of `FindText` and `SubstituteByPosition` -/

section Properties

variable {Regex MatchResults : Type} (lib : RegexLib Regex MatchResults)

open EncodingDependent

/-- Once the pattern is compiled, no pass of the loop throws. -/
theorem loop_normal (n : Nat) :
    ∀ (fuel : Nat) (ed : EncodingDependent Regex MatchResults) (search : SearchParameters)
      (bm : MatchResults) (bp be : Int) (o : SearchOutcome Regex MatchResults),
      ed._lastCompileFlags = search._compileFlags →
      ed._lastRegexString = search._regexString → search._direction > 0 →
      FindTextBackward.loop (EncodingDependent.FindText lib n) fuel ed search bm bp be = some o →
      ∃ m, o.2.2 = Completion.normal m := by
  intro fuel
  induction fuel with
  | zero => intro ed search bm bp be o _ _ _ h; simp [FindTextBackward.loop] at h
  | succ k ih =>
    intro ed search bm bp be o hf hp hd h
    have hF := ED_FindText_forward_hit lib n ed search hf hp hd
    obtain ⟨_, h2, h3⟩ := FindTextForward_fields lib ed search
    cases hm : (FindTextForward lib ed search).2.found with
    | false =>
      rw [loop_stop _ k ed _ search search bm bp be _ hF hm] at h
      cases h; exact ⟨_, rfl⟩
    | true =>
      rw [loop_continue _ k ed _ search search bm bp be _ hF hm] at h
      split at h
      · refine ih _ _ _ _ _ _ ?_ ?_ ?_ h
        · exact h2.trans hf
        · exact h3.trans hp
        · exact hd
      · refine ih _ _ _ _ _ _ ?_ ?_ ?_ h
        · exact h2.trans hf
        · exact h3.trans hp
        · exact hd

/-- A call whose pattern compiles never ends with `regex_error`. -/
theorem ED_FindText_normal (fuel : Nat) (ed ed1 : EncodingDependent Regex MatchResults)
    (search : SearchParameters) (o : SearchOutcome Regex MatchResults)
    (hc : EncodingDependent.compileRegex lib ed search._regexString search._compileFlags =
      (ed1, Completion.normal ()))
    (h : EncodingDependent.FindText lib fuel ed search = some o) :
    ∃ m, o.2.2 = Completion.normal m := by
  by_cases hd : search._direction > 0
  · rw [ED_FindText_forward lib fuel ed ed1 search hc hd] at h
    cases h; exact ⟨_, rfl⟩
  · cases fuel with
    | zero => simp [EncodingDependent.FindText, hc, hd] at h
    | succ n =>
      rw [ED_FindText_backward lib n ed ed1 search hc hd] at h
      unfold FindTextBackward at h
      obtain ⟨hk1, hk2, _⟩ := compileRegex_normal lib ed ed1 _ _ hc
      exact loop_normal lib n n ed1 { search with _direction := 1 } _ _ _ o hk1 hk2
        Int.one_pos h

/-- C1. Direction rule of `FindText`: the search parameters are resolved as backward
(direction -1) over `[endPos, startPos]` exactly when `startPos > endPos`, or
`startPos == endPos` and the recorded direction of the previous call is negative; in every
other case as forward (direction 1) over `[startPos, endPos]`. A fresh engine records
direction 0, so an empty range resolves forward on it. The resolved endpoints, snapped,
and the resolved direction are what `_utf8.FindText` receives, and with a pattern that
compiles it runs `FindTextBackward` in the first case and `FindTextForward` in the second. -/
theorem FindText_direction_rule (self : StdRegexSearch Regex MatchResults) (doc : Document)
    (sp ep : Int) (pat : Bytes) (cs : Bool) :
    (StdRegexSearch.resolveDirection self._lastDirection sp ep = (ep, sp, -1) ↔
        (sp > ep ∨ (sp = ep ∧ self._lastDirection < 0))) ∧
    (StdRegexSearch.resolveDirection self._lastDirection sp ep = (sp, ep, 1) ↔
        ¬ (sp > ep ∨ (sp = ep ∧ self._lastDirection < 0))) ∧
    ((StdRegexSearch.new lib)._lastDirection = 0 ∧
      StdRegexSearch.resolveDirection (StdRegexSearch.new lib)._lastDirection sp sp = (sp, sp, 1)) ∧
    ((StdRegexSearch.searchParameters lib self doc sp ep pat cs)._startPosition =
        snap doc (StdRegexSearch.resolveDirection self._lastDirection sp ep).1 ∧
      (StdRegexSearch.searchParameters lib self doc sp ep pat cs)._endPosition =
        snap doc (StdRegexSearch.resolveDirection self._lastDirection sp ep).2.1 ∧
      (StdRegexSearch.searchParameters lib self doc sp ep pat cs)._direction =
        (StdRegexSearch.resolveDirection self._lastDirection sp ep).2.2) ∧
    (∀ (n : Nat) (ed1 : EncodingDependent Regex MatchResults),
      EncodingDependent.compileRegex lib self._utf8 pat (StdRegexSearch.compileFlags lib cs) =
        (ed1, Completion.normal ()) →
      ((sp > ep ∨ (sp = ep ∧ self._lastDirection < 0)) →
        EncodingDependent.FindText lib (n + 1) self._utf8
            (StdRegexSearch.searchParameters lib self doc sp ep pat cs) =
          FindTextBackward lib (EncodingDependent.FindText lib n) n ed1
            (StdRegexSearch.searchParameters lib self doc sp ep pat cs)) ∧
      (¬ (sp > ep ∨ (sp = ep ∧ self._lastDirection < 0)) →
        EncodingDependent.FindText lib n self._utf8
            (StdRegexSearch.searchParameters lib self doc sp ep pat cs) =
          some ((FindTextForward lib ed1
              (StdRegexSearch.searchParameters lib self doc sp ep pat cs)).1,
            StdRegexSearch.searchParameters lib self doc sp ep pat cs,
            Completion.normal (FindTextForward lib ed1
              (StdRegexSearch.searchParameters lib self doc sp ep pat cs)).2))) := by
  refine ⟨?_, ?_, ⟨rfl, ?_⟩, ⟨rfl, rfl, rfl⟩, ?_⟩
  · rcases resolveDirection_cases self._lastDirection sp ep with ⟨h1, h2⟩ | ⟨h1, h2⟩
    · rw [h2]; exact ⟨fun _ => h1, fun _ => rfl⟩
    · rw [h2]
      constructor
      · intro h3
        have h4 := congrArg (fun t => t.2.2) h3
        simp at h4
      · intro h3; exact absurd h3 h1
  · rcases resolveDirection_cases self._lastDirection sp ep with ⟨h1, h2⟩ | ⟨h1, h2⟩
    · rw [h2]
      constructor
      · intro h3
        have h4 := congrArg (fun t => t.2.2) h3
        simp at h4
      · intro h3; exact absurd h1 h3
    · rw [h2]; exact ⟨fun _ => h1, fun _ => rfl⟩
  · unfold StdRegexSearch.resolveDirection StdRegexSearch.new
    simp
  · intro n ed1 hc
    constructor
    · intro hback
      have hsp := searchParameters_backward lib self doc sp ep pat cs hback
      apply ED_FindText_backward
      · rw [hsp]; exact hc
      · have hdir : (StdRegexSearch.searchParameters lib self doc sp ep pat cs)._direction
            = -1 := by rw [hsp]
        rw [hdir]; decide
    · intro hfwd
      exact FindText_forward_eval lib n self doc sp ep pat cs ed1 hfwd hc

/-- C2. `FindText` returns the sentinel -2 exactly when the pattern compiler rejects the
pattern text under the call's compile flags, in every reachable state, for every range
and direction and every fuel: a rejected pattern yields -2 (the length output untouched),
and yields -2 again on every later call with that pattern and case flag; and a call that
returns -2 had its pattern rejected. -/
theorem FindText_invalid_pattern (self : StdRegexSearch Regex MatchResults)
    (hR : Reachable lib self) (fuel : Nat) (doc : Document) (sp ep : Int) (pat : Bytes)
    (cs w ws : Bool) (fl len : Int) :
    (lib.basic_regex (StdGetUnicode lib pat true) (StdRegexSearch.compileFlags lib cs) = none →
      ∃ self1, StdRegexSearch.FindText lib fuel self doc sp ep pat cs w ws fl len =
          some (self1, -2, len) ∧
        ∀ (fuel2 : Nat) (doc2 : Document) (sp2 ep2 : Int) (w2 ws2 : Bool) (fl2 len2 : Int),
          ∃ self2, StdRegexSearch.FindText lib fuel2 self1 doc2 sp2 ep2 pat cs w2 ws2 fl2 len2 =
            some (self2, -2, len2)) ∧
    (∀ self1 r len1,
      StdRegexSearch.FindText lib fuel self doc sp ep pat cs w ws fl len = some (self1, r, len1) →
      (r = -2 ↔
        lib.basic_regex (StdGetUnicode lib pat true) (StdRegexSearch.compileFlags lib cs) = none)) := by
  have key : ∀ (s0 : StdRegexSearch Regex MatchResults), Reachable lib s0 →
      lib.basic_regex (StdGetUnicode lib pat true) (StdRegexSearch.compileFlags lib cs) = none →
      ∀ (fuel2 : Nat) (doc2 : Document) (sp2 ep2 : Int) (w2 ws2 : Bool) (fl2 len2 : Int),
        ∃ self2, StdRegexSearch.FindText lib fuel2 s0 doc2 sp2 ep2 pat cs w2 ws2 fl2 len2 =
          some (self2, -2, len2) := by
    intro s0 hR0 hnone fuel2 doc2 sp2 ep2 w2 ws2 fl2 len2
    have hc := compileRegex_coherent_none lib s0._utf8 pat _ (Reachable.coherent lib hR0)
      (compileFlags_ne lib cs) hnone
    have h1 := ED_FindText_reject lib fuel2 s0._utf8 s0._utf8
      (StdRegexSearch.searchParameters lib s0 doc2 sp2 ep2 pat cs) hc
    exact ⟨_, FindText_of_regex_error lib fuel2 s0 doc2 sp2 ep2 pat cs w2 ws2 fl2 len2 _ _ h1⟩
  constructor
  · intro hnone
    obtain ⟨self1, h1⟩ := key self hR hnone fuel doc sp ep w ws fl len
    exact ⟨self1, h1, key self1 (Reachable.findText hR h1) hnone⟩
  · intro self1 r len1 h
    obtain ⟨s1, c, h1, _, h3⟩ := FindText_some lib fuel self self1 doc sp ep pat cs w ws fl len r len1 h
    rw [h3]
    rcases Option.eq_none_or_eq_some (lib.basic_regex (StdGetUnicode lib pat true)
      (StdRegexSearch.compileFlags lib cs)) with hnone | ⟨re, hre⟩
    · have hc := compileRegex_coherent_none lib self._utf8 pat _ (Reachable.coherent lib hR)
        (compileFlags_ne lib cs) hnone
      have h2 := ED_FindText_reject lib fuel self._utf8 self._utf8
        (StdRegexSearch.searchParameters lib self doc sp ep pat cs) hc
      rw [h2] at h1
      simp only [Option.some.injEq, Prod.mk.injEq] at h1
      rw [← h1.2.2]
      exact ⟨fun _ => hnone, fun _ => rfl⟩
    · obtain ⟨ed1, hc, _⟩ := compileRegex_coherent_some lib self._utf8 pat _ re
        (Reachable.coherent lib hR) (compileFlags_ne lib cs) hre
      obtain ⟨m, hm⟩ := ED_FindText_normal lib fuel self._utf8 ed1
        (StdRegexSearch.searchParameters lib self doc sp ep pat cs) _ hc h1
      simp only at hm
      rw [hm, hre]
      constructor <;> intro h4 <;> cases h4

/-- C2 on a concrete buffer: the unbalanced pattern `a(` on a fresh engine, forward and
backward. -/
theorem FindText_invalid_pattern_witness :
    Reachable Sample.lib Sample.engine ∧
    Sample.lib.basic_regex (StdGetUnicode Sample.lib (Sample.ascii "a(") true)
      (StdRegexSearch.compileFlags Sample.lib true) = none ∧
    (∃ self1, StdRegexSearch.FindText Sample.lib 0 Sample.engine
      (Sample.document (Sample.ascii "xa(y")) 0 4 (Sample.ascii "a(") true false false 0 7 =
        some (self1, -2, 7)) ∧
    (∃ self1, StdRegexSearch.FindText Sample.lib 0 Sample.engine
      (Sample.document (Sample.ascii "xa(y")) 4 0 (Sample.ascii "a(") true false false 0 7 =
        some (self1, -2, 7)) :=
  ⟨Reachable.fresh, by decide,
    ((FindText_invalid_pattern Sample.lib Sample.engine Reachable.fresh 0
      (Sample.document (Sample.ascii "xa(y")) 0 4 (Sample.ascii "a(") true false false 0 7).1
        (by decide)).imp (fun _ h => h.1),
    ((FindText_invalid_pattern Sample.lib Sample.engine Reachable.fresh 0
      (Sample.document (Sample.ascii "xa(y")) 4 0 (Sample.ascii "a(") true false false 0 7).1
        (by decide)).imp (fun _ h => h.1)⟩

/-- A call resolved as forward over a snapped range that is not reversed makes exactly one
pass of the primitive, keeps its match results in `_match` and returns its outcome. -/
theorem FindText_forward_spec (self : StdRegexSearch Regex MatchResults)
    (hR : Reachable lib self) (fuel : Nat) (doc : Document) (sp ep : Int) (pat : Bytes)
    (cs w ws : Bool) (fl len : Int) (re : Regex)
    (hre : lib.basic_regex (StdGetUnicode lib pat true) (StdRegexSearch.compileFlags lib cs) =
      some re)
    (hfwd : sp < ep ∨ (sp = ep ∧ 0 ≤ self._lastDirection))
    (hsnap : snap doc sp ≤ snap doc ep)
    (hpos : (forwardPass lib re doc sp ep).1 = true → 0 ≤ lib.first (forwardPass lib re doc sp ep).2) :
    ∃ self1, StdRegexSearch.FindText lib fuel self doc sp ep pat cs w ws fl len =
        some (self1,
          (if (forwardPass lib re doc sp ep).1 = true then
            lib.first (forwardPass lib re doc sp ep).2 else -1),
          (if (forwardPass lib re doc sp ep).1 = true then
            lib.second (forwardPass lib re doc sp ep).2 - lib.first (forwardPass lib re doc sp ep).2
            else len)) ∧
      self1._utf8._match = (forwardPass lib re doc sp ep).2 ∧ self1._lastDirection = 1 := by
  obtain ⟨ed1, hc, hreg⟩ := compileRegex_coherent_some lib self._utf8 pat _ re
    (Reachable.coherent lib hR) (compileFlags_ne lib cs) hre
  have hfwd1 : ¬ (sp > ep ∨ (sp = ep ∧ self._lastDirection < 0)) := by omega
  have hE := FindText_forward_eval lib fuel self doc sp ep pat cs ed1 hfwd1 hc
  have hsp := searchParameters_forward lib self doc sp ep pat cs hfwd1
  have hdir : (StdRegexSearch.searchParameters lib self doc sp ep pat cs)._direction = 1 := by
    rw [hsp]
  have hin : ¬ (StdRegexSearch.searchParameters lib self doc sp ep pat cs)._startPosition >
      (StdRegexSearch.searchParameters lib self doc sp ep pat cs)._endPosition := by
    rw [hsp]; dsimp only; omega
  rw [FindTextForward_inside lib ed1 _ hin] at hE
  have hr : lib.regex_search (StdRegexSearch.searchParameters lib self doc sp ep pat cs)._document
      (StdRegexSearch.searchParameters lib self doc sp ep pat cs)._startPosition
      (StdRegexSearch.searchParameters lib self doc sp ep pat cs)._endPosition ed1._regex
      (StdRegexSearch.searchParameters lib self doc sp ep pat cs).regexFlags =
      forwardPass lib re doc sp ep := by
    rw [hsp, hreg]; rfl
  rw [hr] at hE
  have hdoc : (StdRegexSearch.searchParameters lib self doc sp ep pat cs)._document = doc := by
    rw [hsp]
  rw [hdoc] at hE
  dsimp only at hE
  by_cases hfound : (forwardPass lib re doc sp ep).1 = true
  · rw [if_pos hfound] at hE
    have hm : (Match.new (some doc) (lib.first (forwardPass lib re doc sp ep).2)
        (lib.second (forwardPass lib re doc sp ep).2)).found = true := by
      rw [Match_new_found]; exact decide_eq_true (hpos hfound)
    have h1 := FindText_of_found lib fuel self doc sp ep pat cs w ws fl len _ _ _ hE hm
    rw [if_pos hfound, if_pos hfound]
    exact ⟨_, h1, rfl, hdir⟩
  · rw [if_neg hfound] at hE
    have h1 := FindText_of_unfound lib fuel self doc sp ep pat cs w ws fl len _ _ _ hE
      Match_default_found
    rw [if_neg hfound, if_neg hfound]
    exact ⟨_, h1, rfl, hdir⟩

/-- C3. A forward `FindText` call with a pattern that compiles to `re`, over a range
`[s, e]` with `s <= e` whose snapped endpoints are still in order, returns exactly the
outcome of one pass of the forward primitive over the snapped range: when the pass finds
a match `[p, q)` (at a position `p >= 0`) the call returns `p` and writes `q - p` to the
length output; when it finds none the call returns -1 and leaves the length output alone. -/
theorem FindText_forward_pass (self : StdRegexSearch Regex MatchResults)
    (hR : Reachable lib self) (fuel : Nat) (doc : Document) (sp ep : Int) (pat : Bytes)
    (cs w ws : Bool) (fl len : Int) (re : Regex)
    (hre : lib.basic_regex (StdGetUnicode lib pat true) (StdRegexSearch.compileFlags lib cs) =
      some re)
    (hfwd : sp < ep ∨ (sp = ep ∧ 0 ≤ self._lastDirection))
    (hsnap : snap doc sp ≤ snap doc ep)
    (hpos : (forwardPass lib re doc sp ep).1 = true → 0 ≤ lib.first (forwardPass lib re doc sp ep).2) :
    ∃ self1, StdRegexSearch.FindText lib fuel self doc sp ep pat cs w ws fl len =
      some (self1,
        (if (forwardPass lib re doc sp ep).1 = true then
          lib.first (forwardPass lib re doc sp ep).2 else -1),
        (if (forwardPass lib re doc sp ep).1 = true then
          lib.second (forwardPass lib re doc sp ep).2 - lib.first (forwardPass lib re doc sp ep).2
          else len)) :=
  (FindText_forward_spec lib self hR fuel doc sp ep pat cs w ws fl len re hre hfwd hsnap hpos).imp
    (fun _ h => h.1)

/-- C3 on a concrete buffer: `a(b+)c` over `xabbcy` in `[0, 6)` gives position 1, length 4. -/
theorem FindText_forward_pass_witness :
    Reachable Sample.lib Sample.engine ∧
    Sample.lib.basic_regex (StdGetUnicode Sample.lib (Sample.ascii "a(b+)c") true)
      (StdRegexSearch.compileFlags Sample.lib true) = some (Sample.compiled "a(b+)c") ∧
    (∃ self1, StdRegexSearch.FindText Sample.lib 0 Sample.engine
      (Sample.document (Sample.ascii "xabbcy")) 0 6 (Sample.ascii "a(b+)c")
      true false false 0 0 = some (self1, 1, 4)) :=
  ⟨Reachable.fresh, by decide,
    FindText_forward_pass Sample.lib Sample.engine Reachable.fresh 0
      (Sample.document (Sample.ascii "xabbcy")) 0 6 (Sample.ascii "a(b+)c")
      true false false 0 0 (Sample.compiled "a(b+)c") (by decide) (by decide) (by decide)
      (by decide)⟩

/-- A call resolved as backward, with a pattern that compiles to `re` and a primitive
that makes progress, returns once the fuel reaches `fuelBound`: the scan has a complete
list of candidates and the call returns what `best` selects among them. -/
theorem FindText_backward_spec (self : StdRegexSearch Regex MatchResults)
    (hR : Reachable lib self) (hp : Progress lib) (fuel : Nat) (doc : Document) (sp ep : Int)
    (pat : Bytes) (cs w ws : Bool) (fl len : Int) (re : Regex)
    (hre : lib.basic_regex (StdGetUnicode lib pat true) (StdRegexSearch.compileFlags lib cs) =
      some re)
    (hback : sp > ep ∨ (sp = ep ∧ self._lastDirection < 0))
    (hfuel : fuelBound doc sp ep ≤ fuel) :
    ∃ self1 cands,
      FindTextBackward.candidates lib re
        (StdRegexSearch.searchParameters lib self doc sp ep pat cs) fuel (snap doc ep) =
          some cands ∧
      StdRegexSearch.FindText lib fuel self doc sp ep pat cs w ws fl len =
        some (self1,
          (if 0 ≤ (FindTextBackward.best lib (snap doc sp) cands (-1, -1)).1 then
            (FindTextBackward.best lib (snap doc sp) cands (-1, -1)).1 else -1),
          (if 0 ≤ (FindTextBackward.best lib (snap doc sp) cands (-1, -1)).1 then
            (FindTextBackward.best lib (snap doc sp) cands (-1, -1)).2 -
              (FindTextBackward.best lib (snap doc sp) cands (-1, -1)).1 else len)) ∧
      self1._lastDirection = -1 := by
  obtain ⟨ed1, hc, hreg⟩ := compileRegex_coherent_some lib self._utf8 pat _ re
    (Reachable.coherent lib hR) (compileFlags_ne lib cs) hre
  obtain ⟨n, rfl⟩ : ∃ n, fuel = n + 1 := ⟨fuel - 1, by unfold fuelBound at hfuel; omega⟩
  obtain ⟨cands, hcs⟩ := candidates_total lib hp re
    (StdRegexSearch.searchParameters lib self doc sp ep pat cs) n (snap doc ep)
    (by
      rw [searchParameters_backward lib self doc sp ep pat cs hback]
      unfold fuelBound at hfuel
      dsimp only
      omega)
  have hcs1 := hcs
  rw [← hreg] at hcs1
  obtain ⟨self1, h1, h2, _⟩ :=
    FindText_backward_eval lib n self doc sp ep pat cs w ws fl len ed1 cands hback hc hcs1
  exact ⟨self1, cands, candidates_mono lib re _ n _ cands hcs, h1, h2⟩

/-- C4, as the claim states it, fails: the returned match does not have the greatest end
among all occurrences of the pattern in the range. Searching the pattern `0A 2A` (any
number of line feeds) backward over the buffer `0D 0A` (`startPos = 2`, `endPos = 0`), the
pass from 0 finds the empty match `[0,0)`, `nextCharacter(0)` steps over the CR LF pair to
2, and the pass from 2 finds the empty match `[2,2)` at the right boundary, which is not
accepted: the call returns position 0, length 0. The line feed `[1,2)` lies in the range
and is what the primitive reports when it is asked from position 1; it ends at 2, beyond
the end 0 of the returned match, and no pass of the scan starts there. -/
theorem FindText_backward_skips_occurrence :
    Sample.lib.basic_regex (StdGetUnicode Sample.lib [10, 42] true)
      (StdRegexSearch.compileFlags Sample.lib true) = some Sample.lineFeeds ∧
    (Sample.lineBreakSearch._startPosition, Sample.lineBreakSearch._endPosition,
      Sample.lineBreakSearch._direction) = (0, 2, -1) ∧
    (FindTextBackward.candidates Sample.lib Sample.lineFeeds Sample.lineBreakSearch 5 0).map
      (fun cands => cands.map (fun c => (Sample.lib.first c, Sample.lib.second c))) =
      some [(0, 0), (2, 2)] ∧
    Sample.lineBreakSearch.nextCharacter 0 = 2 ∧
    (StdRegexSearch.FindText Sample.lib 5 Sample.engine (Sample.document [13, 10]) 2 0 [10, 42]
        true false false 0 7).map (fun t => t.2) = some (0, 0) ∧
    (Sample.lib.regex_search (Sample.document [13, 10]) 1 2 Sample.lineFeeds
        Sample.lineBreakSearch.regexFlags).1 = true ∧
    (Sample.lib.first (Sample.lib.regex_search (Sample.document [13, 10]) 1 2 Sample.lineFeeds
        Sample.lineBreakSearch.regexFlags).2,
      Sample.lib.second (Sample.lib.regex_search (Sample.document [13, 10]) 1 2 Sample.lineFeeds
        Sample.lineBreakSearch.regexFlags).2) = (1, 2) ∧
    ¬ ((2 : Int) ≤ 0 + 0) := by
  refine ⟨?_, ?_, ?_, ?_, ?_, ?_, ?_, ?_⟩ <;> decide

/-- C4, amended. A backward search that returns a match returns one of the candidates
produced by the successive forward passes of its scan, and the end of the returned match
is greater than or equal to the end of every candidate of the scan, zero-length candidates
sitting at the range's right boundary excepted: the greatest end among the candidates of
the scan, not among all occurrences in the range. (The primitive is assumed to report
matches inside the range it is given; the call returns for every fuel from `fuelBound`
on.) -/
theorem FindText_backward_greatest_end (self : StdRegexSearch Regex MatchResults)
    (hR : Reachable lib self) (hin : InRange lib) (fuel : Nat) (doc : Document) (sp ep : Int)
    (pat : Bytes) (cs w ws : Bool) (fl len : Int) (re : Regex)
    (hre : lib.basic_regex (StdGetUnicode lib pat true) (StdRegexSearch.compileFlags lib cs) =
      some re)
    (hback : sp > ep ∨ (sp = ep ∧ self._lastDirection < 0))
    (hfuel : fuelBound doc sp ep ≤ fuel) :
    ∃ self1 r len1 cands,
      StdRegexSearch.FindText lib fuel self doc sp ep pat cs w ws fl len = some (self1, r, len1) ∧
      FindTextBackward.candidates lib re
        (StdRegexSearch.searchParameters lib self doc sp ep pat cs) fuel (snap doc ep) =
          some cands ∧
      (0 ≤ r →
        (∃ c ∈ cands, lib.first c = r ∧ lib.second c = r + len1) ∧
        (∀ c ∈ cands, ¬ FindTextBackward.emptyAtEnd lib (snap doc sp) c →
          lib.second c ≤ r + len1)) := by
  obtain ⟨self1, cands, hcs, h1, _⟩ := FindText_backward_spec lib self hR
    (InRange.progress lib hin) fuel doc sp ep pat cs w ws fl len re hre hback hfuel
  refine ⟨self1, _, _, cands, h1, hcs, ?_⟩
  intro hr
  have hb : 0 ≤ (FindTextBackward.best lib (snap doc sp) cands (-1, -1)).1 := by
    by_contra hneg
    rw [if_neg hneg] at hr
    omega
  rw [if_pos hb, if_pos hb]
  have hrange := candidates_in_range lib hin re _ fuel _ cands hcs
  rw [searchParameters_backward lib self doc sp ep pat cs hback] at hrange
  dsimp only at hrange
  constructor
  · rcases best_mem lib (snap doc sp) cands (-1, -1) with h2 | ⟨c, hc, h2, _⟩
    · rw [h2] at hb; omega
    · refine ⟨c, hc, ?_, ?_⟩
      · rw [h2]
      · rw [h2]; simp
  · intro c hc hne
    have := best_ge lib (snap doc sp) cands (-1, -1) c hc (hrange c hc).2.2 hne
    omega

/-- C4, amended, on a concrete buffer: `a+` over `aaabaaa` with `startPos = 6`, `endPos = 0` gives the
last run inside the range, position 4, length 2. -/
theorem FindText_backward_greatest_end_witness :
    Reachable Sample.lib Sample.engine ∧ InRange Sample.lib ∧
    Sample.lib.basic_regex (StdGetUnicode Sample.lib (Sample.ascii "a+") true)
      (StdRegexSearch.compileFlags Sample.lib true) = some (Sample.compiled "a+") ∧
    fuelBound (Sample.document (Sample.ascii "aaabaaa")) 6 0 ≤ 9 ∧
    ((StdRegexSearch.FindText Sample.lib 9 Sample.engine
      (Sample.document (Sample.ascii "aaabaaa")) 6 0 (Sample.ascii "a+")
      true false false 0 0).map (fun t => t.2) = some (4, 2)) ∧
    (∃ self1 r len1 cands,
      StdRegexSearch.FindText Sample.lib 9 Sample.engine
        (Sample.document (Sample.ascii "aaabaaa")) 6 0 (Sample.ascii "a+")
        true false false 0 0 = some (self1, r, len1) ∧
      FindTextBackward.candidates Sample.lib (Sample.compiled "a+")
        (StdRegexSearch.searchParameters Sample.lib Sample.engine
          (Sample.document (Sample.ascii "aaabaaa")) 6 0 (Sample.ascii "a+") true) 9
        (snap (Sample.document (Sample.ascii "aaabaaa")) 0) = some cands ∧
      (0 ≤ r →
        (∃ c ∈ cands, Sample.lib.first c = r ∧ Sample.lib.second c = r + len1) ∧
        (∀ c ∈ cands, ¬ FindTextBackward.emptyAtEnd Sample.lib
            (snap (Sample.document (Sample.ascii "aaabaaa")) 6) c →
          Sample.lib.second c ≤ r + len1))) :=
  ⟨Reachable.fresh, Sample.lib_inRange, by decide, by decide, by decide,
    FindText_backward_greatest_end Sample.lib Sample.engine Reachable.fresh Sample.lib_inRange 9
      (Sample.document (Sample.ascii "aaabaaa")) 6 0 (Sample.ascii "a+")
      true false false 0 0 (Sample.compiled "a+") (by decide) (by decide) (by decide)⟩

/-- C5. After a successful backward `FindText`, `SubstituteByPosition` does not expand
against the match that was returned: `FindTextBackward` copies the best candidate's match
results into the local `bestMatch` and never copies them back, so `_match` holds the
results of the last forward pass of the scan. Searching `a*` backward over `aab`
(`startPos = 3`, `endPos = 0`) returns position 0, length 2 (the text `aa`), while
`_match` is the empty match `[3, 3)` of the last pass and the template `[$0]` expands to
`[]`, length 2, instead of `[aa]`. Searching `a+` backward over `aaabaaa`
(`startPos = 6`, `endPos = 0`) returns position 4, length 2, and `[$0]` again expands to
`[]`. -/
theorem FindText_backward_retains_last_pass :
    (StdRegexSearch.FindText Sample.lib 6 Sample.engine (Sample.document (Sample.ascii "aab"))
        3 0 (Sample.ascii "a*") true false false 0 0).map
      (fun t => (t.2.1, t.2.2, Sample.lib.first t.1._utf8._match,
        Sample.lib.second t.1._utf8._match)) = some (0, 2, 3, 3) ∧
    (StdRegexSearch.FindText Sample.lib 6 Sample.engine (Sample.document (Sample.ascii "aab"))
        3 0 (Sample.ascii "a*") true false false 0 0).map
      (fun t => (StdRegexSearch.SubstituteByPosition Sample.lib t.1
          (Sample.document (Sample.ascii "aab")) (Sample.ascii "[$0]")).2) =
      some (Sample.ascii "[]", 2) ∧
    (StdRegexSearch.FindText Sample.lib 9 Sample.engine
        (Sample.document (Sample.ascii "aaabaaa")) 6 0 (Sample.ascii "a+")
        true false false 0 0).map
      (fun t => (t.2.1, t.2.2,
        (StdRegexSearch.SubstituteByPosition Sample.lib t.1
          (Sample.document (Sample.ascii "aaabaaa")) (Sample.ascii "[$0]")).2)) =
      some (4, 2, Sample.ascii "[]", 2) := by
  refine ⟨?_, ?_, ?_⟩ <;> decide

theorem takeWhile_takeWhile_self (p : Nat → Bool) (l : List Nat) :
    (l.takeWhile p).takeWhile p = l.takeWhile p := by
  induction l with
  | nil => rfl
  | cons a l ih =>
    cases h : p a with
    | true => simp [List.takeWhile, h, ih]
    | false => simp [List.takeWhile, h]

theorem StdGetUTF8_takeWhile (w : WString) :
    (StdGetUTF8 lib w true).takeWhile (fun c => c ≠ 0) = StdGetUTF8 lib w true := by
  unfold StdGetUTF8
  dsimp only
  split
  · rfl
  · simp only [if_true]
    exact takeWhile_takeWhile_self _ _

/-- C6. After a successful forward `FindText`, the match results kept in `_match` are
those of that very pass: their overall range is `[returned position, returned position +
returned length)`; `SubstituteByPosition` returns the template expanded by `format`
against exactly these results, and the length it writes is the byte length of the text it
returns. -/
theorem FindText_forward_substitute (self : StdRegexSearch Regex MatchResults)
    (hR : Reachable lib self) (fuel : Nat) (doc : Document) (sp ep : Int) (pat : Bytes)
    (cs w ws : Bool) (fl len : Int) (re : Regex)
    (hre : lib.basic_regex (StdGetUnicode lib pat true) (StdRegexSearch.compileFlags lib cs) =
      some re)
    (hfwd : sp < ep ∨ (sp = ep ∧ 0 ≤ self._lastDirection))
    (hsnap : snap doc sp ≤ snap doc ep)
    (hfound : (forwardPass lib re doc sp ep).1 = true)
    (hpos : 0 ≤ lib.first (forwardPass lib re doc sp ep).2) :
    ∃ self1 r len1,
      StdRegexSearch.FindText lib fuel self doc sp ep pat cs w ws fl len = some (self1, r, len1) ∧
      0 ≤ r ∧
      self1._utf8._match = (forwardPass lib re doc sp ep).2 ∧
      lib.first self1._utf8._match = r ∧ lib.second self1._utf8._match = r + len1 ∧
      ∀ (doc2 : Document) (text : Bytes),
        (StdRegexSearch.SubstituteByPosition lib self1 doc2 text).2.1 =
          StdGetUTF8 lib (lib.format (forwardPass lib re doc sp ep).2
            (StdGetUnicode lib text true) lib.format_default) true ∧
        (StdRegexSearch.SubstituteByPosition lib self1 doc2 text).2.2 =
          ((StdRegexSearch.SubstituteByPosition lib self1 doc2 text).2.1.length : Int) := by
  obtain ⟨self1, h1, h2, _⟩ := FindText_forward_spec lib self hR fuel doc sp ep pat cs w ws fl
    len re hre hfwd hsnap (fun _ => hpos)
  rw [if_pos hfound, if_pos hfound] at h1
  refine ⟨self1, _, _, h1, hpos, h2, by rw [h2], by rw [h2]; omega, ?_⟩
  intro doc2 text
  simp only [StdRegexSearch.SubstituteByPosition, EncodingDependent.SubstituteByPosition, h2,
    StdGetUTF8_takeWhile, and_self]

/-- C6 on a concrete buffer: after finding `a(b+)c` in `xabbcy` the template `[$1]` gives
`[bb]`, length 4. -/
theorem FindText_forward_substitute_witness :
    Reachable Sample.lib Sample.engine ∧
    Sample.lib.basic_regex (StdGetUnicode Sample.lib (Sample.ascii "a(b+)c") true)
      (StdRegexSearch.compileFlags Sample.lib true) = some (Sample.compiled "a(b+)c") ∧
    (StdRegexSearch.FindText Sample.lib 0 Sample.engine (Sample.document (Sample.ascii "xabbcy"))
        0 6 (Sample.ascii "a(b+)c") true false false 0 0).map
      (fun t => (StdRegexSearch.SubstituteByPosition Sample.lib t.1
        (Sample.document (Sample.ascii "xabbcy")) (Sample.ascii "[$1]")).2) =
      some (Sample.ascii "[bb]", 4) ∧
    (∃ self1 r len1,
      StdRegexSearch.FindText Sample.lib 0 Sample.engine
        (Sample.document (Sample.ascii "xabbcy")) 0 6 (Sample.ascii "a(b+)c")
        true false false 0 0 = some (self1, r, len1) ∧
      0 ≤ r ∧
      self1._utf8._match = (forwardPass Sample.lib (Sample.compiled "a(b+)c")
        (Sample.document (Sample.ascii "xabbcy")) 0 6).2 ∧
      Sample.lib.first self1._utf8._match = r ∧
      Sample.lib.second self1._utf8._match = r + len1 ∧
      ∀ (doc2 : Document) (text : Bytes),
        (StdRegexSearch.SubstituteByPosition Sample.lib self1 doc2 text).2.1 =
          StdGetUTF8 Sample.lib (Sample.lib.format (forwardPass Sample.lib
            (Sample.compiled "a(b+)c") (Sample.document (Sample.ascii "xabbcy")) 0 6).2
            (StdGetUnicode Sample.lib text true) Sample.lib.format_default) true ∧
        (StdRegexSearch.SubstituteByPosition Sample.lib self1 doc2 text).2.2 =
          ((StdRegexSearch.SubstituteByPosition Sample.lib self1 doc2 text).2.1.length : Int)) :=
  ⟨Reachable.fresh, by decide, by decide,
    FindText_forward_substitute Sample.lib Sample.engine Reachable.fresh 0
      (Sample.document (Sample.ascii "xabbcy")) 0 6 (Sample.ascii "a(b+)c")
      true false false 0 0 (Sample.compiled "a(b+)c") (by decide) (by decide) (by decide)
      (by decide) (by decide)⟩

theorem Sample.engineAfterBackward_reachable : Reachable Sample.lib Sample.engineAfterBackward :=
  Reachable.findText Reachable.fresh
    (show StdRegexSearch.FindText Sample.lib 6 Sample.engine (Sample.document (Sample.ascii "aaa"))
      3 0 (Sample.ascii "b*") true false false 0 0 = some (Sample.engineAfterBackward, 2, 0)
      from rfl)

/-- C7, as the claim states it, fails: after a backward search, `b*` is searched over the
empty range `[3, 3]` of the buffer `aaa`. The call is resolved as backward, the only
candidate of the scan is the zero-length match `[3, 3)` at the right boundary, and the
call returns -1 (not found), not position 3 with length 0. -/
theorem FindText_backward_only_candidate_rejected :
    (StdRegexSearch.searchParameters Sample.lib Sample.engineAfterBackward
        (Sample.document (Sample.ascii "aaa")) 3 3 (Sample.ascii "b*") true)._direction = -1 ∧
    (FindTextBackward.candidates Sample.lib (Sample.compiled "b*")
        (StdRegexSearch.searchParameters Sample.lib Sample.engineAfterBackward
          (Sample.document (Sample.ascii "aaa")) 3 3 (Sample.ascii "b*") true) 3 3).map
      (fun cands => cands.map (fun c => (Sample.lib.first c, Sample.lib.second c))) =
      some [(3, 3)] ∧
    (StdRegexSearch.FindText Sample.lib 3 Sample.engineAfterBackward
        (Sample.document (Sample.ascii "aaa")) 3 3 (Sample.ascii "b*")
        true false false 0 7).map (fun t => t.2) = some (-1, 7) := by
  refine ⟨?_, ?_, ?_⟩ <;> decide

/-- C7, amended. A backward search in which every candidate of the scan is a zero-length
match sitting exactly at the range's right boundary (in particular when that is the only
candidate, as over an empty range `[p, p]` with a pattern that matches the empty string)
accepts no candidate: it returns -1 (not found) and leaves the length output alone. -/
theorem FindText_backward_only_emptyAtEnd (self : StdRegexSearch Regex MatchResults)
    (hR : Reachable lib self) (hp : Progress lib) (fuel : Nat) (doc : Document) (sp ep : Int)
    (pat : Bytes) (cs w ws : Bool) (fl len : Int) (re : Regex)
    (hre : lib.basic_regex (StdGetUnicode lib pat true) (StdRegexSearch.compileFlags lib cs) =
      some re)
    (hback : sp > ep ∨ (sp = ep ∧ self._lastDirection < 0))
    (hfuel : fuelBound doc sp ep ≤ fuel) :
    ∃ self1 r len1 cands,
      StdRegexSearch.FindText lib fuel self doc sp ep pat cs w ws fl len = some (self1, r, len1) ∧
      FindTextBackward.candidates lib re
        (StdRegexSearch.searchParameters lib self doc sp ep pat cs) fuel (snap doc ep) =
          some cands ∧
      ((∀ c ∈ cands, FindTextBackward.emptyAtEnd lib (snap doc sp) c) → r = -1 ∧ len1 = len) := by
  obtain ⟨self1, cands, hcs, h1, _⟩ := FindText_backward_spec lib self hR hp fuel doc sp ep pat
    cs w ws fl len re hre hback hfuel
  refine ⟨self1, _, _, cands, h1, hcs, ?_⟩
  intro hall
  rw [best_all_emptyAtEnd lib (snap doc sp) cands (-1, -1) hall]
  simp

/-- C7, amended, on a concrete buffer: after a backward search, `b*` over the empty range
`[3, 3]` of `aaa`. -/
theorem FindText_backward_only_emptyAtEnd_witness :
    Reachable Sample.lib Sample.engineAfterBackward ∧ Progress Sample.lib ∧
    Sample.lib.basic_regex (StdGetUnicode Sample.lib (Sample.ascii "b*") true)
      (StdRegexSearch.compileFlags Sample.lib true) = some (Sample.compiled "b*") ∧
    ((3 : Int) > 3 ∨ ((3 : Int) = 3 ∧ Sample.engineAfterBackward._lastDirection < 0)) ∧
    fuelBound (Sample.document (Sample.ascii "aaa")) 3 3 ≤ 3 ∧
    (∃ self1 r len1 cands,
      StdRegexSearch.FindText Sample.lib 3 Sample.engineAfterBackward
        (Sample.document (Sample.ascii "aaa")) 3 3 (Sample.ascii "b*")
        true false false 0 7 = some (self1, r, len1) ∧
      FindTextBackward.candidates Sample.lib (Sample.compiled "b*")
        (StdRegexSearch.searchParameters Sample.lib Sample.engineAfterBackward
          (Sample.document (Sample.ascii "aaa")) 3 3 (Sample.ascii "b*") true) 3
        (snap (Sample.document (Sample.ascii "aaa")) 3) = some cands ∧
      ((∀ c ∈ cands, FindTextBackward.emptyAtEnd Sample.lib
          (snap (Sample.document (Sample.ascii "aaa")) 3) c) → r = -1 ∧ len1 = 7)) :=
  ⟨Sample.engineAfterBackward_reachable, Sample.lib_progress, by decide, by decide, by decide,
    FindText_backward_only_emptyAtEnd Sample.lib Sample.engineAfterBackward
      Sample.engineAfterBackward_reachable Sample.lib_progress 3
      (Sample.document (Sample.ascii "aaa")) 3 3 (Sample.ascii "b*")
      true false false 0 7 (Sample.compiled "b*") (by decide) (by decide) (by decide)⟩

/-- C8, as the claim states it, fails: searching `a*` backward over `abc`
(`startPos = 3`, `endPos = 0`) the scan first meets the non-empty candidate `[0, 1)` and
later the zero-length candidates `[1, 1)`, `[2, 2)` and `[3, 3)`; the call returns
position 2 with length 0, the zero-length candidate `[2, 2)`. -/
theorem FindText_backward_selects_later_empty :
    (FindTextBackward.candidates Sample.lib (Sample.compiled "a*")
        (StdRegexSearch.searchParameters Sample.lib Sample.engine
          (Sample.document (Sample.ascii "abc")) 3 0 (Sample.ascii "a*") true) 6 0).map
      (fun cands => cands.map (fun c => (Sample.lib.first c, Sample.lib.second c))) =
      some [(0, 1), (1, 1), (2, 2), (3, 3)] ∧
    (StdRegexSearch.FindText Sample.lib 6 Sample.engine
        (Sample.document (Sample.ascii "abc")) 3 0 (Sample.ascii "a*")
        true false false 0 7).map (fun t => t.2) = some (2, 0) := by
  refine ⟨?_, ?_⟩ <;> decide

/-- C8, amended. In a backward search a zero-length candidate sitting exactly at the
range's right boundary is never selected as the best, whatever was found before it: the
match a backward search returns is never such a candidate. (A zero-length candidate
that ends before the right boundary is treated like any other candidate.) -/
theorem FindText_backward_never_emptyAtEnd (self : StdRegexSearch Regex MatchResults)
    (hR : Reachable lib self) (hp : Progress lib) (fuel : Nat) (doc : Document) (sp ep : Int)
    (pat : Bytes) (cs w ws : Bool) (fl len : Int) (re : Regex)
    (hre : lib.basic_regex (StdGetUnicode lib pat true) (StdRegexSearch.compileFlags lib cs) =
      some re)
    (hback : sp > ep ∨ (sp = ep ∧ self._lastDirection < 0))
    (hfuel : fuelBound doc sp ep ≤ fuel) :
    ∃ self1 r len1 cands,
      StdRegexSearch.FindText lib fuel self doc sp ep pat cs w ws fl len = some (self1, r, len1) ∧
      FindTextBackward.candidates lib re
        (StdRegexSearch.searchParameters lib self doc sp ep pat cs) fuel (snap doc ep) =
          some cands ∧
      (0 ≤ r → ∀ c ∈ cands, FindTextBackward.emptyAtEnd lib (snap doc sp) c →
        ¬ (lib.first c = r ∧ lib.second c = r + len1)) := by
  obtain ⟨self1, cands, hcs, h1, _⟩ := FindText_backward_spec lib self hR hp fuel doc sp ep pat
    cs w ws fl len re hre hback hfuel
  refine ⟨self1, _, _, cands, h1, hcs, ?_⟩
  intro hr c _ hE hsame
  have hb : 0 ≤ (FindTextBackward.best lib (snap doc sp) cands (-1, -1)).1 := by
    by_contra hneg
    rw [if_neg hneg] at hr
    omega
  rw [if_pos hb, if_pos hb] at hsame
  rcases best_mem lib (snap doc sp) cands (-1, -1) with h2 | ⟨c0, _, h2, h3⟩
  · rw [h2] at hb; omega
  · apply h3
    rw [h2] at hsame
    unfold FindTextBackward.emptyAtEnd at hE ⊢
    simp only at hsame
    constructor <;> omega

/-- C8, amended, on a concrete buffer: `b*` searched backward over `aaa` meets the
candidates `[0,0)`, `[1,1)`, `[2,2)`, `[3,3)` and returns `[2,2)`, not the one at the
right boundary. -/
theorem FindText_backward_never_emptyAtEnd_witness :
    Reachable Sample.lib Sample.engine ∧ Progress Sample.lib ∧
    Sample.lib.basic_regex (StdGetUnicode Sample.lib (Sample.ascii "b*") true)
      (StdRegexSearch.compileFlags Sample.lib true) = some (Sample.compiled "b*") ∧
    fuelBound (Sample.document (Sample.ascii "aaa")) 3 0 ≤ 6 ∧
    (FindTextBackward.candidates Sample.lib (Sample.compiled "b*")
        (StdRegexSearch.searchParameters Sample.lib Sample.engine
          (Sample.document (Sample.ascii "aaa")) 3 0 (Sample.ascii "b*") true) 6 0).map
      (fun cands => cands.map (fun c => (Sample.lib.first c, Sample.lib.second c))) =
      some [(0, 0), (1, 1), (2, 2), (3, 3)] ∧
    (StdRegexSearch.FindText Sample.lib 6 Sample.engine
        (Sample.document (Sample.ascii "aaa")) 3 0 (Sample.ascii "b*")
        true false false 0 7).map (fun t => t.2) = some (2, 0) ∧
    (∃ self1 r len1 cands,
      StdRegexSearch.FindText Sample.lib 6 Sample.engine
        (Sample.document (Sample.ascii "aaa")) 3 0 (Sample.ascii "b*")
        true false false 0 7 = some (self1, r, len1) ∧
      FindTextBackward.candidates Sample.lib (Sample.compiled "b*")
        (StdRegexSearch.searchParameters Sample.lib Sample.engine
          (Sample.document (Sample.ascii "aaa")) 3 0 (Sample.ascii "b*") true) 6
        (snap (Sample.document (Sample.ascii "aaa")) 0) = some cands ∧
      (0 ≤ r → ∀ c ∈ cands, FindTextBackward.emptyAtEnd Sample.lib
          (snap (Sample.document (Sample.ascii "aaa")) 3) c →
        ¬ (Sample.lib.first c = r ∧ Sample.lib.second c = r + len1))) :=
  ⟨Reachable.fresh, Sample.lib_progress, by decide, by decide, by decide, by decide,
    FindText_backward_never_emptyAtEnd Sample.lib Sample.engine Reachable.fresh
      Sample.lib_progress 6 (Sample.document (Sample.ascii "aaa")) 3 0 (Sample.ascii "b*")
      true false false 0 7 (Sample.compiled "b*") (by decide) (by decide) (by decide)⟩

/-- C9. The direction a `FindText` call resolves is recorded in `_lastDirection`, whatever
the call returns (a position, -1 or -2), and decides the next call with
`startPos == endPos`: after a call resolved as backward such a call is resolved as
backward over `[p, p]`, after a call resolved as forward it is resolved as forward.
(The call returns for every fuel from `fuelBound` on when the primitive makes progress.) -/
theorem FindText_records_direction (self : StdRegexSearch Regex MatchResults)
    (hp : Progress lib) (fuel : Nat) (doc : Document) (sp ep : Int)
    (pat : Bytes) (cs w ws : Bool) (fl len : Int)
    (hfuel : fuelBound doc sp ep ≤ fuel) :
    ∃ self1 r len1,
      StdRegexSearch.FindText lib fuel self doc sp ep pat cs w ws fl len = some (self1, r, len1) ∧
      self1._lastDirection =
        (StdRegexSearch.resolveDirection self._lastDirection sp ep).2.2 ∧
      ((sp > ep ∨ (sp = ep ∧ self._lastDirection < 0)) →
        self1._lastDirection = -1 ∧
        ∀ (doc2 : Document) (p : Int) (pat2 : Bytes) (cs2 : Bool),
          StdRegexSearch.resolveDirection self1._lastDirection p p = (p, p, -1) ∧
          (StdRegexSearch.searchParameters lib self1 doc2 p p pat2 cs2)._direction = -1 ∧
          (StdRegexSearch.searchParameters lib self1 doc2 p p pat2 cs2)._startPosition =
            snap doc2 p ∧
          (StdRegexSearch.searchParameters lib self1 doc2 p p pat2 cs2)._endPosition =
            snap doc2 p) ∧
      (¬ (sp > ep ∨ (sp = ep ∧ self._lastDirection < 0)) →
        self1._lastDirection = 1 ∧
        ∀ (doc2 : Document) (p : Int) (pat2 : Bytes) (cs2 : Bool),
          StdRegexSearch.resolveDirection self1._lastDirection p p = (p, p, 1) ∧
          (StdRegexSearch.searchParameters lib self1 doc2 p p pat2 cs2)._direction = 1 ∧
          (StdRegexSearch.searchParameters lib self1 doc2 p p pat2 cs2)._startPosition =
            snap doc2 p ∧
          (StdRegexSearch.searchParameters lib self1 doc2 p p pat2 cs2)._endPosition =
            snap doc2 p) := by
  obtain ⟨self1, r, len1, h⟩ := FindText_returns lib hp fuel self doc sp ep pat cs w ws fl len hfuel
  obtain ⟨_, _, _, hdir, _⟩ := FindText_some lib fuel self self1 doc sp ep pat cs w ws fl len r len1 h
  have hdir1 : self1._lastDirection =
      (StdRegexSearch.resolveDirection self._lastDirection sp ep).2.2 := hdir
  refine ⟨self1, r, len1, h, hdir1, ?_, ?_⟩
  · intro hback
    have h1 : self1._lastDirection = -1 := by
      rw [hdir1]; unfold StdRegexSearch.resolveDirection; rw [if_pos hback]
    refine ⟨h1, ?_⟩
    intro doc2 p pat2 cs2
    have hb2 : p > p ∨ (p = p ∧ self1._lastDirection < 0) := Or.inr ⟨rfl, by omega⟩
    have hsp := searchParameters_backward lib self1 doc2 p p pat2 cs2 hb2
    refine ⟨?_, ?_, ?_, ?_⟩
    · unfold StdRegexSearch.resolveDirection; rw [if_pos hb2]
    · rw [hsp]
    · rw [hsp]
    · rw [hsp]
  · intro hfwd
    have h1 : self1._lastDirection = 1 := by
      rw [hdir1]; unfold StdRegexSearch.resolveDirection; rw [if_neg hfwd]
    refine ⟨h1, ?_⟩
    intro doc2 p pat2 cs2
    have hf2 : ¬ (p > p ∨ (p = p ∧ self1._lastDirection < 0)) := by omega
    have hsp := searchParameters_forward lib self1 doc2 p p pat2 cs2 hf2
    refine ⟨?_, ?_, ?_, ?_⟩
    · unfold StdRegexSearch.resolveDirection; rw [if_neg hf2]
    · rw [hsp]
    · rw [hsp]
    · rw [hsp]

/-- C9 on a concrete buffer: a backward search for `b*` over `aaa` records direction -1. -/
theorem FindText_records_direction_witness :
    Progress Sample.lib ∧ fuelBound (Sample.document (Sample.ascii "aaa")) 3 0 ≤ 6 ∧
    (StdRegexSearch.FindText Sample.lib 6 Sample.engine
        (Sample.document (Sample.ascii "aaa")) 3 0 (Sample.ascii "b*")
        true false false 0 7).map (fun t => (t.1._lastDirection, t.2.1)) = some (-1, 2) ∧
    (∃ self1 r len1,
      StdRegexSearch.FindText Sample.lib 6 Sample.engine
        (Sample.document (Sample.ascii "aaa")) 3 0 (Sample.ascii "b*")
        true false false 0 7 = some (self1, r, len1) ∧
      self1._lastDirection =
        (StdRegexSearch.resolveDirection Sample.engine._lastDirection 3 0).2.2 ∧
      (((3 : Int) > 0 ∨ ((3 : Int) = 0 ∧ Sample.engine._lastDirection < 0)) →
        self1._lastDirection = -1 ∧
        ∀ (doc2 : Document) (p : Int) (pat2 : Bytes) (cs2 : Bool),
          StdRegexSearch.resolveDirection self1._lastDirection p p = (p, p, -1) ∧
          (StdRegexSearch.searchParameters Sample.lib self1 doc2 p p pat2 cs2)._direction = -1 ∧
          (StdRegexSearch.searchParameters Sample.lib self1 doc2 p p pat2 cs2)._startPosition =
            snap doc2 p ∧
          (StdRegexSearch.searchParameters Sample.lib self1 doc2 p p pat2 cs2)._endPosition =
            snap doc2 p) ∧
      (¬ ((3 : Int) > 0 ∨ ((3 : Int) = 0 ∧ Sample.engine._lastDirection < 0)) →
        self1._lastDirection = 1 ∧
        ∀ (doc2 : Document) (p : Int) (pat2 : Bytes) (cs2 : Bool),
          StdRegexSearch.resolveDirection self1._lastDirection p p = (p, p, 1) ∧
          (StdRegexSearch.searchParameters Sample.lib self1 doc2 p p pat2 cs2)._direction = 1 ∧
          (StdRegexSearch.searchParameters Sample.lib self1 doc2 p p pat2 cs2)._startPosition =
            snap doc2 p ∧
          (StdRegexSearch.searchParameters Sample.lib self1 doc2 p p pat2 cs2)._endPosition =
            snap doc2 p)) :=
  ⟨Sample.lib_progress, by decide, by decide,
    FindText_records_direction Sample.lib Sample.engine Sample.lib_progress 6
      (Sample.document (Sample.ascii "aaa")) 3 0 (Sample.ascii "b*") true false false 0 7
      (by decide)⟩

theorem FindTextForward_snd_congr (ed ed1 : EncodingDependent Regex MatchResults)
    (search : SearchParameters) (h : ed._regex = ed1._regex) :
    (FindTextForward lib ed search).2 = (FindTextForward lib ed1 search).2 := by
  by_cases hpast : search._startPosition > search._endPosition
  · rw [FindTextForward_past lib ed search hpast, FindTextForward_past lib ed1 search hpast]
  · rw [FindTextForward_inside lib ed search hpast, FindTextForward_inside lib ed1 search hpast, h]

/-- A call resolved as forward, once the pattern is compiled: what it returns and what it
leaves in the engine, in terms of the `Match` of `FindTextForward`. -/
theorem FindText_forward_result (fuel : Nat) (self : StdRegexSearch Regex MatchResults)
    (doc : Document) (sp ep : Int) (pat : Bytes) (cs w ws : Bool) (fl len : Int)
    (ed1 : EncodingDependent Regex MatchResults)
    (hfwd : ¬ (sp > ep ∨ (sp = ep ∧ self._lastDirection < 0)))
    (hc : EncodingDependent.compileRegex lib self._utf8 pat (StdRegexSearch.compileFlags lib cs) =
      (ed1, Completion.normal ())) :
    ∃ self1, StdRegexSearch.FindText lib fuel self doc sp ep pat cs w ws fl len =
        some (self1,
          (if (FindTextForward lib ed1
              { _document := doc, _regexString := pat,
                _compileFlags := StdRegexSearch.compileFlags lib cs,
                _startPosition := snap doc sp, _endPosition := snap doc ep,
                regexFlags := lib.format_first_only, _direction := 1 }).2.found = true then
            (FindTextForward lib ed1
              { _document := doc, _regexString := pat,
                _compileFlags := StdRegexSearch.compileFlags lib cs,
                _startPosition := snap doc sp, _endPosition := snap doc ep,
                regexFlags := lib.format_first_only, _direction := 1 }).2.position
            else -1),
          (if (FindTextForward lib ed1
              { _document := doc, _regexString := pat,
                _compileFlags := StdRegexSearch.compileFlags lib cs,
                _startPosition := snap doc sp, _endPosition := snap doc ep,
                regexFlags := lib.format_first_only, _direction := 1 }).2.found = true then
            (FindTextForward lib ed1
              { _document := doc, _regexString := pat,
                _compileFlags := StdRegexSearch.compileFlags lib cs,
                _startPosition := snap doc sp, _endPosition := snap doc ep,
                regexFlags := lib.format_first_only, _direction := 1 }).2.length
            else len)) ∧
      self1._lastDirection = 1 ∧
      self1._utf8 = (FindTextForward lib ed1
        { _document := doc, _regexString := pat,
          _compileFlags := StdRegexSearch.compileFlags lib cs,
          _startPosition := snap doc sp, _endPosition := snap doc ep,
          regexFlags := lib.format_first_only, _direction := 1 }).1 := by
  have hE := FindText_forward_eval lib fuel self doc sp ep pat cs ed1 hfwd hc
  have hsp := searchParameters_forward lib self doc sp ep pat cs hfwd
  have hdir : (StdRegexSearch.searchParameters lib self doc sp ep pat cs)._direction = 1 := by
    rw [hsp]
  cases hm : (FindTextForward lib ed1
      (StdRegexSearch.searchParameters lib self doc sp ep pat cs)).2.found with
  | true =>
    have h1 := FindText_of_found lib fuel self doc sp ep pat cs w ws fl len _ _ _ hE hm
    rw [hsp] at hm
    rw [hm, if_pos rfl, if_pos rfl, ← hsp]
    exact ⟨_, h1, hdir, rfl⟩
  | false =>
    have h1 := FindText_of_unfound lib fuel self doc sp ep pat cs w ws fl len _ _ _ hE hm
    rw [hsp] at hm
    rw [hm, if_neg Bool.false_ne_true, if_neg Bool.false_ne_true, ← hsp]
    exact ⟨_, h1, hdir, rfl⟩

/-- A call that returns a sentinel leaves the length output as it was. -/
theorem FindText_length_untouched (fuel : Nat) (self self1 : StdRegexSearch Regex MatchResults)
    (doc : Document) (sp ep : Int) (pat : Bytes) (cs w ws : Bool) (fl len r len1 : Int)
    (h : StdRegexSearch.FindText lib fuel self doc sp ep pat cs w ws fl len = some (self1, r, len1))
    (hr : r < 0) : len1 = len := by
  cases hE : EncodingDependent.FindText lib fuel self._utf8
      (StdRegexSearch.searchParameters lib self doc sp ep pat cs) with
  | none => simp only [StdRegexSearch.FindText, hE] at h; cases h
  | some o =>
    obtain ⟨utf8, s1, c⟩ := o
    cases c with
    | regex_error =>
      rw [FindText_of_regex_error lib fuel self doc sp ep pat cs w ws fl len utf8 s1 hE] at h
      simp only [Option.some.injEq, Prod.mk.injEq] at h
      exact h.2.2.symm
    | normal m =>
      cases hm : m.found with
      | true =>
        rw [FindText_of_found lib fuel self doc sp ep pat cs w ws fl len utf8 s1 m hE hm] at h
        simp only [Option.some.injEq, Prod.mk.injEq] at h
        have : 0 ≤ m.position := by
          unfold Match.found at hm
          exact of_decide_eq_true hm
        omega
      | false =>
        rw [FindText_of_unfound lib fuel self doc sp ep pat cs w ws fl len utf8 s1 m hE hm] at h
        simp only [Option.some.injEq, Prod.mk.injEq] at h
        exact h.2.2.symm

/-- A call whose pattern is rejected returns -2 and leaves the matcher as it was. -/
theorem FindText_reject_result (fuel : Nat) (self : StdRegexSearch Regex MatchResults)
    (doc : Document) (sp ep : Int) (pat : Bytes) (cs w ws : Bool) (fl len : Int)
    (hc : EncodingDependent.compileRegex lib self._utf8 pat (StdRegexSearch.compileFlags lib cs) =
      (self._utf8, Completion.regex_error)) :
    ∃ self1, StdRegexSearch.FindText lib fuel self doc sp ep pat cs w ws fl len =
        some (self1, -2, len) ∧ self1._utf8 = self._utf8 :=
  ⟨_, FindText_of_regex_error lib fuel self doc sp ep pat cs w ws fl len _ _
    (ED_FindText_reject lib fuel self._utf8 self._utf8
      (StdRegexSearch.searchParameters lib self doc sp ep pat cs) hc), rfl⟩

/-- Repeating a call whose pattern compiles gives the same result. -/
theorem FindText_repeat_normal (self : StdRegexSearch Regex MatchResults)
    (hp : Progress lib) (fuel : Nat) (doc : Document) (sp ep : Int)
    (pat : Bytes) (cs w ws : Bool) (fl len : Int)
    (hfuel : fuelBound doc sp ep ≤ fuel)
    (ed1 : EncodingDependent Regex MatchResults)
    (hc : EncodingDependent.compileRegex lib self._utf8 pat (StdRegexSearch.compileFlags lib cs) =
      (ed1, Completion.normal ())) :
    ∃ self1 r len1,
      StdRegexSearch.FindText lib fuel self doc sp ep pat cs w ws fl len = some (self1, r, len1) ∧
      ∀ len2 : Int, ∃ self2 len3,
        StdRegexSearch.FindText lib fuel self1 doc sp ep pat cs w ws fl len2 =
          some (self2, r, len3) ∧
        (0 ≤ r → len3 = len1) ∧ (r < 0 → len3 = len2) := by
  obtain ⟨hk1, hk2, _⟩ := compileRegex_normal lib self._utf8 ed1 _ _ hc
  by_cases hback : sp > ep ∨ (sp = ep ∧ self._lastDirection < 0)
  · obtain ⟨n, rfl⟩ : ∃ n, fuel = n + 1 := ⟨fuel - 1, by unfold fuelBound at hfuel; omega⟩
    obtain ⟨cands, hcs⟩ := candidates_total lib hp ed1._regex
      (StdRegexSearch.searchParameters lib self doc sp ep pat cs) n (snap doc ep)
      (by
        rw [searchParameters_backward lib self doc sp ep pat cs hback]
        unfold fuelBound at hfuel
        dsimp only
        omega)
    obtain ⟨self1, h1, hd1, hr1, hf1, hs1⟩ :=
      FindText_backward_eval lib n self doc sp ep pat cs w ws fl len ed1 cands hback hc hcs
    have hback2 : sp > ep ∨ (sp = ep ∧ self1._lastDirection < 0) := by
      rcases hback with h | h
      · exact Or.inl h
      · exact Or.inr ⟨h.1, by omega⟩
    have hc2 := compileRegex_hit lib self1._utf8 pat (StdRegexSearch.compileFlags lib cs)
      (hf1.trans hk1) (hs1.trans hk2)
    have hcs2 : FindTextBackward.candidates lib self1._utf8._regex
        (StdRegexSearch.searchParameters lib self1 doc sp ep pat cs) n (snap doc ep) =
        some cands := by
      rw [hr1, searchParameters_backward lib self1 doc sp ep pat cs hback2,
        ← searchParameters_backward lib self doc sp ep pat cs hback]
      exact hcs
    refine ⟨self1, _, _, h1, ?_⟩
    intro len2
    obtain ⟨self2, h2, _⟩ :=
      FindText_backward_eval lib n self1 doc sp ep pat cs w ws fl len2
        self1._utf8 cands hback2 hc2 hcs2
    refine ⟨self2, _, h2, ?_, ?_⟩
    · intro hr
      by_cases hb : 0 ≤ (FindTextBackward.best lib (snap doc sp) cands (-1, -1)).1
      · simp only [if_pos hb]
      · rw [if_neg hb] at hr; omega
    · intro hr
      by_cases hb : 0 ≤ (FindTextBackward.best lib (snap doc sp) cands (-1, -1)).1
      · rw [if_pos hb] at hr; omega
      · simp only [if_neg hb]
  · obtain ⟨self1, h1, hd1, hu1⟩ :=
      FindText_forward_result lib fuel self doc sp ep pat cs w ws fl len ed1 hback hc
    obtain ⟨hg1, hg2, hg3⟩ := FindTextForward_fields lib ed1
      { _document := doc, _regexString := pat,
        _compileFlags := StdRegexSearch.compileFlags lib cs,
        _startPosition := snap doc sp, _endPosition := snap doc ep,
        regexFlags := lib.format_first_only, _direction := 1 }
    have hfwd2 : ¬ (sp > ep ∨ (sp = ep ∧ self1._lastDirection < 0)) := by
      rw [hd1]; omega
    have hc2 := compileRegex_hit lib self1._utf8 pat (StdRegexSearch.compileFlags lib cs)
      (by rw [hu1]; exact hg2.trans hk1) (by rw [hu1]; exact hg3.trans hk2)
    have hsame := FindTextForward_snd_congr lib self1._utf8 ed1
      { _document := doc, _regexString := pat,
        _compileFlags := StdRegexSearch.compileFlags lib cs,
        _startPosition := snap doc sp, _endPosition := snap doc ep,
        regexFlags := lib.format_first_only, _direction := 1 } (by rw [hu1]; exact hg1)
    refine ⟨self1, _, _, h1, ?_⟩
    intro len2
    obtain ⟨self2, h2, _⟩ :=
      FindText_forward_result lib fuel self1 doc sp ep pat cs w ws fl len2 self1._utf8 hfwd2 hc2
    rw [hsame] at h2
    refine ⟨self2, _, h2, ?_, ?_⟩
    · intro hr
      cases hm : (FindTextForward lib ed1
        { _document := doc, _regexString := pat,
          _compileFlags := StdRegexSearch.compileFlags lib cs,
          _startPosition := snap doc sp, _endPosition := snap doc ep,
          regexFlags := lib.format_first_only, _direction := 1 }).2.found with
      | true => simp
      | false => rw [hm] at hr; simp at hr
    · intro hr
      cases hm : (FindTextForward lib ed1
        { _document := doc, _regexString := pat,
          _compileFlags := StdRegexSearch.compileFlags lib cs,
          _startPosition := snap doc sp, _endPosition := snap doc ep,
          regexFlags := lib.format_first_only, _direction := 1 }).2.found with
      | true =>
        rw [hm] at hr
        have hpos : 0 ≤ (FindTextForward lib ed1
            { _document := doc, _regexString := pat,
              _compileFlags := StdRegexSearch.compileFlags lib cs,
              _startPosition := snap doc sp, _endPosition := snap doc ep,
              regexFlags := lib.format_first_only, _direction := 1 }).2.position := by
          unfold Match.found at hm
          exact of_decide_eq_true hm
        simp only [if_true] at hr
        omega
      | false => simp

/-- C10. Calling `FindText` twice in a row with the same arguments on an unchanged
document returns the same result both times: the same position or sentinel (-1, -2) and,
when a match is found, the same length; on -1 and -2 the second call leaves its length
output alone, as the first did. This holds for every engine state, every range (also
with `startPos == endPos`) and every fuel from `fuelBound` on (the primitive making
progress). -/
theorem FindText_repeat (self : StdRegexSearch Regex MatchResults)
    (hp : Progress lib) (fuel : Nat) (doc : Document) (sp ep : Int)
    (pat : Bytes) (cs w ws : Bool) (fl len : Int)
    (hfuel : fuelBound doc sp ep ≤ fuel) :
    ∃ self1 r len1,
      StdRegexSearch.FindText lib fuel self doc sp ep pat cs w ws fl len = some (self1, r, len1) ∧
      (r < 0 → len1 = len) ∧
      ∀ len2 : Int, ∃ self2 len3,
        StdRegexSearch.FindText lib fuel self1 doc sp ep pat cs w ws fl len2 =
          some (self2, r, len3) ∧
        (0 ≤ r → len3 = len1) ∧ (r < 0 → len3 = len2) := by
  have key : ∃ self1 r len1,
      StdRegexSearch.FindText lib fuel self doc sp ep pat cs w ws fl len = some (self1, r, len1) ∧
      ∀ len2 : Int, ∃ self2 len3,
        StdRegexSearch.FindText lib fuel self1 doc sp ep pat cs w ws fl len2 =
          some (self2, r, len3) ∧
        (0 ≤ r → len3 = len1) ∧ (r < 0 → len3 = len2) := by
    rcases compileRegex_cases lib self._utf8 pat (StdRegexSearch.compileFlags lib cs) with
      ⟨_, _, hc⟩ | ⟨_, _, hc⟩ | ⟨re, _, _, hc⟩
    · exact FindText_repeat_normal lib self hp fuel doc sp ep pat cs w ws fl len hfuel _ hc
    · obtain ⟨self1, h1, hu1⟩ :=
        FindText_reject_result lib fuel self doc sp ep pat cs w ws fl len hc
      rw [← hu1] at hc
      refine ⟨self1, _, _, h1, ?_⟩
      intro len2
      obtain ⟨self2, h2, _⟩ :=
        FindText_reject_result lib fuel self1 doc sp ep pat cs w ws fl len2 hc
      exact ⟨self2, _, h2, fun h => by omega, fun _ => rfl⟩
    · exact FindText_repeat_normal lib self hp fuel doc sp ep pat cs w ws fl len hfuel _ hc
  obtain ⟨self1, r, len1, h1, h2⟩ := key
  exact ⟨self1, r, len1, h1,
    FindText_length_untouched lib fuel self self1 doc sp ep pat cs w ws fl len r len1 h1, h2⟩

/-- C10 on a concrete buffer: `b*` searched backward over `aaa`, twice. -/
theorem FindText_repeat_witness :
    Progress Sample.lib ∧ fuelBound (Sample.document (Sample.ascii "aaa")) 3 0 ≤ 6 ∧
    (StdRegexSearch.FindText Sample.lib 6 Sample.engine
        (Sample.document (Sample.ascii "aaa")) 3 0 (Sample.ascii "b*")
        true false false 0 0).map (fun t => t.2) = some (2, 0) ∧
    (StdRegexSearch.FindText Sample.lib 6 Sample.engineAfterBackward
        (Sample.document (Sample.ascii "aaa")) 3 0 (Sample.ascii "b*")
        true false false 0 0).map (fun t => t.2) = some (2, 0) ∧
    (∃ self1 r len1,
      StdRegexSearch.FindText Sample.lib 6 Sample.engine
        (Sample.document (Sample.ascii "aaa")) 3 0 (Sample.ascii "b*")
        true false false 0 0 = some (self1, r, len1) ∧
      (r < 0 → len1 = 0) ∧
      ∀ len2 : Int, ∃ self2 len3,
        StdRegexSearch.FindText Sample.lib 6 self1
          (Sample.document (Sample.ascii "aaa")) 3 0 (Sample.ascii "b*")
          true false false 0 len2 = some (self2, r, len3) ∧
        (0 ≤ r → len3 = len1) ∧ (r < 0 → len3 = len2)) :=
  ⟨Sample.lib_progress, by decide, by decide, by decide,
    FindText_repeat Sample.lib Sample.engine Sample.lib_progress 6
      (Sample.document (Sample.ascii "aaa")) 3 0 (Sample.ascii "b*")
      true false false 0 0 (by decide)⟩

/-! ### The cache is not observable -/

theorem compileRegexFresh_eq (ed : EncodingDependent Regex MatchResults) (pat : Bytes)
    (flags : Int) (hco : CacheCoherent lib ed) (hflags : flags ≠ -1) :
    EncodingDependent.compileRegexFresh lib ed pat flags =
      EncodingDependent.compileRegex lib ed pat flags := by
  by_cases hk : ed._lastCompileFlags ≠ flags ∨ ed._lastRegexString ≠ pat
  · unfold EncodingDependent.compileRegexFresh EncodingDependent.compileRegex
    rw [if_pos hk]
  · have hk1 : ed._lastCompileFlags = flags := by
      by_contra h; exact hk (Or.inl h)
    have hk2 : ed._lastRegexString = pat := by
      by_contra h; exact hk (Or.inr h)
    rw [compileRegex_hit lib ed pat flags hk1 hk2]
    rcases hco with h | h
    · exact absurd (hk1.symm.trans h) hflags
    · subst hk1 hk2
      unfold EncodingDependent.compileRegexFresh
      rw [h]

theorem ED_FindTextFresh_forward_hit (fuel : Nat) (ed : EncodingDependent Regex MatchResults)
    (search : SearchParameters) (hf : ed._lastCompileFlags = search._compileFlags)
    (hp : ed._lastRegexString = search._regexString)
    (hre : lib.basic_regex (StdGetUnicode lib search._regexString true) search._compileFlags =
      some ed._regex)
    (hd : search._direction > 0) :
    EncodingDependent.FindTextFresh lib fuel ed search =
      some ((FindTextForward lib ed search).1, search,
        Completion.normal (FindTextForward lib ed search).2) := by
  have hc : EncodingDependent.compileRegexFresh lib ed search._regexString
      search._compileFlags = (ed, Completion.normal ()) := by
    unfold EncodingDependent.compileRegexFresh
    rw [hre, ← hf, ← hp]
  cases fuel <;> simp [EncodingDependent.FindTextFresh, hc, hd]

/-- Inside the backward loop the two engines make the same passes. -/
theorem loop_fresh_eq (n : Nat) :
    ∀ (fuel : Nat) (ed : EncodingDependent Regex MatchResults) (search : SearchParameters)
      (bm : MatchResults) (bp be : Int),
      ed._lastCompileFlags = search._compileFlags →
      ed._lastRegexString = search._regexString →
      lib.basic_regex (StdGetUnicode lib search._regexString true) search._compileFlags =
        some ed._regex →
      search._direction > 0 →
      FindTextBackward.loop (EncodingDependent.FindTextFresh lib n) fuel ed search bm bp be =
        FindTextBackward.loop (EncodingDependent.FindText lib n) fuel ed search bm bp be := by
  intro fuel
  induction fuel with
  | zero => intro ed search bm bp be _ _ _ _; rfl
  | succ k ih =>
    intro ed search bm bp be hf hp hre hd
    have hF := ED_FindText_forward_hit lib n ed search hf hp hd
    have hG := ED_FindTextFresh_forward_hit lib n ed search hf hp hre hd
    obtain ⟨h1, h2, h3⟩ := FindTextForward_fields lib ed search
    cases hm : (FindTextForward lib ed search).2.found with
    | false =>
      rw [loop_stop _ k ed _ search search bm bp be _ hF hm,
        loop_stop _ k ed _ search search bm bp be _ hG hm]
    | true =>
      rw [loop_continue _ k ed _ search search bm bp be _ hF hm,
        loop_continue _ k ed _ search search bm bp be _ hG hm]
      have hstep : ∀ (bm1 : MatchResults) (bp1 be1 : Int),
          FindTextBackward.loop (EncodingDependent.FindTextFresh lib n) k
            (FindTextForward lib ed search).1
            { search with
              _startPosition := search.nextCharacter (FindTextForward lib ed search).2.position }
            bm1 bp1 be1 =
          FindTextBackward.loop (EncodingDependent.FindText lib n) k
            (FindTextForward lib ed search).1
            { search with
              _startPosition := search.nextCharacter (FindTextForward lib ed search).2.position }
            bm1 bp1 be1 := by
        intro bm1 bp1 be1
        refine ih _ _ bm1 bp1 be1 ?_ ?_ ?_ ?_
        · exact h2.trans hf
        · exact h3.trans hp
        · rw [h1]; exact hre
        · exact hd
      split
      · exact hstep _ _ _
      · exact hstep _ _ _

/-- On a coherent cache the matcher with and without cache agree, state included. -/
theorem ED_FindTextFresh_eq (fuel : Nat) (ed : EncodingDependent Regex MatchResults)
    (search : SearchParameters) (hco : CacheCoherent lib ed)
    (hflags : search._compileFlags ≠ -1) :
    EncodingDependent.FindTextFresh lib fuel ed search =
      EncodingDependent.FindText lib fuel ed search := by
  have hcf := compileRegexFresh_eq lib ed search._regexString search._compileFlags hco hflags
  cases hc : EncodingDependent.compileRegex lib ed search._regexString search._compileFlags with
  | mk ed1 c =>
    rw [hc] at hcf
    cases c with
    | regex_error =>
      rw [ED_FindText_reject lib fuel ed ed1 search hc]
      cases fuel <;> simp [EncodingDependent.FindTextFresh, hcf]
    | normal u =>
      by_cases hd : search._direction > 0
      · rw [ED_FindText_forward lib fuel ed ed1 search hc hd]
        cases fuel <;> simp [EncodingDependent.FindTextFresh, hcf, hd]
      · cases fuel with
        | zero => simp [EncodingDependent.FindTextFresh, EncodingDependent.FindText, hcf, hc, hd]
        | succ n =>
          rw [ED_FindText_backward lib n ed ed1 search hc hd]
          have hG : EncodingDependent.FindTextFresh lib (n + 1) ed search =
              FindTextBackward lib (EncodingDependent.FindTextFresh lib n) n ed1 search := by
            simp [EncodingDependent.FindTextFresh, hcf, hd]
          rw [hG]
          unfold FindTextBackward
          obtain ⟨hk1, hk2, _⟩ := compileRegex_normal lib ed ed1 _ _ hc
          have hco1 : CacheCoherent lib ed1 := by
            have := compileRegex_coherent lib ed search._regexString search._compileFlags hco
            rw [hc] at this; exact this
          have hre : lib.basic_regex (StdGetUnicode lib search._regexString true)
              search._compileFlags = some ed1._regex := by
            rcases hco1 with h | h
            · exact absurd (hk1.symm.trans h) hflags
            · rw [hk1, hk2] at h; exact h
          exact loop_fresh_eq lib n n ed1 { search with _direction := 1 } _ _ _ hk1 hk2 hre
            Int.one_pos

theorem FindTextFresh_eq (fuel : Nat) (self : StdRegexSearch Regex MatchResults)
    (hR : Reachable lib self) (doc : Document) (sp ep : Int) (pat : Bytes) (cs w ws : Bool)
    (fl len : Int) :
    StdRegexSearch.FindTextFresh lib fuel self doc sp ep pat cs w ws fl len =
      StdRegexSearch.FindText lib fuel self doc sp ep pat cs w ws fl len := by
  unfold StdRegexSearch.FindTextFresh StdRegexSearch.FindText
  have h := ED_FindTextFresh_eq lib fuel self._utf8
    (StdRegexSearch.searchParameters lib self doc sp ep pat cs) (Reachable.coherent lib hR)
    (compileFlags_ne lib cs)
  simp only [h]

theorem results_eq :
    ∀ (calls : List Call) (self : StdRegexSearch Regex MatchResults), Reachable lib self →
      results (Call.run lib) self calls = results (Call.runFresh lib) self calls := by
  intro calls
  induction calls with
  | nil => intro self _; rfl
  | cons c cs ih =>
    intro self hR
    have hstep : Call.runFresh lib self c = Call.run lib self c := by
      unfold Call.runFresh Call.run
      exact FindTextFresh_eq lib c.fuel self hR _ _ _ _ _ _ _ _ _
    rw [results, results, hstep]
    cases hrun : Call.run lib self c with
    | none => rfl
    | some t =>
      obtain ⟨self1, r, len1⟩ := t
      have hR1 : Reachable lib self1 := by
        unfold Call.run at hrun
        exact Reachable.findText hR hrun
      simp only [ih self1 hR1]

/-- C11. Pattern caching is unobservable. Every sequence of `FindText` calls on a fresh
engine returns, call by call, the same value and the same length output as the engine
that compiles the pattern afresh from its text and flags on every call. In every
reachable state the cached compiled pattern is the compilation of the cached key (or
nothing has been compiled yet), and a single call there agrees with the engine without
cache, the state it leaves included; so a repeated call behaves like a fresh compile, and
a call that differs only in case sensitivity (hence in compile flags) matches with the
newly compiled pattern. -/
theorem FindText_cache_unobservable :
    (∀ calls : List Call,
      results (Call.run lib) (StdRegexSearch.new lib) calls =
        results (Call.runFresh lib) (StdRegexSearch.new lib) calls) ∧
    (∀ self : StdRegexSearch Regex MatchResults, Reachable lib self →
      CacheCoherent lib self._utf8 ∧
      ∀ (fuel : Nat) (doc : Document) (sp ep : Int) (pat : Bytes) (cs w ws : Bool) (fl len : Int),
        StdRegexSearch.FindText lib fuel self doc sp ep pat cs w ws fl len =
          StdRegexSearch.FindTextFresh lib fuel self doc sp ep pat cs w ws fl len) :=
  ⟨fun calls => results_eq lib calls _ Reachable.fresh,
    fun self hR => ⟨Reachable.coherent lib hR,
      fun fuel doc sp ep pat cs w ws fl len =>
        (FindTextFresh_eq lib fuel self hR doc sp ep pat cs w ws fl len).symm⟩⟩

/-- C11 on a concrete sequence: `a+` over `AAA`, first case-sensitive (not found), then
with the same pattern case-insensitive (position 0, length 3), then case-sensitive again;
the engine without cache returns the same. -/
theorem FindText_cache_unobservable_witness :
    results (Call.run Sample.lib) (StdRegexSearch.new Sample.lib)
        [Sample.caseCall true, Sample.caseCall false, Sample.caseCall true] =
      [some (-1, 0), some (0, 3), some (-1, 0)] ∧
    results (Call.run Sample.lib) (StdRegexSearch.new Sample.lib)
        [Sample.caseCall true, Sample.caseCall false, Sample.caseCall true] =
      results (Call.runFresh Sample.lib) (StdRegexSearch.new Sample.lib)
        [Sample.caseCall true, Sample.caseCall false, Sample.caseCall true] :=
  ⟨by decide, (FindText_cache_unobservable Sample.lib).1 _⟩

/-- What a call leaves in the last-match slot: the returned match when one is found, an
unfound match on -1, and the slot as it was on -2. -/
theorem FindText_lastMatch (fuel : Nat) (self self1 : StdRegexSearch Regex MatchResults)
    (doc : Document) (sp ep : Int) (pat : Bytes) (cs w ws : Bool) (fl len r len1 : Int)
    (h : StdRegexSearch.FindText lib fuel self doc sp ep pat cs w ws fl len = some (self1, r, len1)) :
    (0 ≤ r → self1._lastMatch.found = true ∧ self1._lastMatch.position = r ∧
      self1._lastMatch.length = len1) ∧
    (r = -1 → self1._lastMatch.found = false ∧ self1._lastMatch.position = -1) ∧
    (r = -2 → self1._lastMatch = self._lastMatch) ∧
    (0 ≤ r ∨ r = -1 ∨ r = -2) := by
  cases hE : EncodingDependent.FindText lib fuel self._utf8
      (StdRegexSearch.searchParameters lib self doc sp ep pat cs) with
  | none => simp only [StdRegexSearch.FindText, hE] at h; cases h
  | some o =>
    obtain ⟨utf8, s1, c⟩ := o
    cases c with
    | regex_error =>
      rw [FindText_of_regex_error lib fuel self doc sp ep pat cs w ws fl len utf8 s1 hE] at h
      simp only [Option.some.injEq, Prod.mk.injEq] at h
      obtain ⟨h1, h2, _⟩ := h
      subst h1 h2
      refine ⟨fun h => by omega, fun h => by omega, fun _ => rfl, Or.inr (Or.inr rfl)⟩
    | normal m =>
      cases hm : m.found with
      | true =>
        rw [FindText_of_found lib fuel self doc sp ep pat cs w ws fl len utf8 s1 m hE hm] at h
        simp only [Option.some.injEq, Prod.mk.injEq] at h
        obtain ⟨h1, h2, h3⟩ := h
        subst h1 h2 h3
        have hpos : 0 ≤ m.position := by
          unfold Match.found at hm
          exact of_decide_eq_true hm
        refine ⟨fun _ => ⟨?_, rfl, rfl⟩, fun h => by omega, fun h => by omega, Or.inl hpos⟩
        exact decide_eq_true hpos
      | false =>
        rw [FindText_of_unfound lib fuel self doc sp ep pat cs w ws fl len utf8 s1 m hE hm] at h
        simp only [Option.some.injEq, Prod.mk.injEq] at h
        obtain ⟨h1, h2, _⟩ := h
        subst h1 h2
        refine ⟨fun h => by omega, fun _ => ⟨?_, rfl⟩, fun h => by omega, Or.inr (Or.inl rfl)⟩
        exact decide_eq_false (show ¬ ((-1 : Int) ≥ 0) by decide)

/-- C12. After a `FindText` call that returns a position `p >= 0` with length `n`, the
retained last match is found, with position `p` and length `n`; after a call that returns
-1 it is unfound (`found()` false, position -1). (The call returns for every fuel from
`fuelBound` on when the primitive makes progress.) -/
theorem FindText_retains_match (self : StdRegexSearch Regex MatchResults)
    (hp : Progress lib) (fuel : Nat) (doc : Document) (sp ep : Int)
    (pat : Bytes) (cs w ws : Bool) (fl len : Int)
    (hfuel : fuelBound doc sp ep ≤ fuel) :
    ∃ self1 r len1,
      StdRegexSearch.FindText lib fuel self doc sp ep pat cs w ws fl len = some (self1, r, len1) ∧
      (0 ≤ r → self1._lastMatch.found = true ∧ self1._lastMatch.position = r ∧
        self1._lastMatch.length = len1) ∧
      (r = -1 → self1._lastMatch.found = false ∧ self1._lastMatch.position = -1) := by
  obtain ⟨self1, r, len1, h⟩ := FindText_returns lib hp fuel self doc sp ep pat cs w ws fl len hfuel
  obtain ⟨h1, h2, _, _⟩ := FindText_lastMatch lib fuel self self1 doc sp ep pat cs w ws fl len r len1 h
  exact ⟨self1, r, len1, h, h1, h2⟩

/-- C12 on concrete buffers: `a(b+)c` found in `xabbcy` at position 1 with length 4, and
`a+` not found in `AAA`. -/
theorem FindText_retains_match_witness :
    Progress Sample.lib ∧ fuelBound (Sample.document (Sample.ascii "xabbcy")) 0 6 ≤ 9 ∧
    (StdRegexSearch.FindText Sample.lib 9 Sample.engine
        (Sample.document (Sample.ascii "xabbcy")) 0 6 (Sample.ascii "a(b+)c")
        true false false 0 0).map
      (fun t => (t.2.1, t.2.2, t.1._lastMatch.found, t.1._lastMatch.position,
        t.1._lastMatch.length)) = some (1, 4, true, 1, 4) ∧
    (StdRegexSearch.FindText Sample.lib 0 Sample.engineAfterFind
        (Sample.document (Sample.ascii "AAA")) 0 3 (Sample.ascii "a+")
        true false false 0 0).map
      (fun t => (t.2.1, t.1._lastMatch.found, t.1._lastMatch.position)) =
      some (-1, false, -1) ∧
    (∃ self1 r len1,
      StdRegexSearch.FindText Sample.lib 9 Sample.engine
        (Sample.document (Sample.ascii "xabbcy")) 0 6 (Sample.ascii "a(b+)c")
        true false false 0 0 = some (self1, r, len1) ∧
      (0 ≤ r → self1._lastMatch.found = true ∧ self1._lastMatch.position = r ∧
        self1._lastMatch.length = len1) ∧
      (r = -1 → self1._lastMatch.found = false ∧ self1._lastMatch.position = -1)) :=
  ⟨Sample.lib_progress, by decide, by decide, by decide,
    FindText_retains_match Sample.lib Sample.engine Sample.lib_progress 9
      (Sample.document (Sample.ascii "xabbcy")) 0 6 (Sample.ascii "a(b+)c")
      true false false 0 0 (by decide)⟩

/-- C13. A `FindText` call that returns -2 leaves the last-match slot untouched: the catch
block of lines 275-279 returns without the assignment to `_lastMatch` that both other
exits make. After `a(b+)c` was found in `xabbcy` (position 1, length 4), a search for the
malformed pattern `a(` returns -2 and the slot still holds the found match `[1, 5)` of
the earlier call. -/
theorem FindText_invalid_keeps_lastMatch :
    (Sample.engineAfterFind._lastMatch.found, Sample.engineAfterFind._lastMatch.position,
      Sample.engineAfterFind._lastMatch.length) = (true, 1, 4) ∧
    (StdRegexSearch.FindText Sample.lib 0 Sample.engineAfterFind
        (Sample.document (Sample.ascii "xabbcy")) 0 6 (Sample.ascii "a(")
        true false false 0 0).map
      (fun t => (t.2.1, t.1._lastMatch.found, t.1._lastMatch.position,
        t.1._lastMatch.length)) = some (-2, true, 1, 4) := by
  refine ⟨?_, ?_⟩ <;> decide

/-! ### Character boundaries -/

theorem Utf8.isBoundary_of_le (bytes : List Nat) (pos : Int) (h : pos ≤ 0) :
    Utf8.isBoundary bytes pos = true := by
  simp [Utf8.isBoundary, h]

theorem Utf8.isBoundary_of_ge (bytes : List Nat) (pos : Int) (h : pos ≥ bytes.length) :
    Utf8.isBoundary bytes pos = true := by
  simp [Utf8.isBoundary, h]

theorem Utf8.inside_of_not_boundary (bytes : List Nat) (pos : Int)
    (h : Utf8.isBoundary bytes pos = false) : 0 < pos ∧ pos < bytes.length := by
  simp only [Utf8.isBoundary, Bool.or_eq_false_iff, decide_eq_false_iff_not] at h
  omega

theorem Utf8.forward_ge (bytes : List Nat) :
    ∀ (n : Nat) (pos : Int), pos ≤ Utf8.forward bytes n pos := by
  intro n
  induction n with
  | zero => intro pos; exact le_refl _
  | succ k ih =>
    intro pos
    rw [Utf8.forward]
    split
    · exact le_refl _
    · have := ih (pos + 1); omega

theorem Utf8.forward_boundary (bytes : List Nat) :
    ∀ (n : Nat) (pos : Int), (bytes.length : Int) ≤ pos + n →
      Utf8.isBoundary bytes (Utf8.forward bytes n pos) = true := by
  intro n
  induction n with
  | zero =>
    intro pos h
    exact Utf8.isBoundary_of_ge bytes pos (by simpa using h)
  | succ k ih =>
    intro pos h
    rw [Utf8.forward]
    split
    · assumption
    · exact ih (pos + 1) (by push_cast at h; omega)

theorem Utf8.forward_of_boundary (bytes : List Nat) (n : Nat) (pos : Int)
    (h : Utf8.isBoundary bytes pos = true) : Utf8.forward bytes n pos = pos := by
  cases n with
  | zero => rfl
  | succ k => rw [Utf8.forward, if_pos h]

theorem Utf8.forward_gt (bytes : List Nat) (n : Nat) (pos : Int)
    (h : Utf8.isBoundary bytes pos = false) : pos < Utf8.forward bytes (n + 1) pos := by
  rw [Utf8.forward, h]
  have := Utf8.forward_ge bytes n (pos + 1)
  simp only [Bool.false_eq_true, if_false]
  omega

/-- Snapping with direction 1 on a UTF-8 buffer: the result is a character boundary, a
boundary inside the buffer stays, and a position inside a character moves forward. -/
theorem Utf8.snap_spec (bytes : List Nat) (p : Int) :
    Utf8.isBoundary bytes (snap (Utf8.document bytes) p) = true ∧
    (p ≤ bytes.length → p ≤ snap (Utf8.document bytes) p) ∧
    (Utf8.isBoundary bytes p = true → 0 ≤ p → p ≤ bytes.length →
      snap (Utf8.document bytes) p = p) ∧
    (Utf8.isBoundary bytes p = false → p < snap (Utf8.document bytes) p) := by
  have hdef : snap (Utf8.document bytes) p =
      if p ≤ 0 then 0
      else if p ≥ bytes.length then (bytes.length : Int)
      else Utf8.forward bytes (bytes.length - p).toNat p := by
    simp [snap, Utf8.document]
  by_cases h0 : p ≤ 0
  · rw [hdef, if_pos h0]
    refine ⟨Utf8.isBoundary_of_le bytes 0 (le_refl _), fun _ => h0, fun _ h1 _ => by omega, ?_⟩
    intro h
    have := Utf8.inside_of_not_boundary bytes p h
    omega
  · by_cases h1 : p ≥ bytes.length
    · rw [hdef, if_neg h0, if_pos h1]
      refine ⟨Utf8.isBoundary_of_ge bytes _ (le_refl _), fun h => by omega,
        fun _ _ h2 => by omega, ?_⟩
      intro h
      have := Utf8.inside_of_not_boundary bytes p h
      omega
    · rw [hdef, if_neg h0, if_neg h1]
      refine ⟨Utf8.forward_boundary bytes _ p (by omega), fun _ => Utf8.forward_ge bytes _ p,
        fun h _ _ => Utf8.forward_of_boundary bytes _ p h, ?_⟩
      intro h
      obtain ⟨k, hk⟩ : ∃ k, (bytes.length - p).toNat = k + 1 :=
        ⟨(bytes.length - p).toNat - 1, by omega⟩
      rw [hk]
      exact Utf8.forward_gt bytes k p h

theorem Utf8.forward_le (bytes : List Nat) :
    ∀ (n : Nat) (pos : Int), pos ≤ bytes.length → Utf8.forward bytes n pos ≤ bytes.length := by
  intro n
  induction n with
  | zero => intro pos h; exact h
  | succ k ih =>
    intro pos h
    rw [Utf8.forward]
    split
    · exact h
    · rename_i hb
      have hb1 : Utf8.isBoundary bytes pos = false := by simpa using hb
      have := Utf8.inside_of_not_boundary bytes pos hb1
      exact ih (pos + 1) (by omega)

/-- No position from `pos` up to `forward bytes n pos` is a character boundary. -/
theorem Utf8.forward_least (bytes : List Nat) :
    ∀ (n : Nat) (pos q : Int), pos ≤ q → q < Utf8.forward bytes n pos →
      Utf8.isBoundary bytes q = false := by
  intro n
  induction n with
  | zero =>
    intro pos q h1 h2
    rw [Utf8.forward] at h2
    omega
  | succ k ih =>
    intro pos q h1 h2
    rw [Utf8.forward] at h2
    split at h2
    · omega
    · rename_i hb
      have hb1 : Utf8.isBoundary bytes pos = false := by simpa using hb
      by_cases hq : q = pos
      · rw [hq]; exact hb1
      · exact ih (pos + 1) q (by omega) h2

/-- Snapping with direction 1 on a UTF-8 buffer gives the first character boundary at or
after a position inside the buffer, and the nearer end of the buffer for a position
outside it. -/
theorem Utf8.snap_forward (bytes : List Nat) (p : Int) :
    Utf8.isBoundary bytes (snap (Utf8.document bytes) p) = true ∧
    0 ≤ snap (Utf8.document bytes) p ∧ snap (Utf8.document bytes) p ≤ bytes.length ∧
    (p ≤ 0 → snap (Utf8.document bytes) p = 0) ∧
    ((bytes.length : Int) ≤ p → snap (Utf8.document bytes) p = bytes.length) ∧
    (0 ≤ p → p ≤ bytes.length →
      p ≤ snap (Utf8.document bytes) p ∧
        ∀ q : Int, p ≤ q → q < snap (Utf8.document bytes) p →
          Utf8.isBoundary bytes q = false) ∧
    (Utf8.isBoundary bytes p = true → 0 ≤ p → p ≤ bytes.length →
      snap (Utf8.document bytes) p = p) ∧
    (Utf8.isBoundary bytes p = false →
      p < snap (Utf8.document bytes) p ∧
        ∀ q : Int, p ≤ q → q < snap (Utf8.document bytes) p →
          Utf8.isBoundary bytes q = false) := by
  obtain ⟨hb, hge, hstay, hgt⟩ := Utf8.snap_spec bytes p
  have hdef : snap (Utf8.document bytes) p =
      if p ≤ 0 then 0
      else if p ≥ bytes.length then (bytes.length : Int)
      else Utf8.forward bytes (bytes.length - p).toNat p := by
    simp [snap, Utf8.document]
  have hlen : (0 : Int) ≤ bytes.length := Int.ofNat_nonneg _
  have hleast : 0 ≤ p → ∀ q : Int, p ≤ q → q < snap (Utf8.document bytes) p →
      Utf8.isBoundary bytes q = false := by
    intro hp q h1 h2
    by_cases h0 : p ≤ 0
    · rw [hdef, if_pos h0] at h2; omega
    · by_cases h3 : p ≥ bytes.length
      · rw [hdef, if_neg h0, if_pos h3] at h2; omega
      · rw [hdef, if_neg h0, if_neg h3] at h2
        exact Utf8.forward_least bytes _ p q h1 h2
  have hlo : 0 ≤ snap (Utf8.document bytes) p := by
    by_cases h0 : p ≤ 0
    · rw [hdef, if_pos h0]
    · by_cases h3 : p ≥ bytes.length
      · rw [hdef, if_neg h0, if_pos h3]; exact hlen
      · have := hge (by omega); omega
  have hhi : snap (Utf8.document bytes) p ≤ bytes.length := by
    by_cases h0 : p ≤ 0
    · rw [hdef, if_pos h0]; exact hlen
    · by_cases h3 : p ≥ bytes.length
      · rw [hdef, if_neg h0, if_pos h3]
      · rw [hdef, if_neg h0, if_neg h3]
        exact Utf8.forward_le bytes _ p (by omega)
  refine ⟨hb, hlo, hhi, ?_, ?_, ?_, hstay, ?_⟩
  · intro h0
    rw [hdef, if_pos h0]
  · intro h3
    by_cases h0 : p ≤ 0
    · rw [hdef, if_pos h0]; omega
    · rw [hdef, if_neg h0, if_pos h3]
  · intro hp hle
    exact ⟨hge hle, hleast hp⟩
  · intro hnb
    have := Utf8.inside_of_not_boundary bytes p hnb
    exact ⟨hgt hnb, hleast (by omega)⟩

/-- C14, as the claim states it, fails: on the UTF-8 buffer `C3 A9 61` (an `é` of two
bytes and an `a`) the call `FindText(doc, 1, 3, ...)` is resolved as forward over the
requested range `[1, 3]`, whose lower endpoint is inside the `é`; the range handed to the
matcher is `[2, 3]`: the lower endpoint was moved forward, into the requested range, and
is not `<=` the requested one. -/
theorem FindText_snap_moves_lower_endpoint_inward :
    StdRegexSearch.resolveDirection Sample.engine._lastDirection 1 3 = (1, 3, 1) ∧
    Utf8.isBoundary [195, 169, 97] 1 = false ∧
    ((StdRegexSearch.searchParameters Sample.lib Sample.engine (Utf8.document [195, 169, 97])
        1 3 (Sample.ascii "a") true)._startPosition,
      (StdRegexSearch.searchParameters Sample.lib Sample.engine (Utf8.document [195, 169, 97])
        1 3 (Sample.ascii "a") true)._endPosition) = (2, 3) ∧
    ¬ ((StdRegexSearch.searchParameters Sample.lib Sample.engine (Utf8.document [195, 169, 97])
        1 3 (Sample.ascii "a") true)._startPosition ≤ 1) := by
  refine ⟨?_, ?_, ?_, ?_⟩ <;> decide

/-- C14, amended. On a buffer in UTF-8 each endpoint of the requested (resolved) range is
moved forward to a character boundary before the range is handed to the matcher. For
`p` a requested endpoint and `e` the effective endpoint that replaces it: `e` is a
character boundary inside the buffer; a `p` at or below 0 gives 0 and a `p` at or beyond
the end of the buffer gives the end of the buffer; a `p` inside the buffer gives the first
character boundary at or after `p`, so `p <= e` and no position from `p` up to `e` is a
boundary; hence a `p` on a boundary stays and a `p` in the middle of a multi-byte
character moves strictly forward, to the end of that character. This holds for the lower
endpoint as for the upper one. -/
theorem FindText_snaps_forward (self : StdRegexSearch Regex MatchResults) (bytes : List Nat)
    (sp ep : Int) (pat : Bytes) (cs : Bool) (p e : Int)
    (h : (p = (StdRegexSearch.resolveDirection self._lastDirection sp ep).1 ∧
          e = (StdRegexSearch.searchParameters lib self (Utf8.document bytes) sp ep pat
            cs)._startPosition) ∨
        (p = (StdRegexSearch.resolveDirection self._lastDirection sp ep).2.1 ∧
          e = (StdRegexSearch.searchParameters lib self (Utf8.document bytes) sp ep pat
            cs)._endPosition)) :
    Utf8.isBoundary bytes e = true ∧ 0 ≤ e ∧ e ≤ bytes.length ∧
    (p ≤ 0 → e = 0) ∧
    ((bytes.length : Int) ≤ p → e = bytes.length) ∧
    (0 ≤ p → p ≤ bytes.length →
      p ≤ e ∧ ∀ q : Int, p ≤ q → q < e → Utf8.isBoundary bytes q = false) ∧
    (Utf8.isBoundary bytes p = true → 0 ≤ p → p ≤ bytes.length → e = p) ∧
    (Utf8.isBoundary bytes p = false →
      p < e ∧ ∀ q : Int, p ≤ q → q < e → Utf8.isBoundary bytes q = false) := by
  rcases h with ⟨rfl, rfl⟩ | ⟨rfl, rfl⟩
  · exact Utf8.snap_forward bytes _
  · exact Utf8.snap_forward bytes _

/-- C14, amended, on the buffer `C3 A9 61` (an `é` of two bytes and an `a`) with the call
`FindText(doc, 1, 3, ...)`: the lower endpoint 1 is inside the `é` and the effective lower
endpoint is 2, the end of the `é`. -/
theorem FindText_snaps_forward_witness :
    (((1 : Int) = (StdRegexSearch.resolveDirection Sample.engine._lastDirection 1 3).1 ∧
        (2 : Int) = (StdRegexSearch.searchParameters Sample.lib Sample.engine
          (Utf8.document [195, 169, 97]) 1 3 (Sample.ascii "a") true)._startPosition) ∨
      ((1 : Int) = (StdRegexSearch.resolveDirection Sample.engine._lastDirection 1 3).2.1 ∧
        (2 : Int) = (StdRegexSearch.searchParameters Sample.lib Sample.engine
          (Utf8.document [195, 169, 97]) 1 3 (Sample.ascii "a") true)._endPosition)) ∧
    Utf8.isBoundary [195, 169, 97] 1 = false ∧
    (Utf8.isBoundary [195, 169, 97] 2 = true ∧ (0 : Int) ≤ 2 ∧
      (2 : Int) ≤ ([195, 169, 97] : List Nat).length ∧
      ((1 : Int) ≤ 0 → (2 : Int) = 0) ∧
      ((([195, 169, 97] : List Nat).length : Int) ≤ 1 →
        (2 : Int) = ([195, 169, 97] : List Nat).length) ∧
      ((0 : Int) ≤ 1 → (1 : Int) ≤ ([195, 169, 97] : List Nat).length →
        (1 : Int) ≤ 2 ∧
          ∀ q : Int, 1 ≤ q → q < 2 → Utf8.isBoundary [195, 169, 97] q = false) ∧
      (Utf8.isBoundary [195, 169, 97] 1 = true → (0 : Int) ≤ 1 →
        (1 : Int) ≤ ([195, 169, 97] : List Nat).length → (2 : Int) = 1) ∧
      (Utf8.isBoundary [195, 169, 97] 1 = false →
        (1 : Int) < 2 ∧
          ∀ q : Int, 1 ≤ q → q < 2 → Utf8.isBoundary [195, 169, 97] q = false)) :=
  ⟨Or.inl ⟨by decide, by decide⟩, by decide,
    FindText_snaps_forward Sample.lib Sample.engine [195, 169, 97] 1 3 (Sample.ascii "a") true
      1 2 (Or.inl ⟨by decide, by decide⟩)⟩

/-- C17, as the claim states it, fails: on the UTF-8 buffer `C3 A9 61` (an `é` of two
bytes and an `a`) position 0 is a character boundary before the end of the buffer and no
CR stands there; `nextCharacter(0)` is 1, which is inside the `é`, while the character
boundary immediately after the `é` is 2. -/
theorem nextCharacter_lands_inside_character :
    Utf8.isBoundary [195, 169, 97] 0 = true ∧
    (StdRegexSearch.searchParameters Sample.lib Sample.engine (Utf8.document [195, 169, 97])
        0 3 (Sample.ascii "a") true).nextCharacter 0 = 1 ∧
    Utf8.isBoundary [195, 169, 97] 1 = false ∧
    Utf8.forward [195, 169, 97] 2 1 = 2 := by
  refine ⟨?_, ?_, ?_, ?_⟩ <;> decide

/-- C17, amended. `nextCharacter(pos)` advances by bytes: it is `pos + 2` when a CR at
`pos` is immediately followed by LF and `pos + 1` otherwise. On a buffer in UTF-8 the
result `pos + 1` is the character boundary immediately after the character at `pos`
exactly when `pos + 1` is a character boundary, that is when that character is one byte
long; after the first byte of a multi-byte character the result is inside the character. -/
theorem nextCharacter_advances_bytes (search : SearchParameters) (bytes : List Nat)
    (pos : Int) :
    (((Utf8.document bytes).CharAt pos = 13 ∧ (Utf8.document bytes).CharAt (pos + 1) = 10) →
      ({ search with _document := Utf8.document bytes } : SearchParameters).nextCharacter pos =
        pos + 2) ∧
    (¬ ((Utf8.document bytes).CharAt pos = 13 ∧ (Utf8.document bytes).CharAt (pos + 1) = 10) →
      ({ search with _document := Utf8.document bytes } : SearchParameters).nextCharacter pos =
        pos + 1 ∧
      (Utf8.isBoundary bytes (pos + 1) = true ↔
        ({ search with _document := Utf8.document bytes } : SearchParameters).nextCharacter pos =
          Utf8.forward bytes (bytes.length - (pos + 1)).toNat (pos + 1)) ∧
      (Utf8.isBoundary bytes (pos + 1) = false →
        Utf8.isBoundary bytes
          (({ search with _document := Utf8.document bytes } : SearchParameters).nextCharacter
            pos) = false)) := by
  constructor
  · intro h
    unfold SearchParameters.nextCharacter
    rw [if_pos h]
  · intro h
    have hn : ({ search with _document := Utf8.document bytes } : SearchParameters).nextCharacter
        pos = pos + 1 := by
      unfold SearchParameters.nextCharacter
      rw [if_neg h]
    rw [hn]
    refine ⟨rfl, ?_, fun hb => hb⟩
    constructor
    · intro hb
      exact (Utf8.forward_of_boundary bytes _ (pos + 1) hb).symm
    · intro hf
      by_contra hb
      have hb1 : Utf8.isBoundary bytes (pos + 1) = false := by
        cases h1 : Utf8.isBoundary bytes (pos + 1) with
        | true => exact absurd h1 hb
        | false => rfl
      have hin := Utf8.inside_of_not_boundary bytes (pos + 1) hb1
      obtain ⟨k, hk⟩ : ∃ k, ((bytes.length : Int) - (pos + 1)).toNat = k + 1 :=
        ⟨((bytes.length : Int) - (pos + 1)).toNat - 1, by omega⟩
      rw [hk] at hf
      have := Utf8.forward_gt bytes k (pos + 1) hb1
      omega

/-- C20. `isLineEnd` tests the byte before an LF against LF where the sibling
`isLineStart` tests the CR LF pair: line 369 reads `CharAt(position-1) != '\n'`. On the
buffer CR LF, `isLineEnd(1)` holds at the LF of the pair, where no line break begins; on
the buffer LF LF, `isLineEnd(1)` does not hold at the second LF, where a line break (the
end of an empty line) begins. `isLineStart` is right on both buffers: a line starts at
position 2 of CR LF and not at 1, and at positions 1 and 2 of LF LF. -/
theorem isLineEnd_tests_wrong_byte :
    (StdRegexSearch.searchParameters Sample.lib Sample.engine (Sample.document [13, 10])
        0 2 [] true).isLineEnd 1 = true ∧
    (StdRegexSearch.searchParameters Sample.lib Sample.engine (Sample.document [10, 10])
        0 2 [] true).isLineEnd 1 = false ∧
    ((StdRegexSearch.searchParameters Sample.lib Sample.engine (Sample.document [13, 10])
        0 2 [] true).isLineStart 1,
      (StdRegexSearch.searchParameters Sample.lib Sample.engine (Sample.document [13, 10])
        0 2 [] true).isLineStart 2) = (false, true) ∧
    ((StdRegexSearch.searchParameters Sample.lib Sample.engine (Sample.document [10, 10])
        0 2 [] true).isLineStart 1,
      (StdRegexSearch.searchParameters Sample.lib Sample.engine (Sample.document [10, 10])
        0 2 [] true).isLineStart 2) = (true, true) := by
  refine ⟨?_, ?_, ?_, ?_⟩ <;> decide

/-! ### The number of passes of a backward scan -/

theorem candidates_length_lt (re : Regex) (search : SearchParameters) :
    ∀ (fuel : Nat) (start : Int) (cs : List MatchResults),
      FindTextBackward.candidates lib re search fuel start = some cs → cs.length < fuel := by
  intro fuel
  induction fuel with
  | zero => intro start cs h; simp [FindTextBackward.candidates] at h
  | succ k ih =>
    intro start cs h
    rw [FindTextBackward.candidates] at h
    by_cases hpast : start > search._endPosition
    · rw [if_pos hpast] at h; cases h; simp
    · rw [if_neg hpast] at h
      dsimp only at h
      split at h
      · simp only [Option.map_eq_some'] at h
        obtain ⟨cs1, h1, rfl⟩ := h
        have := ih _ _ h1
        simp only [List.length_cons]
        omega
      · cases h; simp

theorem candidates_exact (re : Regex) (search : SearchParameters) :
    ∀ (fuel : Nat) (start : Int) (cs : List MatchResults),
      FindTextBackward.candidates lib re search fuel start = some cs →
      FindTextBackward.candidates lib re search (cs.length + 1) start = some cs := by
  intro fuel
  induction fuel with
  | zero => intro start cs h; simp [FindTextBackward.candidates] at h
  | succ k ih =>
    intro start cs h
    rw [FindTextBackward.candidates] at h
    by_cases hpast : start > search._endPosition
    · rw [if_pos hpast] at h; cases h
      rw [List.length_nil, FindTextBackward.candidates, if_pos hpast]
    · rw [if_neg hpast] at h
      dsimp only at h
      split at h
      · rename_i hfound
        simp only [Option.map_eq_some'] at h
        obtain ⟨cs1, h1, rfl⟩ := h
        rw [List.length_cons, FindTextBackward.candidates, if_neg hpast]
        dsimp only
        rw [if_pos hfound, ih _ _ h1]
        rfl
      · rename_i hfound
        cases h
        rw [List.length_nil, FindTextBackward.candidates, if_neg hpast]
        dsimp only
        rw [if_neg hfound]

theorem candidates_short (re : Regex) (search : SearchParameters) :
    ∀ (fuel : Nat) (start : Int) (cs : List MatchResults),
      FindTextBackward.candidates lib re search fuel start = some cs →
      FindTextBackward.candidates lib re search cs.length start = none := by
  intro fuel start cs h
  cases h1 : FindTextBackward.candidates lib re search cs.length start with
  | none => rfl
  | some cs1 =>
    exfalso
    have h2 := candidates_length_lt lib re search _ _ _ h1
    have h3 := candidates_mono lib re search _ _ _ h1
    rw [candidates_exact lib re search _ _ _ h] at h3
    cases h3
    omega

theorem candidates_length_le (hp : Progress lib) (re : Regex) (search : SearchParameters) :
    ∀ (fuel : Nat) (start : Int) (cs : List MatchResults),
      FindTextBackward.candidates lib re search fuel start = some cs →
      cs.length ≤ (search._endPosition - start + 1).toNat := by
  intro fuel
  induction fuel with
  | zero => intro start cs h; simp [FindTextBackward.candidates] at h
  | succ k ih =>
    intro start cs h
    rw [FindTextBackward.candidates] at h
    by_cases hpast : start > search._endPosition
    · rw [if_pos hpast] at h; cases h; simp
    · rw [if_neg hpast] at h
      dsimp only at h
      split at h
      · rename_i hfound
        simp only [Option.map_eq_some'] at h
        obtain ⟨cs1, h1, rfl⟩ := h
        have h2 := ih _ _ h1
        have h3 := hp _ _ _ _ _ hfound.1
        have h4 := nextCharacter_gt search (lib.first (lib.regex_search search._document start
          search._endPosition re search.regexFlags).2)
        simp only [List.length_cons]
        omega
      · cases h; simp

/-- The loop runs out of fuel when the scan has more passes than fuel. -/
theorem loop_none (n : Nat) (re : Regex) :
    ∀ (fuel : Nat) (ed : EncodingDependent Regex MatchResults) (search : SearchParameters)
      (bm : MatchResults) (bp be : Int),
      ed._regex = re → ed._lastCompileFlags = search._compileFlags →
      ed._lastRegexString = search._regexString → search._direction > 0 →
      FindTextBackward.candidates lib re search fuel search._startPosition = none →
      FindTextBackward.loop (EncodingDependent.FindText lib n) fuel ed search bm bp be = none := by
  intro fuel
  induction fuel with
  | zero => intro ed search bm bp be _ _ _ _ _; rfl
  | succ k ih =>
    intro ed search bm bp be hre hf hp hd hc
    subst hre
    have hF := ED_FindText_forward_hit lib n ed search hf hp hd
    by_cases hpast : search._startPosition > search._endPosition
    · rw [FindTextBackward.candidates, if_pos hpast] at hc; cases hc
    · rw [FindTextBackward.candidates, if_neg hpast] at hc
      rw [FindTextForward_inside lib ed search hpast] at hF
      dsimp only at hF hc
      generalize lib.regex_search search._document search._startPosition
          search._endPosition ed._regex search.regexFlags = r at hc hF
      by_cases hfound : r.1 = true ∧ lib.first r.2 ≥ 0
      · rw [if_pos hfound] at hc
        simp only [Option.map_eq_none'] at hc
        rw [if_pos hfound.1] at hF
        have hm : (Match.new (some search._document) (lib.first r.2) (lib.second r.2)).found
            = true := by
          rw [Match_new_found]; exact decide_eq_true hfound.2
        rw [loop_continue _ k ed _ search search bm bp be _ hF hm]
        have hc2 := hc
        rw [← candidates_start_irrelevant lib ed._regex search
          (search.nextCharacter (lib.first r.2))] at hc2
        have hstep : ∀ (bm1 : MatchResults) (bp1 be1 : Int),
            FindTextBackward.loop (EncodingDependent.FindText lib n) k
              { ed with _match := r.2 }
              { search with _startPosition := search.nextCharacter (lib.first r.2) }
              bm1 bp1 be1 = none :=
          fun bm1 bp1 be1 => ih _ _ bm1 bp1 be1 rfl hf hp hd hc2
        split
        · exact hstep _ _ _
        · exact hstep _ _ _
      · rw [if_neg hfound] at hc; cases hc

/-- C15. Backward search terminates after a bounded number of forward passes. With a
primitive that only reports matches starting at or after the start of the pass: the start
of the scan strictly increases from one pass to the next; a pass whose start exceeds the
range end reports not-found and leaves the matcher as it was, whatever the primitive is
(it is not invoked); and the backward search over `[s, e]`, `s <= e`, returns after
exactly as many passes as it has candidates plus one (it runs out of fuel with less, one
unit of fuel being spent per pass), which is at most `e - s + 2`. -/
theorem FindTextBackward_bounded_passes (hp : Progress lib) (n : Nat)
    (ed : EncodingDependent Regex MatchResults) (search : SearchParameters)
    (hf : ed._lastCompileFlags = search._compileFlags)
    (hs : ed._lastRegexString = search._regexString)
    (hle : search._startPosition ≤ search._endPosition) :
    (∀ start : Int,
      (lib.regex_search search._document start search._endPosition ed._regex
        search.regexFlags).1 = true →
      start < search.nextCharacter (lib.first (lib.regex_search search._document start
        search._endPosition ed._regex search.regexFlags).2)) ∧
    (∀ (lib2 : RegexLib Regex MatchResults) (ed2 : EncodingDependent Regex MatchResults)
        (s2 : SearchParameters), s2._startPosition > s2._endPosition →
      FindTextForward lib2 ed2 s2 = (ed2, Match.default)) ∧
    (∃ cands : List MatchResults,
      FindTextBackward.candidates lib ed._regex search (cands.length + 1)
        search._startPosition = some cands ∧
      (cands.length : Int) + 1 ≤ search._endPosition - search._startPosition + 2 ∧
      (∃ o, FindTextBackward lib (EncodingDependent.FindText lib n) (cands.length + 1) ed search =
        some o) ∧
      FindTextBackward lib (EncodingDependent.FindText lib n) cands.length ed search = none ∧
      (∀ fuel : Nat, (search._endPosition - search._startPosition + 2).toNat ≤ fuel →
        ∃ o, FindTextBackward lib (EncodingDependent.FindText lib n) fuel ed search = some o)) := by
  refine ⟨?_, ?_, ?_⟩
  · intro start hfound
    have h1 := hp _ _ _ _ _ hfound
    have h2 := nextCharacter_gt search (lib.first (lib.regex_search search._document start
      search._endPosition ed._regex search.regexFlags).2)
    omega
  · intro lib2 ed2 s2 hpast
    exact FindTextForward_past lib2 ed2 s2 hpast
  · obtain ⟨cands, hcs⟩ := candidates_total lib hp ed._regex search
      ((search._endPosition - search._startPosition + 1).toNat + 1) search._startPosition
      (le_refl _)
    have hlen := candidates_length_le lib hp ed._regex search _ _ _ hcs
    have hex := candidates_exact lib ed._regex search _ _ _ hcs
    have hshort := candidates_short lib ed._regex search _ _ _ hcs
    have hloop : ∀ (fuel : Nat) (cs : List MatchResults),
        FindTextBackward.candidates lib ed._regex search fuel search._startPosition = some cs →
        ∃ o, FindTextBackward lib (EncodingDependent.FindText lib n) fuel ed search = some o := by
      intro fuel cs h
      have h1 : FindTextBackward.candidates lib ed._regex { search with _direction := 1 } fuel
          ({ search with _direction := 1 } : SearchParameters)._startPosition = some cs := by
        rw [candidates_congr lib ed._regex { search with _direction := 1 } search rfl rfl rfl]
        exact h
      obtain ⟨ed2, start2, h2, _⟩ :=
        loop_spec lib n ed._regex fuel ed { search with _direction := 1 } lib.defaultResults
          (-1, -1) cs rfl hf hs Int.one_pos h1
      exact ⟨_, h2⟩
    refine ⟨cands, hex, by omega, hloop _ _ hex, ?_, ?_⟩
    · have h1 : FindTextBackward.candidates lib ed._regex { search with _direction := 1 }
          cands.length ({ search with _direction := 1 } : SearchParameters)._startPosition =
          none := by
        rw [candidates_congr lib ed._regex { search with _direction := 1 } search rfl rfl rfl]
        exact hshort
      exact loop_none lib n ed._regex cands.length ed { search with _direction := 1 }
        lib.defaultResults (-1) (-1) rfl hf hs Int.one_pos h1
    · intro fuel hfuel
      obtain ⟨cs, h⟩ := candidates_total lib hp ed._regex search fuel search._startPosition
        (by omega)
      exact hloop fuel cs h

/-- C15 on a concrete buffer: the backward scan for `a+` over `[0, 6]` of `aaabaaa` has
the five candidates `[0,3)`, `[1,3)`, `[2,3)`, `[4,6)`, `[5,6)`, hence six passes, within
the bound `6 - 0 + 2`. -/
theorem FindTextBackward_bounded_passes_witness :
    Progress Sample.lib ∧
    Sample.matcher._lastCompileFlags = Sample.backwardSearch._compileFlags ∧
    Sample.matcher._lastRegexString = Sample.backwardSearch._regexString ∧
    Sample.backwardSearch._startPosition ≤ Sample.backwardSearch._endPosition ∧
    (FindTextBackward.candidates Sample.lib Sample.matcher._regex Sample.backwardSearch 6
        Sample.backwardSearch._startPosition).map
      (fun cands => cands.map (fun c => (Sample.lib.first c, Sample.lib.second c))) =
      some [(0, 3), (1, 3), (2, 3), (4, 6), (5, 6)] ∧
    (∃ cands : List Sample.Results,
      FindTextBackward.candidates Sample.lib Sample.matcher._regex Sample.backwardSearch
        (cands.length + 1) Sample.backwardSearch._startPosition = some cands ∧
      (cands.length : Int) + 1 ≤
        Sample.backwardSearch._endPosition - Sample.backwardSearch._startPosition + 2 ∧
      (∃ o, FindTextBackward Sample.lib (EncodingDependent.FindText Sample.lib 0)
        (cands.length + 1) Sample.matcher Sample.backwardSearch = some o) ∧
      FindTextBackward Sample.lib (EncodingDependent.FindText Sample.lib 0) cands.length
        Sample.matcher Sample.backwardSearch = none ∧
      (∀ fuel : Nat,
        (Sample.backwardSearch._endPosition - Sample.backwardSearch._startPosition + 2).toNat
          ≤ fuel →
        ∃ o, FindTextBackward Sample.lib (EncodingDependent.FindText Sample.lib 0) fuel
          Sample.matcher Sample.backwardSearch = some o)) :=
  ⟨Sample.lib_progress, by decide, by decide, by decide, by decide,
    (FindTextBackward_bounded_passes Sample.lib Sample.lib_progress 0 Sample.matcher
      Sample.backwardSearch (by decide) (by decide) (by decide)).2.2⟩

/-- C16. The compile step recompiles exactly when the pair (pattern text, compile flags)
differs from the cached key, the key of the previous successful compile: on an equal key
the compiler is not consulted (whatever library is plugged in, the matcher is returned
as it is) and on a different key the result is that of the compiler. When the compiler
rejects the pattern the matcher, key and compiled pattern included, is left exactly as
it was, so that a later call with the cached key reuses the cache without compiling. -/
theorem compileRegex_recompiles_iff (ed : EncodingDependent Regex MatchResults) (pat : Bytes)
    (flags : Int) :
    ((ed._lastCompileFlags = flags ∧ ed._lastRegexString = pat) →
      ∀ lib2 : RegexLib Regex MatchResults,
        EncodingDependent.compileRegex lib2 ed pat flags = (ed, Completion.normal ())) ∧
    (¬ (ed._lastCompileFlags = flags ∧ ed._lastRegexString = pat) →
      EncodingDependent.compileRegex lib ed pat flags =
        match lib.basic_regex (StdGetUnicode lib pat true) flags with
        | none => (ed, Completion.regex_error)
        | some re =>
          ({ ed with _regex := re, _lastRegexString := pat, _lastCompileFlags := flags },
            Completion.normal ())) ∧
    (∀ ed1, EncodingDependent.compileRegex lib ed pat flags = (ed1, Completion.regex_error) →
      ed1 = ed ∧
      lib.basic_regex (StdGetUnicode lib pat true) flags = none ∧
      ∀ lib2 : RegexLib Regex MatchResults,
        EncodingDependent.compileRegex lib2 ed1 ed._lastRegexString ed._lastCompileFlags =
          (ed, Completion.normal ())) ∧
    (∀ ed1, EncodingDependent.compileRegex lib ed pat flags = (ed1, Completion.normal ()) →
      ed1._lastRegexString = pat ∧ ed1._lastCompileFlags = flags ∧
      ∀ lib2 : RegexLib Regex MatchResults,
        EncodingDependent.compileRegex lib2 ed1 pat flags = (ed1, Completion.normal ())) := by
  refine ⟨?_, ?_, ?_, ?_⟩
  · intro h lib2
    exact compileRegex_hit lib2 ed pat flags h.1 h.2
  · intro h
    have hk : ed._lastCompileFlags ≠ flags ∨ ed._lastRegexString ≠ pat := by
      by_contra hn
      apply h
      constructor
      · by_contra h1; exact hn (Or.inl h1)
      · by_contra h1; exact hn (Or.inr h1)
    unfold EncodingDependent.compileRegex
    rw [if_pos hk]
  · intro ed1 h
    rcases compileRegex_cases lib ed pat flags with ⟨_, _, h3⟩ | ⟨_, h2, h3⟩ | ⟨re, _, _, h3⟩
    · rw [h3] at h; cases h
    · rw [h3] at h
      simp only [Prod.mk.injEq, and_true] at h
      subst h
      exact ⟨rfl, h2, fun lib2 => compileRegex_hit lib2 ed _ _ rfl rfl⟩
    · rw [h3] at h; cases h
  · intro ed1 h
    obtain ⟨h1, h2, _⟩ := compileRegex_normal lib ed ed1 pat flags h
    exact ⟨h2, h1, fun lib2 => compileRegex_hit lib2 ed1 pat flags h1 h2⟩

/-! ### Which candidate of equal end is kept -/

/-- C19. During a backward search over a range whose snapped endpoints lie in
`[0, Length]`, with a primitive that only reports matches inside the searched range and
a buffer whose byte at offset `Length` is not CR, every byte read that the
`nextCharacter` step of the scan issues is at an offset in `[0, Length]`; the read at
`position + 1` is made only when the byte at `position` is CR. (`nextCharacter` is called
on the position of each candidate of the scan; the call returns for every fuel from
`fuelBound` on.) -/
theorem FindText_backward_reads_in_buffer (self : StdRegexSearch Regex MatchResults)
    (hR : Reachable lib self) (hin : InRange lib) (fuel : Nat) (doc : Document) (sp ep : Int)
    (pat : Bytes) (cs w ws : Bool) (fl len : Int) (re : Regex)
    (hre : lib.basic_regex (StdGetUnicode lib pat true) (StdRegexSearch.compileFlags lib cs) =
      some re)
    (hback : sp > ep ∨ (sp = ep ∧ self._lastDirection < 0))
    (hfuel : fuelBound doc sp ep ≤ fuel)
    (hlo : 0 ≤ snap doc ep) (hhi : snap doc sp ≤ doc.Length)
    (hsentinel : doc.CharAt doc.Length ≠ 13) :
    ∃ self1 r len1 cands,
      StdRegexSearch.FindText lib fuel self doc sp ep pat cs w ws fl len = some (self1, r, len1) ∧
      FindTextBackward.candidates lib re
        (StdRegexSearch.searchParameters lib self doc sp ep pat cs) fuel (snap doc ep) =
          some cands ∧
      ∀ c ∈ cands,
        ∀ x ∈ (StdRegexSearch.searchParameters lib self doc sp ep pat cs).nextCharacterReads
            (lib.first c),
          (0 ≤ x ∧ x ≤ doc.Length) ∧
          (x = lib.first c + 1 → doc.CharAt (lib.first c) = 13) := by
  obtain ⟨self1, cands, hcs, h1, _⟩ := FindText_backward_spec lib self hR
    (InRange.progress lib hin) fuel doc sp ep pat cs w ws fl len re hre hback hfuel
  refine ⟨self1, _, _, cands, h1, hcs, ?_⟩
  have hrange := candidates_in_range lib hin re _ fuel _ cands hcs
  rw [searchParameters_backward lib self doc sp ep pat cs hback] at hrange ⊢
  dsimp only at hrange
  intro c hc x hx
  obtain ⟨h2, h3, h4⟩ := hrange c hc
  unfold SearchParameters.nextCharacterReads at hx
  dsimp only at hx
  by_cases hcr : doc.CharAt (lib.first c) = 13
  · rw [if_pos hcr] at hx
    have hne : lib.first c ≠ doc.Length := by
      intro heq
      rw [heq] at hcr
      exact hsentinel hcr
    simp only [List.mem_cons, List.mem_singleton, List.not_mem_nil, or_false] at hx
    rcases hx with rfl | rfl
    · exact ⟨⟨by omega, by omega⟩, fun _ => hcr⟩
    · exact ⟨⟨by omega, by omega⟩, fun _ => hcr⟩
  · rw [if_neg hcr] at hx
    simp only [List.mem_singleton] at hx
    subst hx
    exact ⟨⟨by omega, by omega⟩, fun h => by omega⟩

/-- C19 on a concrete buffer: `a+` backward over `[0, 6]` of `aaabaaa` (length 7). -/
theorem FindText_backward_reads_in_buffer_witness :
    Reachable Sample.lib Sample.engine ∧ InRange Sample.lib ∧
    Sample.lib.basic_regex (StdGetUnicode Sample.lib (Sample.ascii "a+") true)
      (StdRegexSearch.compileFlags Sample.lib true) = some (Sample.compiled "a+") ∧
    fuelBound (Sample.document (Sample.ascii "aaabaaa")) 6 0 ≤ 9 ∧
    0 ≤ snap (Sample.document (Sample.ascii "aaabaaa")) 0 ∧
    snap (Sample.document (Sample.ascii "aaabaaa")) 6 ≤
      (Sample.document (Sample.ascii "aaabaaa")).Length ∧
    (Sample.document (Sample.ascii "aaabaaa")).CharAt
      (Sample.document (Sample.ascii "aaabaaa")).Length ≠ 13 ∧
    (∃ self1 r len1 cands,
      StdRegexSearch.FindText Sample.lib 9 Sample.engine
        (Sample.document (Sample.ascii "aaabaaa")) 6 0 (Sample.ascii "a+")
        true false false 0 0 = some (self1, r, len1) ∧
      FindTextBackward.candidates Sample.lib (Sample.compiled "a+")
        (StdRegexSearch.searchParameters Sample.lib Sample.engine
          (Sample.document (Sample.ascii "aaabaaa")) 6 0 (Sample.ascii "a+") true) 9
        (snap (Sample.document (Sample.ascii "aaabaaa")) 0) = some cands ∧
      ∀ c ∈ cands,
        ∀ x ∈ (StdRegexSearch.searchParameters Sample.lib Sample.engine
            (Sample.document (Sample.ascii "aaabaaa")) 6 0 (Sample.ascii "a+")
            true).nextCharacterReads (Sample.lib.first c),
          (0 ≤ x ∧ x ≤ (Sample.document (Sample.ascii "aaabaaa")).Length) ∧
          (x = Sample.lib.first c + 1 →
            (Sample.document (Sample.ascii "aaabaaa")).CharAt (Sample.lib.first c) = 13)) :=
  ⟨Reachable.fresh, Sample.lib_inRange, by decide, by decide, by decide, by decide, by decide,
    FindText_backward_reads_in_buffer Sample.lib Sample.engine Reachable.fresh
      Sample.lib_inRange 9 (Sample.document (Sample.ascii "aaabaaa")) 6 0 (Sample.ascii "a+")
      true false false 0 0 (Sample.compiled "a+") (by decide) (by decide) (by decide)
      (by decide) (by decide) (by decide)⟩

end Properties

end Scintilla
